import Mathlib

/-!
# Charged particle simulator: physics core

A shallow embedding of the physics core of the charged particle simulator
(`engine/physics`, `engine/math`, `engine/scene`, `engine/interaction`) and
theorems about it.

Number model.  The C++ `double` is idealised as an arbitrary linearly ordered
field `F` together with a square-root function `sqrt : F → F` that is passed
explicitly to every definition that calls `glm::length` or `glm::normalize`.
Rounding, overflow, NaN and infinities are outside the model.  Theorems that
depend on `sqrt` being an exact square root assume `SqrtSpec sqrt`; they are
instantiated at `F = ℝ`, `sqrt = Real.sqrt`.

The `glm` vector operations are the usual componentwise ones:
`glm::length v = sqrt (dot v v)` and
`glm::normalize v = v * inversesqrt (dot v v)`.
-/

namespace ChargedParticleSim

/-! ## Vectors (`glm::dvec3`) -/

/-- Three-component vector, the embedding of `glm::dvec3`. -/
@[ext]
structure Vec3 (F : Type) where
  x : F
  y : F
  z : F

namespace Vec3

variable {F : Type} [LinearOrderedField F]

instance : Zero (Vec3 F) := ⟨⟨0, 0, 0⟩⟩

instance : Add (Vec3 F) := ⟨fun a b => ⟨a.x + b.x, a.y + b.y, a.z + b.z⟩⟩

instance : Sub (Vec3 F) := ⟨fun a b => ⟨a.x - b.x, a.y - b.y, a.z - b.z⟩⟩

instance : Neg (Vec3 F) := ⟨fun a => ⟨-a.x, -a.y, -a.z⟩⟩

/-- Scalar times vector, `s * v`. -/
instance : HMul F (Vec3 F) (Vec3 F) := ⟨fun s v => ⟨s * v.x, s * v.y, s * v.z⟩⟩

/-- Vector times scalar, `v * s`. -/
instance : HMul (Vec3 F) F (Vec3 F) := ⟨fun v s => ⟨v.x * s, v.y * s, v.z * s⟩⟩

/-- Vector divided by scalar, `v / s`. -/
instance : HDiv (Vec3 F) F (Vec3 F) := ⟨fun v s => ⟨v.x / s, v.y / s, v.z / s⟩⟩

/-- Dot product, `glm::dot`. -/
def dot (a b : Vec3 F) : F := a.x * b.x + a.y * b.y + a.z * b.z

/-- Euclidean length, `glm::length v = sqrt (dot v v)`. -/
def length (sqrt : F → F) (v : Vec3 F) : F := sqrt (dot v v)

/-- Unit vector, `glm::normalize v = v * inversesqrt (dot v v)`. -/
def normalize (sqrt : F → F) (v : Vec3 F) : Vec3 F := v * (1 / sqrt (dot v v))

/-- Vector sum of a list of vectors (the zero vector for the empty list). -/
def sum : List (Vec3 F) → Vec3 F
  | [] => 0
  | v :: vs => v + sum vs

end Vec3

/-! ## Constants (`engine/core/Constants.hpp`) -/

namespace PhysicsConstants

variable {F : Type} [LinearOrderedField F]

/-- Speed of light in vacuum (m/s). -/
def c : F := 299792458.0

/-- Coulomb constant. -/
def k : F := 8.9875517923e9

/-- Minimum safe distance for field calculations (meters). -/
def MIN_SAFE_DISTANCE : F := 1e-15

/-- Maximum reasonable velocity (10% of speed of light). -/
def MAX_VELOCITY : F := 0.1 * c

/-- Elementary charge. -/
def e : F := 1.602176634e-19

/-- Electron mass. -/
def m_e : F := 9.1093837015e-31

/-- Proton mass. -/
def m_p : F := 1.67262192369e-27

end PhysicsConstants

/-- The value of `std::numeric_limits<double>::max()`. -/
def DBL_MAX {F : Type} [LinearOrderedField F] : F := 1.7976931348623157e308

/-! ## Particles (`engine/physics/Particle.hpp`) -/

/-- One sample of a particle's history, `Particle::HistoryPoint`. -/
structure HistoryPoint (F : Type) where
  position : Vec3 F
  velocity : Vec3 F
  timestamp : F

/-- A charged particle, `struct Particle`. -/
structure Particle (F : Type) where
  position : Vec3 F
  velocity : Vec3 F
  acceleration : Vec3 F
  charge : F
  mass : F
  visualRadius : F
  color : Vec3 F
  isBeingDragged : Bool
  isFixed : Bool
  history : List (HistoryPoint F)

namespace Particle

variable {F : Type} [LinearOrderedField F]

/-- Sign of the charge, `Particle::getChargeSign`. -/
def getChargeSign (p : Particle F) : Int :=
  if p.charge > 1e-20 then 1
  else if p.charge < -1e-20 then -1
  else 0

/-- Colour by charge sign, `Particle::updateColorFromCharge`. -/
def updateColorFromCharge (p : Particle F) : Particle F :=
  let sign := p.getChargeSign
  if sign > 0 then
    { p with color := ⟨1.0, 0.3, 0.2⟩ }
  else if sign < 0 then
    { p with color := ⟨0.2, 0.5, 1.0⟩ }
  else
    { p with color := ⟨0.5, 0.5, 0.5⟩ }

/-- Named constructor `Particle::createElectron`; the colour of the
uninitialised particle is taken as zero before it is overwritten. -/
def createElectron (pos : Vec3 F) : Particle F :=
  updateColorFromCharge
    { position := pos
      velocity := 0
      acceleration := 0
      charge := -PhysicsConstants.e
      mass := PhysicsConstants.m_e
      visualRadius := 1e-10
      color := 0
      isBeingDragged := false
      isFixed := false
      history := [] }

/-- Named constructor `Particle::createProton`. -/
def createProton (pos : Vec3 F) : Particle F :=
  updateColorFromCharge
    { position := pos
      velocity := 0
      acceleration := 0
      charge := PhysicsConstants.e
      mass := PhysicsConstants.m_p
      visualRadius := 1e-10
      color := 0
      isBeingDragged := false
      isFixed := false
      history := [] }

end Particle

/-! ## Electric field (`engine/physics/ElectricField.cpp`) -/

namespace ElectricField

variable {F : Type} [LinearOrderedField F] (sqrt : F → F)

/-- Field of one point charge, `ElectricField::fromPointCharge`. -/
def fromPointCharge (evalPoint chargePos : Vec3 F) (q : F) : Vec3 F :=
  let r := evalPoint - chargePos
  let rMag := Vec3.length sqrt r
  if rMag < PhysicsConstants.MIN_SAFE_DISTANCE then
    0
  else
    let rHat := r / rMag
    let fieldMagnitude := PhysicsConstants.k * q / (rMag * rMag)
    fieldMagnitude * rHat

/-- Superposed field of all particles, `ElectricField::totalField`: a loop
that accumulates into `totalE`, skipping particles at the evaluation point. -/
def totalField (evalPoint : Vec3 F) (particles : List (Particle F)) : Vec3 F :=
  particles.foldl
    (fun totalE particle =>
      if Vec3.length sqrt (evalPoint - particle.position)
          < PhysicsConstants.MIN_SAFE_DISTANCE then
        totalE
      else
        totalE + fromPointCharge sqrt evalPoint particle.position particle.charge)
    0

/-- Field magnitude, `ElectricField::magnitude`. -/
def magnitude (evalPoint : Vec3 F) (particles : List (Particle F)) : F :=
  let E := totalField sqrt evalPoint particles
  Vec3.length sqrt E

/-- Field direction, `ElectricField::direction`. -/
def direction (evalPoint : Vec3 F) (particles : List (Particle F)) : Vec3 F :=
  let E := totalField sqrt evalPoint particles
  let EMag := Vec3.length sqrt E
  if EMag < 1e-20 then
    0
  else
    Vec3.normalize sqrt E

/-- The nearest-timestamp search loop of `retardedField`: the state is
`(minTimeDiff, bestIndex)` and `i` is the index of the head of the remaining
history. -/
def nearestLoop (retardedTime : F) :
    List (HistoryPoint F) → Nat → F × Int → F × Int
  | [], _, st => st
  | h :: rest, i, (minTimeDiff, bestIndex) =>
    let timeDiff := |h.timestamp - retardedTime|
    if timeDiff < minTimeDiff then
      nearestLoop retardedTime rest (i + 1) (timeDiff, (i : Int))
    else
      nearestLoop retardedTime rest (i + 1) (minTimeDiff, bestIndex)

/-- Position of the source at the retarded time, the lookup part of
`ElectricField::retardedField`.  The indices read are in range whenever the
branch that reads them is taken; the `none` alternatives keep the function
total. -/
def retardedPosition (retardedTime : F) (source : Particle F) : Vec3 F :=
  if source.history.isEmpty then
    source.position
  else
    let st := nearestLoop retardedTime source.history 0 (DBL_MAX, -1)
    let minTimeDiff := st.1
    let bestIndex := st.2
    if bestIndex ≥ 0 then
      match source.history[bestIndex.toNat]? with
      | none => source.position
      | some best =>
        if minTimeDiff < 1e-9 then
          best.position
        else if bestIndex > 0 ∧ bestIndex < (source.history.length : Int) - 1 then
          match source.history[(bestIndex - 1).toNat]?,
                source.history[(bestIndex + 1).toNat]? with
          | some p1, some p2 =>
            let t1 := p1.timestamp
            let t2 := p2.timestamp
            if |t2 - t1| > 1e-9 then
              let alpha := (retardedTime - t1) / (t2 - t1)
              p1.position + alpha * (p2.position - p1.position)
            else
              best.position
          | _, _ => best.position
        else
          best.position
    else
      source.position

/-- Time-delayed field of one source, `ElectricField::retardedField`. -/
def retardedField (evalPoint : Vec3 F) (currentTime : F) (source : Particle F) : Vec3 F :=
  let distance := Vec3.length sqrt (evalPoint - source.position)
  let retardedTime := currentTime - distance / PhysicsConstants.c
  fromPointCharge sqrt evalPoint (retardedPosition retardedTime source) source.charge

end ElectricField

/-! ## Integrators (`engine/math/Integrators.hpp`) -/

/-- Result of `verletStep`. -/
structure VerletResult (F : Type) where
  position : Vec3 F
  velocity : Vec3 F

/-- Result of `eulerStep`. -/
structure EulerResult (F : Type) where
  position : Vec3 F
  velocity : Vec3 F

section Integrators

variable {F : Type} [LinearOrderedField F]

/-- Velocity Verlet integrator, `verletStep`. -/
def verletStep (position velocity acceleration : Vec3 F) (dt : F) : VerletResult F :=
  { velocity := velocity + acceleration * dt
    position := position + velocity * dt + (0.5 : F) * acceleration * dt * dt }

/-- Semi-implicit Euler integrator, `eulerStep`. -/
def eulerStep (position velocity acceleration : Vec3 F) (dt : F) : EulerResult F :=
  let velocity' := velocity + acceleration * dt
  { velocity := velocity'
    position := position + velocity' * dt }

end Integrators

/-! ## Particle system (`engine/scene/ParticleSystem.cpp`) -/

/-- The integration method, `ParticleSystem::IntegrationMethod`. -/
inductive IntegrationMethod where
  | EULER
  | VERLET
  deriving DecidableEq

/-- State of a `ParticleSystem`. -/
structure ParticleSystem (F : Type) where
  m_particles : List (Particle F)
  m_initialParticles : List (Particle F)
  m_integrationMethod : IntegrationMethod
  m_collisionPrevention : Bool
  m_minSeparation : F

namespace ParticleSystem

variable {F : Type} [LinearOrderedField F] (sqrt : F → F)

/-- The constructor `ParticleSystem::ParticleSystem()`: an empty system with
the Verlet method, collision prevention on and minimum separation `1e-12`. -/
def init : ParticleSystem F :=
  { m_particles := []
    m_initialParticles := []
    m_integrationMethod := IntegrationMethod.VERLET
    m_collisionPrevention := true
    m_minSeparation := 1e-12 }

/-- Append a particle to the live vector and to the initial snapshot,
`ParticleSystem::addParticle`. -/
def addParticle (particle : Particle F) (sys : ParticleSystem F) : ParticleSystem F :=
  { sys with
    m_particles := sys.m_particles ++ [particle]
    m_initialParticles := sys.m_initialParticles ++ [particle] }

/-- The setter `setMinSeparation`. -/
def setMinSeparation (minSep : F) (sys : ParticleSystem F) : ParticleSystem F :=
  { sys with m_minSeparation := minSep }

/-- Net force on `target`, `ParticleSystem::computeNetForce`; `m_particles`
is the content of the particle vector at the time of the call. -/
def computeNetForce (m_particles : List (Particle F)) (target : Particle F) : Vec3 F :=
  let E_total := ElectricField.totalField sqrt target.position m_particles
  target.charge * E_total

/-- Body of the first loop of `step`, run on the element `particle` while the
particle vector holds `m_particles`. -/
def forceBody (m_particles : List (Particle F)) (particle : Particle F) : Particle F :=
  if particle.isFixed || particle.isBeingDragged then
    particle
  else
    let force := computeNetForce sqrt m_particles particle
    { particle with acceleration := force / particle.mass }

/-- The first loop of `step` as an in-place traversal: `done` are the
elements already visited (and overwritten), the second list the elements
still to visit; the body of each iteration reads the whole current vector. -/
def forceLoopFrom : List (Particle F) → List (Particle F) → List (Particle F)
  | done, [] => done
  | done, particle :: rest =>
    forceLoopFrom (done ++ [forceBody sqrt (done ++ particle :: rest) particle]) rest

/-- The first loop of `step`: forces and accelerations. -/
def forceLoop (m_particles : List (Particle F)) : List (Particle F) :=
  forceLoopFrom sqrt [] m_particles

/-- Body of the second loop of `step`: integrate one particle. -/
def integrateBody (method : IntegrationMethod) (dt : F) (particle : Particle F) :
    Particle F :=
  if particle.isFixed || particle.isBeingDragged then
    particle
  else
    match method with
    | IntegrationMethod.VERLET =>
      let result := verletStep particle.position particle.velocity particle.acceleration dt
      { particle with position := result.position, velocity := result.velocity }
    | IntegrationMethod.EULER =>
      let result := eulerStep particle.position particle.velocity particle.acceleration dt
      { particle with position := result.position, velocity := result.velocity }

/-- Body of the inner loop of `applyCollisionPrevention` for the index pair
`(i, j)` with `i < j`. -/
def collisionPair (m_minSeparation : F) (ps : List (Particle F)) (i j : Nat) :
    List (Particle F) :=
  match ps[i]?, ps[j]? with
  | some p1, some p2 =>
    if p1.isFixed || p1.isBeingDragged || p2.isFixed || p2.isBeingDragged then
      ps
    else
      let r := p2.position - p1.position
      let distance := Vec3.length sqrt r
      if distance < m_minSeparation ∧ distance > 1e-15 then
        let overlap := m_minSeparation - distance
        let repulsionStrength : F := 1e-10
        let direction := Vec3.normalize sqrt r
        let repulsionForce := direction * repulsionStrength * overlap
        (ps.set i { p1 with acceleration := p1.acceleration - repulsionForce / p1.mass }).set j
          { p2 with acceleration := p2.acceleration + repulsionForce / p2.mass }
      else
        ps
  | _, _ => ps

/-- Soft repulsion, `ParticleSystem::applyCollisionPrevention`: the loops
`for i in [0, size)` and `for j in [i + 1, size)`; the size does not change
while they run. -/
def applyCollisionPrevention (m_minSeparation : F) (ps : List (Particle F)) :
    List (Particle F) :=
  (List.range ps.length).foldl
    (fun acc i =>
      (List.range' (i + 1) (ps.length - (i + 1))).foldl
        (fun acc2 j => collisionPair sqrt m_minSeparation acc2 i j) acc)
    ps

/-- Body of the loop of `clampVelocities`. -/
def clampBody (particle : Particle F) : Particle F :=
  let speed := Vec3.length sqrt particle.velocity
  if speed > PhysicsConstants.MAX_VELOCITY then
    { particle with
      velocity := Vec3.normalize sqrt particle.velocity * (PhysicsConstants.MAX_VELOCITY : F) }
  else
    particle

/-- Velocity clamp, `ParticleSystem::clampVelocities`. -/
def clampVelocities (ps : List (Particle F)) : List (Particle F) :=
  ps.map (clampBody sqrt)

/-- The particle vector of a non-empty system just before `step` calls
`clampVelocities`: forces, integration and collision prevention are done. -/
def beforeClamp (dt : F) (sys : ParticleSystem F) : List (Particle F) :=
  let ps1 := forceLoop sqrt sys.m_particles
  let ps2 := ps1.map (integrateBody sys.m_integrationMethod dt)
  if sys.m_collisionPrevention then
    applyCollisionPrevention sqrt sys.m_minSeparation ps2
  else
    ps2

/-- One simulation tick, `ParticleSystem::step`. -/
def step (dt : F) (sys : ParticleSystem F) : ParticleSystem F :=
  if sys.m_particles.isEmpty then
    sys
  else
    { sys with m_particles := clampVelocities sqrt (beforeClamp sqrt dt sys) }

/-- The system after `n` calls of `step(dt)`. -/
def stepN (dt : F) : Nat → ParticleSystem F → ParticleSystem F
  | 0, sys => sys
  | n + 1, sys => stepN dt n (step sqrt dt sys)

/-- Remove the particle at `index`, `ParticleSystem::removeParticle`. -/
def removeParticle (index : Int) (sys : ParticleSystem F) : ParticleSystem F :=
  if index ≥ 0 ∧ index < (sys.m_particles.length : Int) then
    { sys with
      m_particles := sys.m_particles.eraseIdx index.toNat
      m_initialParticles :=
        if index < (sys.m_initialParticles.length : Int) then
          sys.m_initialParticles.eraseIdx index.toNat
        else
          sys.m_initialParticles }
  else
    sys

/-- Body of the loop of `reset`. -/
def resetBody (particle : Particle F) : Particle F :=
  { particle with velocity := 0, acceleration := 0, isBeingDragged := false }

/-- Back to the initial particles, `ParticleSystem::reset`. -/
def reset (sys : ParticleSystem F) : ParticleSystem F :=
  { sys with m_particles := sys.m_initialParticles.map resetBody }

/-- One call of the public interface of `ParticleSystem`. -/
inductive Call (F : Type) where
  | addParticle (particle : Particle F)
  | removeParticle (index : Int)
  | step (dt : F)
  | reset

/-- Perform one call. -/
def perform (sys : ParticleSystem F) : Call F → ParticleSystem F
  | Call.addParticle particle => addParticle particle sys
  | Call.removeParticle index => removeParticle index sys
  | Call.step dt => step sqrt dt sys
  | Call.reset => reset sys

/-- The system after a sequence of calls, the first call first. -/
def performAll (calls : List (Call F)) (sys : ParticleSystem F) : ParticleSystem F :=
  calls.foldl (perform sqrt) sys

/-- The particles that were added and not removed, in the order in which they
were added and as they were when added, as the specification describes the
initial snapshot: `addParticle` appends, `removeParticle` with a valid index
deletes the entry at that index, every other call leaves the record alone. -/
def addedNotRemoved : List (Call F) → List (Particle F) → List (Particle F)
  | [], record => record
  | Call.addParticle particle :: calls, record => addedNotRemoved calls (record ++ [particle])
  | Call.removeParticle index :: calls, record =>
    if 0 ≤ index ∧ index < (record.length : Int) then
      addedNotRemoved calls (record.eraseIdx index.toNat)
    else
      addedNotRemoved calls record
  | Call.step _ :: calls, record => addedNotRemoved calls record
  | Call.reset :: calls, record => addedNotRemoved calls record

end ParticleSystem

/-! ## Drag controller (`engine/interaction/DragController.cpp`) -/

/-- A pointer ray, `struct Ray`. -/
structure Ray (F : Type) where
  origin : Vec3 F
  direction : Vec3 F

/-- The drag state, `DragController::State`. -/
inductive DragState where
  | IDLE
  | DRAGGING
  | RELEASING
  deriving DecidableEq

/-- One sample of the drag history, `DragController::MotionPoint`. -/
structure MotionPoint (F : Type) where
  position : Vec3 F
  timestamp : F

/-- State of a `DragController`.  The pointer `m_particle` addresses an
element of the particle vector and is kept as its index, `none` for
`nullptr`. -/
structure DragController (F : Type) where
  m_state : DragState
  m_particle : Option Nat
  m_dragPlaneNormal : Vec3 F
  m_dragPlanePoint : Vec3 F
  m_cameraPosition : Vec3 F
  m_positionHistory : List (MotionPoint F)
  m_maxReleaseSpeed : F

namespace DragController

variable {F : Type} [LinearOrderedField F] (sqrt : F → F)

/-- Capacity of the drag history. -/
def MAX_HISTORY : Nat := 10

/-- Maximum reasonable release velocity, `PhysicsConstants::MAX_RELEASE_SPEED`. -/
def MAX_RELEASE_SPEED : F := 1e6

/-- The constructor `DragController::DragController()`. -/
def init : DragController F :=
  { m_state := DragState.IDLE
    m_particle := none
    m_dragPlaneNormal := ⟨0, 1, 0⟩
    m_dragPlanePoint := 0
    m_cameraPosition := 0
    m_positionHistory := []
    m_maxReleaseSpeed := MAX_RELEASE_SPEED }

/-- The setter `setMaxReleaseSpeed`. -/
def setMaxReleaseSpeed (maxSpeed : F) (dc : DragController F) : DragController F :=
  { dc with m_maxReleaseSpeed := maxSpeed }

/-- Write through the pointer: apply `f` to the particle at index `i`; the
vector is left alone when `i` does not address an element. -/
def writeParticle (i : Nat) (f : Particle F → Particle F) (particles : List (Particle F)) :
    List (Particle F) :=
  match particles[i]? with
  | some p => particles.set i (f p)
  | none => particles

/-- Start dragging the particle at index `i`, `DragController::beginDrag`. -/
def beginDrag (i : Nat) (hitPoint cameraPos : Vec3 F)
    (w : DragController F × List (Particle F)) : DragController F × List (Particle F) :=
  let toParticle := hitPoint - cameraPos
  let dist := Vec3.length sqrt toParticle
  let normal : Vec3 F := if dist > 1e-10 then Vec3.normalize sqrt toParticle else ⟨0, 1, 0⟩
  ({ w.1 with
      m_state := DragState.DRAGGING
      m_particle := some i
      m_cameraPosition := cameraPos
      m_dragPlaneNormal := normal
      m_dragPlanePoint := hitPoint
      m_positionHistory := [] },
    writeParticle i (fun p => { p with isBeingDragged := true }) w.2)

/-- Intersection of the ray with the drag plane,
`DragController::rayPlaneIntersect`: `none` for `false`, `some intersection`
for `true`.  A pointer that addresses no element cannot be read and gives
`none`. -/
def rayPlaneIntersect (dc : DragController F) (particles : List (Particle F)) (ray : Ray F)
    (planePoint planeNormal : Vec3 F) : Option (Vec3 F) :=
  let rayOrigin := ray.origin
  let rayDir := ray.direction
  let denom := Vec3.dot rayDir planeNormal
  if |denom| < 1e-10 then
    match dc.m_particle with
    | some i =>
      match particles[i]? with
      | some p => some (rayOrigin + rayDir * ((p.position.y - rayOrigin.y) / rayDir.y))
      | none => none
    | none => none
  else
    let t := Vec3.dot (planePoint - rayOrigin) planeNormal / denom
    if t < 0 then
      none
    else
      some (rayOrigin + t * rayDir)

/-- Append a sample to the history and drop the oldest one when the size
exceeds `MAX_HISTORY`. -/
def pushHistory (history : List (MotionPoint F)) (point : MotionPoint F) :
    List (MotionPoint F) :=
  let history2 := history ++ [point]
  if history2.length > MAX_HISTORY then history2.tail else history2

/-- Move the dragged particle to the ray, `DragController::updateDrag`; `now`
is the value returned by `getCurrentTime()`. -/
def updateDrag (ray : Ray F) (now : F) (w : DragController F × List (Particle F)) :
    DragController F × List (Particle F) :=
  match w.1.m_particle with
  | none => w
  | some i =>
    if w.1.m_state ≠ DragState.DRAGGING then
      w
    else
      match rayPlaneIntersect w.1 w.2 ray w.1.m_dragPlanePoint w.1.m_dragPlaneNormal with
      | some intersection =>
        ({ w.1 with
            m_positionHistory :=
              pushHistory w.1.m_positionHistory { position := intersection, timestamp := now } },
          writeParticle i (fun p => { p with position := intersection, velocity := 0 }) w.2)
      | none => w

/-- Velocity from the first and the last sample, `DragController::inferVelocity`. -/
def inferVelocity (dc : DragController F) : Vec3 F :=
  if dc.m_positionHistory.length < 2 then
    0
  else
    match dc.m_positionHistory.head?, dc.m_positionHistory.getLast? with
    | some first, some last =>
      let dt := last.timestamp - first.timestamp
      if dt < 1e-6 then
        0
      else
        let dp := last.position - first.position
        dp / dt
    | _, _ => 0

/-- The velocity `endDrag` writes when the history has at least two samples:
the inferred velocity, capped to `m_maxReleaseSpeed`. -/
def releaseVelocity (dc : DragController F) : Vec3 F :=
  let velocity := inferVelocity dc
  let speed := Vec3.length sqrt velocity
  if speed > dc.m_maxReleaseSpeed then
    Vec3.normalize sqrt velocity * dc.m_maxReleaseSpeed
  else
    velocity

/-- Release the dragged particle, `DragController::endDrag`. -/
def endDrag (w : DragController F × List (Particle F)) :
    DragController F × List (Particle F) :=
  match w.1.m_particle with
  | none => w
  | some i =>
    if w.1.m_state ≠ DragState.DRAGGING then
      w
    else
      let particles1 :=
        if w.1.m_positionHistory.length ≥ 2 then
          writeParticle i (fun p => { p with velocity := releaseVelocity sqrt w.1 }) w.2
        else
          w.2
      ({ w.1 with
          m_particle := none
          m_state := DragState.IDLE
          m_positionHistory := [] },
        writeParticle i (fun p => { p with isBeingDragged := false }) particles1)

/-- One call of the public interface of `DragController`. -/
inductive Call (F : Type) where
  | beginDrag (i : Nat) (hitPoint cameraPos : Vec3 F)
  | updateDrag (ray : Ray F) (now : F)
  | endDrag

/-- Perform one call. -/
def perform (w : DragController F × List (Particle F)) :
    Call F → DragController F × List (Particle F)
  | Call.beginDrag i hitPoint cameraPos => beginDrag sqrt i hitPoint cameraPos w
  | Call.updateDrag ray now => updateDrag ray now w
  | Call.endDrag => endDrag sqrt w

/-- The controller and the particles after a sequence of calls, the first
call first. -/
def performAll (calls : List (Call F)) (w : DragController F × List (Particle F)) :
    DragController F × List (Particle F) :=
  calls.foldl (perform sqrt) w

end DragController

/-! ## Narrowing to `float` -/

/-- The conversion `static_cast<float>` of a `double`: rounding to the nearest
number with a 24-bit significand, ties to the even significand. The exponent
is not bounded, so the value is that of the conversion for magnitudes in the
normal range of `float`, from `2^-126` up to the largest `float`. -/
def floatCast {F : Type} [LinearOrderedField F] [FloorRing F] (x : F) : F :=
  if x = 0 then
    0
  else
    let e : Int := Int.log 2 |x|
    let ulp : F := 2 ^ (e - 23)
    let q := x / ulp
    let f : Int := Int.floor q
    let r := q - (f : F)
    let n : Int :=
      if r < 1 / 2 then f
      else if 1 / 2 < r then f + 1
      else if f % 2 = 0 then f
      else f + 1
    (n : F) * ulp

/-! ## Field-line tracer (`engine/physics/FieldLineGenerator.cpp`) -/

/-- A traced field line, `struct FieldLine`. -/
structure FieldLine (F : Type) where
  points : List (Vec3 F)
  fieldMagnitudes : List F
  sourceCharge : F
  isComplete : Bool
  isForward : Bool

/-- Tracer configuration, `struct FieldLineConfig`. -/
structure FieldLineConfig (F : Type) where
  seedPointsPerParticle : Int
  maxStepsPerLine : Int
  stepSize : F
  minFieldMagnitude : F
  maxDistance : F
  useAdaptiveStep : Bool
  adaptiveStepFactor : F

namespace FieldLineGenerator

variable {F : Type} [LinearOrderedField F] (sqrt : F → F)

/-- The default member initialisers of `FieldLineConfig`. -/
def defaultConfig : FieldLineConfig F :=
  { seedPointsPerParticle := 24
    maxStepsPerLine := 1000
    stepSize := 0.01
    minFieldMagnitude := 1e-6
    maxDistance := 100.0
    useAdaptiveStep := true
    adaptiveStepFactor := 10.0 }

/-- The conversion `static_cast<size_t>` of an `int` (64-bit `size_t`). -/
def toSizeT (n : Int) : Nat := (n % 2 ^ 64).toNat

/-- The loop of `isInsideParticle` from index `i` on: the result is the
returned `bool` and the value left in `particleIndex`. -/
def isInsideParticleFrom (point : Vec3 F) : List (Particle F) → Nat → Bool × Int
  | [], _ => (false, -1)
  | p :: rest, i =>
    let dist := Vec3.length sqrt (point - p.position)
    if dist < p.visualRadius * 0.5 then
      (true, (i : Int))
    else
      isInsideParticleFrom point rest (i + 1)

/-- First particle whose footprint contains the point,
`FieldLineGenerator::isInsideParticle`. -/
def isInsideParticle (point : Vec3 F) (particles : List (Particle F)) : Bool × Int :=
  isInsideParticleFrom sqrt point particles 0

/-- Local curvature estimate, `FieldLineGenerator::estimateCurvature`. -/
def estimateCurvature (pos dir : Vec3 F) (particles : List (Particle F)) : F :=
  let eps : F := 0.01
  let E_ahead := ElectricField.totalField sqrt (pos + eps * dir) particles
  let EMag_ahead := Vec3.length sqrt E_ahead
  if EMag_ahead < 1e-20 then
    0
  else
    let dir_ahead := Vec3.normalize sqrt E_ahead
    Vec3.length sqrt (dir_ahead - dir) / eps

/-- The nearest-particle loop at the start of `generate`: the state is
`(minDist, line.sourceCharge)`. -/
def sourceChargeLoop (pos : Vec3 F) (particles : List (Particle F)) (st : F × F) : F × F :=
  particles.foldl
    (fun st p =>
      let dist := Vec3.length sqrt (pos - p.position)
      if dist < st.1 then (dist, p.charge) else st)
    st

/-- Termination condition 3 of `generate`: the point is inside a particle
whose charge sign differs from the sign of the source charge. -/
def enteredOppositeCharge (sourceCharge : F) (pos : Vec3 F) (particles : List (Particle F)) :
    Bool :=
  let r := isInsideParticle sqrt pos particles
  if r.1 then
    if r.2 ≥ 0 ∧ r.2 < (particles.length : Int) then
      match particles[r.2.toNat]? with
      | some p =>
        let sourceSign : Int := if sourceCharge > 0 then 1 else -1
        let targetSign : Int := if p.charge > 0 then 1 else -1
        decide (sourceSign ≠ targetSign)
      | none => false
    else
      false
  else
    false

/-- The integration part of one iteration of `generate`: the position after
the four-stage step from `pos`, where `E` is the total field at `pos`. -/
def rk4Advance (particles : List (Particle F)) (config : FieldLineConfig F)
    (traceForward : Bool) (pos E : Vec3 F) : Vec3 F :=
  let h := config.stepSize
  let direction := if traceForward then Vec3.normalize sqrt E else -Vec3.normalize sqrt E
  let adaptiveH :=
    if config.useAdaptiveStep then
      h / (1.0 + estimateCurvature sqrt pos direction particles * config.adaptiveStepFactor)
    else
      h
  let k1 := direction
  let k2 := ElectricField.direction sqrt (pos + ((0.5 : F) * adaptiveH) * k1) particles
  let k2 := if Vec3.length sqrt k2 < 1e-10 then k1 else k2
  let k2 := if traceForward then k2 else -k2
  let k3 := ElectricField.direction sqrt (pos + ((0.5 : F) * adaptiveH) * k2) particles
  let k3 := if Vec3.length sqrt k3 < 1e-10 then k2 else k3
  let k3 := if traceForward then k3 else -k3
  let k4 := ElectricField.direction sqrt (pos + adaptiveH * k3) particles
  let k4 := if Vec3.length sqrt k4 < 1e-10 then k3 else k4
  let k4 := if traceForward then k4 else -k4
  pos + (adaptiveH / 6.0) * (k1 + (2.0 : F) * k2 + (2.0 : F) * k3 + k4)

/-- The main loop of `generate` with `n` iterations left, at position `pos`
and with the line built so far. The argument `toFloat` is the narrowing
`static_cast<float>` applied to the magnitude that is stored. -/
def generateLoop (toFloat : F → F) (particles : List (Particle F)) (config : FieldLineConfig F)
    (traceForward : Bool) : Nat → Vec3 F → FieldLine F → FieldLine F
  | 0, _, line => line
  | n + 1, pos, line =>
    let E := ElectricField.totalField sqrt pos particles
    let EMag := Vec3.length sqrt E
    if EMag < config.minFieldMagnitude then
      { line with isComplete := true }
    else if Vec3.length sqrt pos > config.maxDistance then
      { line with isComplete := true }
    else if enteredOppositeCharge sqrt line.sourceCharge pos particles then
      { line with isComplete := true }
    else
      generateLoop toFloat particles config traceForward n
        (rk4Advance sqrt particles config traceForward pos E)
        { line with
          points := line.points ++ [pos]
          fieldMagnitudes := line.fieldMagnitudes ++ [toFloat EMag] }

/-- Trace one field line, `FieldLineGenerator::generate`. The stored
`sourceCharge` is the charge of the nearest particle: the code narrows it to
`float`, and inside `generate` only its sign is read, which the narrowing
keeps for every charge of magnitude above `2^-150`. -/
def generate (toFloat : F → F) (seedPoint : Vec3 F) (particles : List (Particle F))
    (config : FieldLineConfig F) (traceForward : Bool) : FieldLine F :=
  let line0 : FieldLine F :=
    { points := []
      fieldMagnitudes := []
      sourceCharge :=
        if particles.isEmpty then 0 else (sourceChargeLoop sqrt seedPoint particles (DBL_MAX, 0)).2
      isComplete := false
      isForward := traceForward }
  let line :=
    generateLoop sqrt toFloat particles config traceForward config.maxStepsPerLine.toNat seedPoint
      line0
  if !line.isComplete && line.points.length ≥ toSizeT config.maxStepsPerLine then
    { line with isComplete := true }
  else
    line

/-- The constant `M_PI` of `FieldLineGenerator.cpp`. -/
def M_PI : F := 3.14159265358979323846

/-- The golden angle, `const double GOLDEN_ANGLE`. -/
def GOLDEN_ANGLE : F := M_PI * (3.0 - sqrt 5.0)

/-- The body of the loop of `generateSeedPoints` at index `i`: the point that
is pushed. The divisor `count - 1.0` of `y` is zero when `count` is `1`; the
quotient is then not a number and neither is the point, which is the result
`none`. -/
def seedPoint (cos sin : F → F) (source : Particle F) (count : Int) (i : Nat) :
    Option (Vec3 F) :=
  let theta := GOLDEN_ANGLE sqrt * (i : F)
  if (count : F) - 1.0 = 0 then
    none
  else
    let y := 1.0 - (2.0 * (i : F)) / ((count : F) - 1.0)
    let radius := sqrt (1.0 - y * y)
    let x := cos theta * radius
    let z := sin theta * radius
    some (source.position + source.visualRadius * (⟨x, y, z⟩ : Vec3 F))

/-- Seed points on a sphere around a particle,
`FieldLineGenerator::generateSeedPoints`. The call `seedPoints.reserve(count)`
converts a negative `count` to a `size_t` above `max_size()` and throws
`std::length_error`: the result is then `none`. -/
def generateSeedPoints (cos sin : F → F) (source : Particle F) (count : Int) :
    Option (List (Option (Vec3 F))) :=
  if count < 0 then
    none
  else
    some ((List.range count.toNat).map (seedPoint sqrt cos sin source count))

end FieldLineGenerator

/-! ## Field-line cache (`engine/physics/FieldLineManager.cpp`) -/

/-- The members of `class FieldLineManager`; time points are seconds on the
clock. -/
structure FieldLineManager (F : Type) where
  m_cachedLines : List (FieldLine F)
  m_lastParticlePositions : List (Vec3 F)
  m_dirty : Bool
  m_maxRegenerationRate : F
  m_lastRegenerationTime : F

namespace FieldLineManager

variable {F : Type} [LinearOrderedField F] (sqrt : F → F)

/-- The constant `MOVEMENT_THRESHOLD`. -/
def MOVEMENT_THRESHOLD : F := 1e-12

/-- The constructor `FieldLineManager::FieldLineManager`, run when the clock
reads `now`. -/
def init (now : F) : FieldLineManager F :=
  { m_cachedLines := []
    m_lastParticlePositions := []
    m_dirty := true
    m_maxRegenerationRate := 10.0
    m_lastRegenerationTime := now }

/-- The method `FieldLineManager::markDirty`. -/
def markDirty (mgr : FieldLineManager F) : FieldLineManager F :=
  { mgr with m_dirty := true }

/-- The method `FieldLineManager::setMaxRegenerationRate`. -/
def setMaxRegenerationRate (rate : F) (mgr : FieldLineManager F) : FieldLineManager F :=
  { mgr with m_maxRegenerationRate := rate }

/-- The loop of `particlesHaveMoved` over two vectors of the same size. -/
def particlesHaveMovedLoop : List (Particle F) → List (Vec3 F) → Bool
  | p :: particles, l :: last =>
    let distance := Vec3.length sqrt (p.position - l)
    if distance > MOVEMENT_THRESHOLD then true else particlesHaveMovedLoop particles last
  | _, _ => false

/-- The method `FieldLineManager::particlesHaveMoved`. -/
def particlesHaveMoved (particles : List (Particle F)) (mgr : FieldLineManager F) : Bool :=
  if particles.length ≠ mgr.m_lastParticlePositions.length then
    true
  else
    particlesHaveMovedLoop sqrt particles mgr.m_lastParticlePositions

/-- The method `FieldLineManager::shouldRegenerate`, with the clock reading
`now`. -/
def shouldRegenerate (now : F) (mgr : FieldLineManager F) : Bool :=
  let elapsed := now - mgr.m_lastRegenerationTime
  let minInterval := 1.0 / mgr.m_maxRegenerationRate
  decide (elapsed ≥ minInterval)

/-- The local `needsRegeneration` of `getFieldLines`. -/
def needsRegeneration (now : F) (particles : List (Particle F)) (mgr : FieldLineManager F) :
    Bool :=
  mgr.m_dirty || particlesHaveMoved sqrt particles mgr || shouldRegenerate now mgr

/-- The method `FieldLineManager::getFieldLines`: the manager after the call,
whose `m_cachedLines` is the returned reference. The clock reads `now` during
the call, and the tracer `FieldLineGenerator::generateAll` is the argument
`generateAll`. -/
def getFieldLines (generateAll : List (Particle F) → FieldLineConfig F → List (FieldLine F))
    (now : F) (particles : List (Particle F)) (config : FieldLineConfig F)
    (mgr : FieldLineManager F) : FieldLineManager F :=
  if needsRegeneration sqrt now particles mgr then
    { mgr with
      m_cachedLines := generateAll particles config
      m_lastParticlePositions := particles.map (fun p => p.position)
      m_dirty := false
      m_lastRegenerationTime := now }
  else
    mgr

end FieldLineManager

/-! ## Predicates used in the statements -/

/-- The function `sqrt` is an exact square root on the non-negative numbers. -/
def SqrtSpec {F : Type} [LinearOrderedField F] (sqrt : F → F) : Prop :=
  ∀ x, 0 ≤ x → 0 ≤ sqrt x ∧ sqrt x * sqrt x = x

/-- The particle `p2` is `p1` with at most the acceleration changed, and is
`p1` itself when `p1` is fixed or dragged. -/
def AccelOnly {F : Type} (p1 p2 : Particle F) : Prop :=
  p2 = { p1 with acceleration := p2.acceleration }
    ∧ ((p1.isFixed || p1.isBeingDragged) = true → p2 = p1)

/-- Elementwise `AccelOnly` between two particle vectors. -/
def AccelOnlyList {F : Type} (ps1 ps2 : List (Particle F)) : Prop :=
  ∀ (i : Nat) (p1 : Particle F), ps1[i]? = some p1 → ∃ p2, ps2[i]? = some p2 ∧ AccelOnly p1 p2

/-- The particle with the acceleration of a free (neither fixed nor dragged)
particle blanked out: what remains is everything the next tick reads. -/
def eraseFreeAccel {F : Type} [LinearOrderedField F] (p : Particle F) : Particle F :=
  if p.isFixed || p.isBeingDragged then p else { p with acceleration := 0 }

/-- The parameter `t` that `rayPlaneIntersect` computes for the drag plane of
the controller. -/
def planeParameter {F : Type} [LinearOrderedField F] (dc : DragController F) (ray : Ray F) :
    F :=
  Vec3.dot (dc.m_dragPlanePoint - ray.origin) dc.m_dragPlaneNormal
    / Vec3.dot ray.direction dc.m_dragPlaneNormal

/-- The invariant of the drag controller: the state is not `RELEASING`, it is
`DRAGGING` exactly when a particle is referenced, and in `IDLE` the history
is empty. -/
def DragInvariant {F : Type} (dc : DragController F) : Prop :=
  dc.m_state ≠ DragState.RELEASING
    ∧ (dc.m_state = DragState.DRAGGING ↔ dc.m_particle ≠ none)
    ∧ (dc.m_state = DragState.IDLE → dc.m_positionHistory = [])

/-- The position that one iteration of `generate` reaches from `pos` when no
termination condition fires there. -/
def traceStep {F : Type} [LinearOrderedField F] (sqrt : F → F) (particles : List (Particle F))
    (config : FieldLineConfig F) (traceForward : Bool) (pos : Vec3 F) : Vec3 F :=
  FieldLineGenerator.rk4Advance sqrt particles config traceForward pos
    (ElectricField.totalField sqrt pos particles)

/-- The position of the trace after `k` iterations without termination. -/
def tracePoint {F : Type} [LinearOrderedField F] (sqrt : F → F) (particles : List (Particle F))
    (config : FieldLineConfig F) (traceForward : Bool) : Nat → Vec3 F → Vec3 F
  | 0, pos => pos
  | k + 1, pos =>
    tracePoint sqrt particles config traceForward k
      (traceStep sqrt particles config traceForward pos)

/-- The first `m` positions of the trace. -/
def tracePoints {F : Type} [LinearOrderedField F] (sqrt : F → F) (particles : List (Particle F))
    (config : FieldLineConfig F) (traceForward : Bool) : Nat → Vec3 F → List (Vec3 F)
  | 0, _ => []
  | m + 1, pos =>
    pos :: tracePoints sqrt particles config traceForward m
      (traceStep sqrt particles config traceForward pos)

/-- None of the three termination conditions of `generate` fires at `pos`. -/
def traceContinues {F : Type} [LinearOrderedField F] (sqrt : F → F)
    (particles : List (Particle F)) (config : FieldLineConfig F) (sourceCharge : F)
    (pos : Vec3 F) : Prop :=
  ¬ Vec3.length sqrt (ElectricField.totalField sqrt pos particles) < config.minFieldMagnitude
    ∧ ¬ Vec3.length sqrt pos > config.maxDistance
    ∧ FieldLineGenerator.enteredOppositeCharge sqrt sourceCharge pos particles = false

/-- The height `y = 1 - 2i/(N-1)` of the `i`-th of `N` seed points on the
unit sphere, as the specification gives it. -/
def seedHeight {F : Type} [LinearOrderedField F] (count : Int) (i : Nat) : F :=
  1 - 2 * (i : F) / ((count : F) - 1)

/-- The `i`-th of `N` seed points as the specification gives it: the unit
vector `(cos(theta)*sqrt(1-y^2), y, sin(theta)*sqrt(1-y^2))` with
`theta = goldenAngle*i` and `y = 1 - 2i/(N-1)`, scaled by the visual radius
and offset by the position of the charge. -/
def seedVector {F : Type} [LinearOrderedField F] (sqrt cos sin : F → F) (source : Particle F)
    (count : Int) (i : Nat) : Vec3 F :=
  source.position
    + source.visualRadius
      * (⟨cos (FieldLineGenerator.GOLDEN_ANGLE sqrt * (i : F))
            * sqrt (1 - seedHeight count i * seedHeight count i),
          seedHeight count i,
          sin (FieldLineGenerator.GOLDEN_ANGLE sqrt * (i : F))
            * sqrt (1 - seedHeight count i * seedHeight count i)⟩ : Vec3 F)

/-- The vector `repulsionForce` that `applyCollisionPrevention` computes for
the pair `(p1, p2)`. -/
def repulsionForce {F : Type} [LinearOrderedField F] (sqrt : F → F) (m_minSeparation : F)
    (p1 p2 : Particle F) : Vec3 F :=
  Vec3.normalize sqrt (p2.position - p1.position) * (1e-10 : F)
    * (m_minSeparation - Vec3.length sqrt (p2.position - p1.position))

/-! ## Example scenes -/

section Examples

variable {F : Type} [LinearOrderedField F]

/-- A particle with the charge and mass of a proton at the origin, with the
given velocity and `isFixed` flag. -/
def exampleParticle (velocity : Vec3 F) (isFixed : Bool) : Particle F :=
  { position := 0
    velocity := velocity
    acceleration := 0
    charge := PhysicsConstants.e
    mass := PhysicsConstants.m_p
    visualRadius := 1e-10
    color := ⟨1.0, 0.3, 0.2⟩
    isBeingDragged := false
    isFixed := isFixed
    history := [] }

/-- A fresh system to which one `exampleParticle` has been added. -/
def exampleSystem (velocity : Vec3 F) (isFixed : Bool) : ParticleSystem F :=
  ParticleSystem.addParticle (exampleParticle velocity isFixed) ParticleSystem.init

/-- A free particle at rest at `(x,0,0)` with charge `q` and mass `m`, as
`Particle::createCustom` builds it (colour aside). -/
def exampleCustom (x q m : F) : Particle F :=
  { position := ⟨x, 0, 0⟩
    velocity := 0
    acceleration := 0
    charge := q
    mass := m
    visualRadius := 1e-10
    color := ⟨0.5, 0.5, 0.5⟩
    isBeingDragged := false
    isFixed := false
    history := [] }

/-- A fresh system with minimum separation `1` holding two free particles of
charge `q` at rest, half a metre apart, with masses `m1` and `m2`. -/
def exampleCloseSystem (q m1 m2 : F) : ParticleSystem F :=
  ParticleSystem.addParticle (exampleCustom (1 / 2) q m2)
    (ParticleSystem.addParticle (exampleCustom 0 q m1)
      (ParticleSystem.setMinSeparation 1 ParticleSystem.init))

/-- A fresh controller that has just grabbed, with the camera at the origin
and the hit point `(5,0,0)`, the only particle of the scene, a proton-like
particle at `(5,0,0)`. -/
def exampleDragStart (sqrt : F → F) : DragController F × List (Particle F) :=
  DragController.beginDrag sqrt 0 ⟨5, 0, 0⟩ 0
    (DragController.init, [exampleCustom 5 PhysicsConstants.e PhysicsConstants.m_p])

/-- A pointer ray from `(0,1,0)` straight up, parallel to the drag plane of
`exampleDragStart`. -/
def exampleParallelRay : Ray F :=
  { origin := ⟨0, 1, 0⟩, direction := ⟨0, 1, 0⟩ }

/-- A pointer ray from the origin along the x axis, hitting the drag plane of
`exampleDragStart` head-on. -/
def exampleNormalRay : Ray F :=
  { origin := 0, direction := ⟨1, 0, 0⟩ }

/-- A drag about to be released: the dragged particle was put at the origin
at time `0` and at `(t1,0,0)` at time `t1`. -/
def exampleRelease (t1 : F) : DragController F × List (Particle F) :=
  ({ (DragController.init : DragController F) with
      m_state := DragState.DRAGGING
      m_particle := some 0
      m_positionHistory :=
        [ { position := ⟨0, 0, 0⟩, timestamp := 0 },
          { position := ⟨t1, 0, 0⟩, timestamp := t1 } ] },
    [{ exampleCustom t1 PhysicsConstants.e PhysicsConstants.m_p with isBeingDragged := true }])

/-- A charge `q` at `(x,0,0)` drawn with visual radius `2/5`. -/
def exampleCharge (x q : F) : Particle F :=
  { position := ⟨x, 0, 0⟩
    velocity := 0
    acceleration := 0
    charge := q
    mass := 1
    visualRadius := 2 / 5
    color := ⟨0.5, 0.5, 0.5⟩
    isBeingDragged := false
    isFixed := false
    history := [] }

/-- A scene of exactly two charges: `+1` at the origin and `-1` at `(1,0,0)`. -/
def exampleDipole : List (Particle F) :=
  [exampleCharge 0 1, exampleCharge 1 (-1)]

/-- The default configuration with the step size raised to `1/2`. -/
def exampleCoarseConfig : FieldLineConfig F :=
  { (FieldLineGenerator.defaultConfig : FieldLineConfig F) with stepSize := 1 / 2 }

/-- A one-coulomb source at `(8,0,0)` that was at the origin at time `0` and
at `(8,0,0)` at times `2` and `4`. -/
def exampleSource : Particle F :=
  { position := ⟨8, 0, 0⟩
    velocity := 0
    acceleration := 0
    charge := 1
    mass := 1
    visualRadius := 1e-10
    color := ⟨1.0, 0.3, 0.2⟩
    isBeingDragged := false
    isFixed := false
    history :=
      [ { position := ⟨0, 0, 0⟩, velocity := 0, timestamp := 0 },
        { position := ⟨8, 0, 0⟩, velocity := 0, timestamp := 2 },
        { position := ⟨8, 0, 0⟩, velocity := 0, timestamp := 4 } ] }

/-- A pointer ray from the origin along the z axis: horizontal, and parallel
to the drag plane of `exampleDragStart`. -/
def exampleHorizontalRay : Ray F :=
  { origin := 0, direction := ⟨0, 0, 1⟩ }

/-- A charge `q` at `(x,0,0)` drawn with visual radius `4`. -/
def exampleWideCharge (x q : F) : Particle F :=
  { exampleCharge x q with visualRadius := 4 }

/-- The charges of `exampleDipole` drawn so large that their footprints
overlap: `+1` at the origin and `-1` at `(1,0,0)`, both with footprint radius
`2`. -/
def exampleWideDipole : List (Particle F) :=
  [exampleWideCharge 0 1, exampleWideCharge 1 (-1)]

/-- A cache manager built when the clock reads `0` and asked at once for the
lines of the example dipole. -/
def exampleManager (sqrt : F → F)
    (generateAll : List (Particle F) → FieldLineConfig F → List (FieldLine F)) :
    FieldLineManager F :=
  FieldLineManager.getFieldLines sqrt generateAll 0 exampleDipole exampleCoarseConfig
    (FieldLineManager.init 0)

/-- Linear interpolation at time `t` between the positions of two history
samples, as the specification describes the lookup between the two samples
that bracket the retarded time. -/
def bracketInterpolation (s1 s2 : HistoryPoint F) (t : F) : Vec3 F :=
  s1.position + ((t - s1.timestamp) / (s2.timestamp - s1.timestamp)) * (s2.position - s1.position)

end Examples

/-! ## Vector facts -/

theorem realSqrtSpec : SqrtSpec Real.sqrt :=
  fun x hx => ⟨Real.sqrt_nonneg x, Real.mul_self_sqrt hx⟩

namespace Vec3

variable {F : Type} [LinearOrderedField F] {sqrt : F → F}

@[simp] theorem zero_x : (0 : Vec3 F).x = 0 := rfl
@[simp] theorem zero_y : (0 : Vec3 F).y = 0 := rfl
@[simp] theorem zero_z : (0 : Vec3 F).z = 0 := rfl
@[simp] theorem add_x (a b : Vec3 F) : (a + b).x = a.x + b.x := rfl
@[simp] theorem add_y (a b : Vec3 F) : (a + b).y = a.y + b.y := rfl
@[simp] theorem add_z (a b : Vec3 F) : (a + b).z = a.z + b.z := rfl
@[simp] theorem sub_x (a b : Vec3 F) : (a - b).x = a.x - b.x := rfl
@[simp] theorem sub_y (a b : Vec3 F) : (a - b).y = a.y - b.y := rfl
@[simp] theorem sub_z (a b : Vec3 F) : (a - b).z = a.z - b.z := rfl
@[simp] theorem neg_x (a : Vec3 F) : (-a).x = -a.x := rfl
@[simp] theorem neg_y (a : Vec3 F) : (-a).y = -a.y := rfl
@[simp] theorem neg_z (a : Vec3 F) : (-a).z = -a.z := rfl
@[simp] theorem smul_x (s : F) (v : Vec3 F) : (s * v).x = s * v.x := rfl
@[simp] theorem smul_y (s : F) (v : Vec3 F) : (s * v).y = s * v.y := rfl
@[simp] theorem smul_z (s : F) (v : Vec3 F) : (s * v).z = s * v.z := rfl
@[simp] theorem muls_x (v : Vec3 F) (s : F) : (v * s).x = v.x * s := rfl
@[simp] theorem muls_y (v : Vec3 F) (s : F) : (v * s).y = v.y * s := rfl
@[simp] theorem muls_z (v : Vec3 F) (s : F) : (v * s).z = v.z * s := rfl
@[simp] theorem divs_x (v : Vec3 F) (s : F) : (v / s).x = v.x / s := rfl
@[simp] theorem divs_y (v : Vec3 F) (s : F) : (v / s).y = v.y / s := rfl
@[simp] theorem divs_z (v : Vec3 F) (s : F) : (v / s).z = v.z / s := rfl

theorem dot_self_nonneg (v : Vec3 F) : 0 ≤ dot v v := by
  unfold dot
  nlinarith [mul_self_nonneg v.x, mul_self_nonneg v.y, mul_self_nonneg v.z]

theorem length_nonneg (hs : SqrtSpec sqrt) (v : Vec3 F) : 0 ≤ length sqrt v :=
  (hs _ (dot_self_nonneg v)).1

theorem length_mul_self (hs : SqrtSpec sqrt) (v : Vec3 F) :
    length sqrt v * length sqrt v = dot v v :=
  (hs _ (dot_self_nonneg v)).2

/-- Two non-negative numbers with equal squares are equal. -/
theorem eq_of_mul_self_eq {a b : F} (ha : 0 ≤ a) (hb : 0 ≤ b) (h : a * a = b * b) :
    a = b := by
  rcases (mul_self_eq_mul_self_iff.mp h) with h1 | h1
  · exact h1
  · have hb0 : b = 0 := by linarith
    rw [h1, hb0, neg_zero]

theorem length_eq_of_sq (hs : SqrtSpec sqrt) (v : Vec3 F) (a : F) (ha : 0 ≤ a)
    (h : dot v v = a * a) : length sqrt v = a :=
  eq_of_mul_self_eq (length_nonneg hs v) ha (by rw [length_mul_self hs, h])

theorem length_zero (hs : SqrtSpec sqrt) : length sqrt (0 : Vec3 F) = 0 :=
  length_eq_of_sq hs 0 0 le_rfl (by simp [dot])

theorem sub_self_eq_zero (v : Vec3 F) : v - v = 0 := by
  ext <;> simp

theorem dot_smul_self (s : F) (v : Vec3 F) : dot (s * v) (s * v) = s * s * dot v v := by
  simp only [dot, smul_x, smul_y, smul_z]
  ring

theorem length_smul (hs : SqrtSpec sqrt) (s : F) (v : Vec3 F) :
    length sqrt (s * v) = |s| * length sqrt v := by
  apply length_eq_of_sq hs _ _ (mul_nonneg (abs_nonneg s) (length_nonneg hs v))
  rw [dot_smul_self, mul_mul_mul_comm, abs_mul_abs_self, length_mul_self hs]

theorem muls_eq_smul (v : Vec3 F) (s : F) : v * s = s * v := by
  ext <;> simp [mul_comm]

theorem divs_eq_smul (v : Vec3 F) (s : F) : v / s = (1 / s) * v := by
  ext <;> simp [div_eq_inv_mul]

theorem smul_smul (a b : F) (v : Vec3 F) : a * (b * v) = (a * b) * v := by
  ext <;> simp [mul_assoc]

theorem add_zero_vec (v : Vec3 F) : v + 0 = v := by
  ext <;> simp

theorem zero_add_vec (v : Vec3 F) : 0 + v = v := by
  ext <;> simp

theorem add_assoc_vec (a b c : Vec3 F) : a + b + c = a + (b + c) := by
  ext <;> simp [add_assoc]

/-- Normalising a vector of positive length gives a vector of length one. -/
theorem length_normalize (hs : SqrtSpec sqrt) (v : Vec3 F) (h : 0 < length sqrt v) :
    length sqrt (normalize sqrt v) = 1 := by
  have h1 : normalize sqrt v = (1 / length sqrt v) * v := by
    unfold normalize length
    exact muls_eq_smul _ _
  rw [h1, length_smul hs, abs_of_pos (one_div_pos.mpr h)]
  field_simp

end Vec3

section ConstantFacts

variable {F : Type} [LinearOrderedField F]

theorem min_safe_distance_pos : (0 : F) < PhysicsConstants.MIN_SAFE_DISTANCE := by
  unfold PhysicsConstants.MIN_SAFE_DISTANCE
  norm_num

theorem coulomb_k_pos : (0 : F) < PhysicsConstants.k := by
  unfold PhysicsConstants.k
  norm_num

theorem max_velocity_pos : (0 : F) < PhysicsConstants.MAX_VELOCITY := by
  unfold PhysicsConstants.MAX_VELOCITY PhysicsConstants.c
  norm_num

theorem min_safe_distance_le_one : (PhysicsConstants.MIN_SAFE_DISTANCE : F) ≤ 1 := by
  unfold PhysicsConstants.MIN_SAFE_DISTANCE
  norm_num

theorem elementary_charge_pos : (0 : F) < PhysicsConstants.e := by
  unfold PhysicsConstants.e
  norm_num

end ConstantFacts

/-! ## Field of a point charge -/

namespace ElectricField

variable {F : Type} [LinearOrderedField F] {sqrt : F → F}

theorem fromPointCharge_far (evalPoint chargePos : Vec3 F) (q : F)
    (h : PhysicsConstants.MIN_SAFE_DISTANCE ≤ Vec3.length sqrt (evalPoint - chargePos)) :
    fromPointCharge sqrt evalPoint chargePos q
      = (PhysicsConstants.k * q
          / (Vec3.length sqrt (evalPoint - chargePos) * Vec3.length sqrt (evalPoint - chargePos)))
        * ((evalPoint - chargePos) / Vec3.length sqrt (evalPoint - chargePos)) := by
  unfold fromPointCharge
  simp only [if_neg (not_lt.mpr h)]

theorem fromPointCharge_near (evalPoint chargePos : Vec3 F) (q : F)
    (h : Vec3.length sqrt (evalPoint - chargePos) < PhysicsConstants.MIN_SAFE_DISTANCE) :
    fromPointCharge sqrt evalPoint chargePos q = 0 := by
  unfold fromPointCharge
  simp only [if_pos h]

theorem fromPointCharge_far_smul (evalPoint chargePos : Vec3 F) (q : F)
    (h : PhysicsConstants.MIN_SAFE_DISTANCE ≤ Vec3.length sqrt (evalPoint - chargePos)) :
    fromPointCharge sqrt evalPoint chargePos q
      = (PhysicsConstants.k * q
          / (Vec3.length sqrt (evalPoint - chargePos) * Vec3.length sqrt (evalPoint - chargePos))
          * (1 / Vec3.length sqrt (evalPoint - chargePos)))
        * (evalPoint - chargePos) := by
  rw [fromPointCharge_far evalPoint chargePos q h, Vec3.divs_eq_smul, Vec3.smul_smul]

/-- C2: at distance at least `MIN_SAFE_DISTANCE` the field of a point charge
is `(k*q/|r|^2) * (r/|r|)` with `r = evalPoint - chargePos`; its magnitude is
`k*|q|/|r|^2`; it is a positive multiple of `r` for `q > 0` and a negative
multiple of `r` for `q < 0`. -/
theorem C2_fromPointCharge_coulomb (hs : SqrtSpec sqrt) (evalPoint chargePos : Vec3 F) (q : F)
    (h : PhysicsConstants.MIN_SAFE_DISTANCE ≤ Vec3.length sqrt (evalPoint - chargePos)) :
    fromPointCharge sqrt evalPoint chargePos q
        = (PhysicsConstants.k * q / (Vec3.length sqrt (evalPoint - chargePos)) ^ 2)
          * ((evalPoint - chargePos) / Vec3.length sqrt (evalPoint - chargePos))
      ∧ Vec3.length sqrt (fromPointCharge sqrt evalPoint chargePos q)
        = PhysicsConstants.k * |q| / (Vec3.length sqrt (evalPoint - chargePos)) ^ 2
      ∧ (0 < q → ∃ s : F, 0 < s ∧
          fromPointCharge sqrt evalPoint chargePos q = s * (evalPoint - chargePos))
      ∧ (q < 0 → ∃ s : F, s < 0 ∧
          fromPointCharge sqrt evalPoint chargePos q = s * (evalPoint - chargePos)) := by
  have hd : 0 < Vec3.length sqrt (evalPoint - chargePos) :=
    lt_of_lt_of_le min_safe_distance_pos h
  have hk : (0 : F) < PhysicsConstants.k := coulomb_k_pos
  refine ⟨?_, ?_, ?_, ?_⟩
  · rw [fromPointCharge_far evalPoint chargePos q h, pow_two]
  · rw [fromPointCharge_far_smul evalPoint chargePos q h, Vec3.length_smul hs]
    rw [abs_mul, abs_div, abs_mul, abs_of_pos hk, abs_of_pos (mul_pos hd hd),
      abs_of_pos (one_div_pos.mpr hd)]
    field_simp
    ring
  · intro hq
    refine ⟨_, ?_, fromPointCharge_far_smul evalPoint chargePos q h⟩
    exact mul_pos (div_pos (mul_pos hk hq) (mul_pos hd hd)) (one_div_pos.mpr hd)
  · intro hq
    refine ⟨_, ?_, fromPointCharge_far_smul evalPoint chargePos q h⟩
    exact mul_neg_of_neg_of_pos
      (div_neg_of_neg_of_pos (mul_neg_of_pos_of_neg hk hq) (mul_pos hd hd))
      (one_div_pos.mpr hd)

/-- C3: at the position of the charge itself, and at every point closer to
it than `MIN_SAFE_DISTANCE`, the field of a point charge is the zero vector,
returned by the guard before any division. -/
theorem C3_fromPointCharge_singularity (hs : SqrtSpec sqrt) (evalPoint chargePos : Vec3 F)
    (q : F)
    (h : evalPoint = chargePos
      ∨ Vec3.length sqrt (evalPoint - chargePos) < PhysicsConstants.MIN_SAFE_DISTANCE) :
    fromPointCharge sqrt evalPoint chargePos q = 0 := by
  rcases h with h | h
  · apply fromPointCharge_near
    rw [h, Vec3.sub_self_eq_zero, Vec3.length_zero hs]
    exact min_safe_distance_pos
  · exact fromPointCharge_near evalPoint chargePos q h

theorem totalField_foldl_eq (evalPoint : Vec3 F) (particles : List (Particle F))
    (acc : Vec3 F) :
    particles.foldl
        (fun totalE particle =>
          if Vec3.length sqrt (evalPoint - particle.position)
              < PhysicsConstants.MIN_SAFE_DISTANCE then
            totalE
          else
            totalE + fromPointCharge sqrt evalPoint particle.position particle.charge)
        acc
      = acc + Vec3.sum
          ((particles.filter (fun p =>
              decide (PhysicsConstants.MIN_SAFE_DISTANCE
                ≤ Vec3.length sqrt (evalPoint - p.position)))).map
            (fun p => fromPointCharge sqrt evalPoint p.position p.charge)) := by
  induction particles generalizing acc with
  | nil => simp [Vec3.sum, Vec3.add_zero_vec]
  | cons p ps ih =>
    rw [List.foldl_cons, ih]
    by_cases h : Vec3.length sqrt (evalPoint - p.position) < PhysicsConstants.MIN_SAFE_DISTANCE
    · have h2 : ¬ PhysicsConstants.MIN_SAFE_DISTANCE
          ≤ Vec3.length sqrt (evalPoint - p.position) := not_le.mpr h
      simp [h, h2]
    · have h2 : PhysicsConstants.MIN_SAFE_DISTANCE
          ≤ Vec3.length sqrt (evalPoint - p.position) := not_lt.mp h
      simp [h, h2, Vec3.sum, Vec3.add_assoc_vec]

theorem totalField_eq_sum (evalPoint : Vec3 F) (particles : List (Particle F)) :
    totalField sqrt evalPoint particles
      = Vec3.sum
          ((particles.filter (fun p =>
              decide (PhysicsConstants.MIN_SAFE_DISTANCE
                ≤ Vec3.length sqrt (evalPoint - p.position)))).map
            (fun p => fromPointCharge sqrt evalPoint p.position p.charge)) := by
  unfold totalField
  rw [totalField_foldl_eq, Vec3.zero_add_vec]

/-- C4: `totalField` is the vector sum of `fromPointCharge` over exactly the
particles at distance at least `MIN_SAFE_DISTANCE` from the evaluation point,
the zero vector for the empty list; a particle located at the evaluation
point contributes nothing. -/
theorem C4_totalField_sum (evalPoint : Vec3 F) (particles : List (Particle F)) :
    totalField sqrt evalPoint particles
        = Vec3.sum
            ((particles.filter (fun p =>
                decide (PhysicsConstants.MIN_SAFE_DISTANCE
                  ≤ Vec3.length sqrt (evalPoint - p.position)))).map
              (fun p => fromPointCharge sqrt evalPoint p.position p.charge))
      ∧ totalField sqrt evalPoint [] = 0
      ∧ (SqrtSpec sqrt → ∀ (before after : List (Particle F)) (p : Particle F),
          p.position = evalPoint → particles = before ++ p :: after →
          totalField sqrt evalPoint particles = totalField sqrt evalPoint (before ++ after)) := by
  refine ⟨totalField_eq_sum evalPoint particles, rfl, ?_⟩
  intro hs before after p hp hl
  have h0 : ¬ PhysicsConstants.MIN_SAFE_DISTANCE
      ≤ Vec3.length sqrt (evalPoint - p.position) := by
    rw [hp, Vec3.sub_self_eq_zero, Vec3.length_zero hs]
    exact not_le.mpr min_safe_distance_pos
  rw [hl, totalField_eq_sum, totalField_eq_sum]
  simp [List.filter_cons, h0]

/-- C6: `magnitude` is the length of the total field; `direction` is the zero
vector when that length is below `1e-20`, and otherwise the total field
divided by its length, a vector of length one that is a positive multiple of
the total field. -/
theorem C6_direction_magnitude (hs : SqrtSpec sqrt) (evalPoint : Vec3 F)
    (particles : List (Particle F)) :
    magnitude sqrt evalPoint particles = Vec3.length sqrt (totalField sqrt evalPoint particles)
      ∧ (Vec3.length sqrt (totalField sqrt evalPoint particles) < 1e-20 →
          direction sqrt evalPoint particles = 0)
      ∧ (1e-20 ≤ Vec3.length sqrt (totalField sqrt evalPoint particles) →
          direction sqrt evalPoint particles
              = totalField sqrt evalPoint particles
                / Vec3.length sqrt (totalField sqrt evalPoint particles)
            ∧ Vec3.length sqrt (direction sqrt evalPoint particles) = 1
            ∧ ∃ s : F, 0 < s ∧
                direction sqrt evalPoint particles = s * totalField sqrt evalPoint particles) := by
  refine ⟨rfl, ?_, ?_⟩
  · intro h
    unfold direction
    simp only [if_pos h]
  · intro h
    have hpos : 0 < Vec3.length sqrt (totalField sqrt evalPoint particles) :=
      lt_of_lt_of_le (by norm_num) h
    have hd : direction sqrt evalPoint particles
        = Vec3.normalize sqrt (totalField sqrt evalPoint particles) := by
      unfold direction
      simp only [if_neg (not_lt.mpr h)]
    have hn : Vec3.normalize sqrt (totalField sqrt evalPoint particles)
        = (1 / Vec3.length sqrt (totalField sqrt evalPoint particles))
          * totalField sqrt evalPoint particles := by
      unfold Vec3.normalize Vec3.length
      exact Vec3.muls_eq_smul _ _
    refine ⟨?_, ?_, ?_⟩
    · rw [hd, hn, Vec3.divs_eq_smul]
    · rw [hd]
      exact Vec3.length_normalize hs _ hpos
    · exact ⟨_, one_div_pos.mpr hpos, by rw [hd, hn]⟩

/-- Field of a charge seen from a point at unit distance. -/
theorem fromPointCharge_unit (hs : SqrtSpec sqrt) (evalPoint chargePos : Vec3 F) (q : F)
    (h : Vec3.dot (evalPoint - chargePos) (evalPoint - chargePos) = 1) :
    fromPointCharge sqrt evalPoint chargePos q
      = (PhysicsConstants.k * q) * (evalPoint - chargePos) := by
  have hl : Vec3.length sqrt (evalPoint - chargePos) = 1 :=
    Vec3.length_eq_of_sq hs _ 1 zero_le_one (by rw [h, mul_one])
  rw [fromPointCharge_far evalPoint chargePos q (by rw [hl]; exact min_safe_distance_le_one), hl]
  ext <;> simp

theorem totalField_pair (evalPoint : Vec3 F) (p1 p2 : Particle F)
    (h1 : PhysicsConstants.MIN_SAFE_DISTANCE ≤ Vec3.length sqrt (evalPoint - p1.position))
    (h2 : PhysicsConstants.MIN_SAFE_DISTANCE ≤ Vec3.length sqrt (evalPoint - p2.position)) :
    totalField sqrt evalPoint [p1, p2]
      = fromPointCharge sqrt evalPoint p1.position p1.charge
        + fromPointCharge sqrt evalPoint p2.position p2.charge := by
  unfold totalField
  simp only [List.foldl, if_neg (not_lt.mpr h1), if_neg (not_lt.mpr h2), Vec3.zero_add_vec]

/-- C5: for `q > 0`, a charge `+q` at `(1,0,0)` and a charge `-q` at
`(-1,0,0)`, in either order, give at the origin the total field
`(-2*k*q, 0, 0)`: it is not the zero vector and is a positive multiple of
`(-1,0,0)`, so it points from the positive charge toward the negative one. -/
theorem C5_totalField_dipole (hs : SqrtSpec sqrt) (q : F) (hq : 0 < q)
    (pPlus pMinus : Particle F)
    (hPlusPos : pPlus.position = ⟨1, 0, 0⟩) (hPlusCharge : pPlus.charge = q)
    (hMinusPos : pMinus.position = ⟨-1, 0, 0⟩) (hMinusCharge : pMinus.charge = -q) :
    totalField sqrt 0 [pMinus, pPlus] = ⟨-2 * PhysicsConstants.k * q, 0, 0⟩
      ∧ totalField sqrt 0 [pPlus, pMinus] = ⟨-2 * PhysicsConstants.k * q, 0, 0⟩
      ∧ totalField sqrt 0 [pMinus, pPlus] ≠ 0
      ∧ ∃ s : F, 0 < s ∧ totalField sqrt 0 [pMinus, pPlus] = s * (⟨-1, 0, 0⟩ : Vec3 F) := by
  have hk : (0 : F) < PhysicsConstants.k := coulomb_k_pos
  have d1 : Vec3.dot ((0 : Vec3 F) - pPlus.position) (0 - pPlus.position) = 1 := by
    rw [hPlusPos]
    simp [Vec3.dot]
  have d2 : Vec3.dot ((0 : Vec3 F) - pMinus.position) (0 - pMinus.position) = 1 := by
    rw [hMinusPos]
    simp [Vec3.dot]
  have l1 : Vec3.length sqrt ((0 : Vec3 F) - pPlus.position) = 1 :=
    Vec3.length_eq_of_sq hs _ 1 zero_le_one (by rw [d1, mul_one])
  have l2 : Vec3.length sqrt ((0 : Vec3 F) - pMinus.position) = 1 :=
    Vec3.length_eq_of_sq hs _ 1 zero_le_one (by rw [d2, mul_one])
  have g1 : PhysicsConstants.MIN_SAFE_DISTANCE
      ≤ Vec3.length sqrt ((0 : Vec3 F) - pPlus.position) := by
    rw [l1]
    exact min_safe_distance_le_one
  have g2 : PhysicsConstants.MIN_SAFE_DISTANCE
      ≤ Vec3.length sqrt ((0 : Vec3 F) - pMinus.position) := by
    rw [l2]
    exact min_safe_distance_le_one
  have e1 : totalField sqrt 0 [pMinus, pPlus] = ⟨-2 * PhysicsConstants.k * q, 0, 0⟩ := by
    rw [totalField_pair 0 pMinus pPlus g2 g1, fromPointCharge_unit hs _ _ _ d1,
      fromPointCharge_unit hs _ _ _ d2, hPlusPos, hMinusPos, hPlusCharge, hMinusCharge]
    ext <;> simp
    ring
  have e2 : totalField sqrt 0 [pPlus, pMinus] = ⟨-2 * PhysicsConstants.k * q, 0, 0⟩ := by
    rw [totalField_pair 0 pPlus pMinus g1 g2, fromPointCharge_unit hs _ _ _ d1,
      fromPointCharge_unit hs _ _ _ d2, hPlusPos, hMinusPos, hPlusCharge, hMinusCharge]
    ext <;> simp
    ring
  refine ⟨e1, e2, ?_, ?_⟩
  · rw [e1]
    intro h0
    have hx := congrArg Vec3.x h0
    simp only [Vec3.zero_x] at hx
    nlinarith [mul_pos hk hq]
  · refine ⟨2 * PhysicsConstants.k * q, by positivity, ?_⟩
    rw [e1]
    ext <;> simp

end ElectricField

/-! ## Integrators -/

section IntegratorFacts

variable {F : Type} [LinearOrderedField F]

/-- C9: `eulerStep` returns the velocity `v + a*dt` and the position
`x + v'*dt` computed from that updated velocity, which is
`x + v*dt + a*dt^2`. -/
theorem C9_eulerStep_semi_implicit (x v a : Vec3 F) (dt : F) :
    (eulerStep x v a dt).velocity = v + a * dt
      ∧ (eulerStep x v a dt).position = x + (eulerStep x v a dt).velocity * dt
      ∧ (eulerStep x v a dt).position = x + v * dt + a * dt ^ 2 := by
  refine ⟨rfl, rfl, ?_⟩
  unfold eulerStep
  ext <;> simp <;> ring

end IntegratorFacts

/-! ## The simulation tick -/

namespace ParticleSystem

section AccelOnlyFacts

variable {F : Type}

theorem accelOnly_refl (p : Particle F) : AccelOnly p p :=
  ⟨rfl, fun _ => rfl⟩

theorem accelOnly_trans {p1 p2 p3 : Particle F} (h12 : AccelOnly p1 p2)
    (h23 : AccelOnly p2 p3) : AccelOnly p1 p3 := by
  obtain ⟨e12, f12⟩ := h12
  obtain ⟨e23, f23⟩ := h23
  constructor
  · rw [e23, e12]
  · intro hf
    have h2 : p2 = p1 := f12 hf
    rw [h2] at f23
    exact f23 hf

theorem accelOnly_update (p : Particle F) (a : Vec3 F)
    (hfree : (p.isFixed || p.isBeingDragged) = false) :
    AccelOnly p { p with acceleration := a } :=
  ⟨rfl, fun hf => by rw [hfree] at hf; exact absurd hf (by decide)⟩

theorem accelOnlyList_refl (ps : List (Particle F)) : AccelOnlyList ps ps :=
  fun _ p h => ⟨p, h, accelOnly_refl p⟩

theorem accelOnlyList_trans {ps1 ps2 ps3 : List (Particle F)} (h12 : AccelOnlyList ps1 ps2)
    (h23 : AccelOnlyList ps2 ps3) : AccelOnlyList ps1 ps3 := by
  intro i p1 h1
  obtain ⟨p2, h2, a12⟩ := h12 i p1 h1
  obtain ⟨p3, h3, a23⟩ := h23 i p2 h2
  exact ⟨p3, h3, accelOnly_trans a12 a23⟩

/-- A loop whose every iteration changes accelerations only, changes
accelerations only. -/
theorem accelOnlyList_foldl {α : Type} (f : List (Particle F) → α → List (Particle F))
    (hf : ∀ acc x, AccelOnlyList acc (f acc x)) (l : List α) (ps : List (Particle F)) :
    AccelOnlyList ps (l.foldl f ps) := by
  induction l generalizing ps with
  | nil => exact accelOnlyList_refl ps
  | cons x l ih => exact accelOnlyList_trans (hf ps x) (ih (f ps x))

theorem accelOnlyList_set (ps : List (Particle F)) (i : Nat) (p q : Particle F)
    (hp : ps[i]? = some p) (hq : AccelOnly p q) : AccelOnlyList ps (ps.set i q) := by
  intro n p1 h1
  by_cases hin : i = n
  · subst hin
    have hlt : i < ps.length := (List.getElem?_eq_some_iff.mp hp).1
    rw [hp] at h1
    injection h1 with h1
    exact ⟨q, List.getElem?_set_self hlt, h1 ▸ hq⟩
  · simp only [List.getElem?_set_ne hin]
    exact ⟨p1, h1, accelOnly_refl p1⟩

/-- Overwriting the accelerations of two free particles changes accelerations
only. -/
theorem accelOnlyList_set_set (ps : List (Particle F)) (i j : Nat) (p1 p2 : Particle F)
    (a1 a2 : Vec3 F) (h1 : ps[i]? = some p1) (h2 : ps[j]? = some p2)
    (hf1 : (p1.isFixed || p1.isBeingDragged) = false)
    (hf2 : (p2.isFixed || p2.isBeingDragged) = false) :
    AccelOnlyList ps
      ((ps.set i { p1 with acceleration := a1 }).set j { p2 with acceleration := a2 }) := by
  intro n q hq
  by_cases hj : j = n
  · subst hj
    have hlt : j < (ps.set i { p1 with acceleration := a1 }).length := by
      rw [List.length_set]
      exact (List.getElem?_eq_some_iff.mp h2).1
    rw [h2] at hq
    injection hq with hq
    subst hq
    exact ⟨_, List.getElem?_set_self hlt, accelOnly_update _ a2 hf2⟩
  · simp only [List.getElem?_set_ne hj]
    exact accelOnlyList_set ps i p1 _ h1 (accelOnly_update p1 a1 hf1) n q hq

end AccelOnlyFacts

variable {F : Type} [LinearOrderedField F] (sqrt : F → F)

theorem collisionPair_accelOnly (minSep : F) (ps : List (Particle F)) (i j : Nat) :
    AccelOnlyList ps (collisionPair sqrt minSep ps i j) := by
  unfold collisionPair
  split
  · rename_i p1 p2 h1 h2
    by_cases hflag : (p1.isFixed || p1.isBeingDragged || p2.isFixed || p2.isBeingDragged) = true
    · rw [if_pos hflag]
      exact accelOnlyList_refl ps
    · rw [if_neg hflag]
      have hf : (p1.isFixed = false ∧ p1.isBeingDragged = false)
          ∧ (p2.isFixed = false ∧ p2.isBeingDragged = false) := by
        simpa [not_or, and_assoc] using hflag
      have hf1 : (p1.isFixed || p1.isBeingDragged) = false := by simp [hf.1.1, hf.1.2]
      have hf2 : (p2.isFixed || p2.isBeingDragged) = false := by simp [hf.2.1, hf.2.2]
      dsimp only
      split_ifs
      · exact accelOnlyList_set_set ps i j p1 p2 _ _ h1 h2 hf1 hf2
      · exact accelOnlyList_refl ps
  · exact accelOnlyList_refl ps

theorem applyCollisionPrevention_accelOnly (minSep : F) (ps : List (Particle F)) :
    AccelOnlyList ps (applyCollisionPrevention sqrt minSep ps) := by
  unfold applyCollisionPrevention
  apply accelOnlyList_foldl
  intro acc i
  apply accelOnlyList_foldl
  intro acc2 j
  exact collisionPair_accelOnly sqrt minSep acc2 i j

/-- `totalField` reads only the positions and the charges of the particles. -/
theorem totalField_congr (evalPoint : Vec3 F) (ps ps2 : List (Particle F))
    (h : ps.map (fun p => (p.position, p.charge)) = ps2.map (fun p => (p.position, p.charge))) :
    ElectricField.totalField sqrt evalPoint ps = ElectricField.totalField sqrt evalPoint ps2 := by
  unfold ElectricField.totalField
  generalize (0 : Vec3 F) = acc
  induction ps generalizing ps2 acc with
  | nil =>
    cases ps2 with
    | nil => rfl
    | cons q qs => simp at h
  | cons p ps ih =>
    cases ps2 with
    | nil => simp at h
    | cons q qs =>
      simp only [List.map_cons, List.cons.injEq, Prod.mk.injEq] at h
      obtain ⟨⟨hpos, hch⟩, hrest⟩ := h
      simp only [List.foldl_cons, hpos, hch]
      exact ih qs hrest _

theorem forceBody_key (all : List (Particle F)) (p : Particle F) :
    ((forceBody sqrt all p).position, (forceBody sqrt all p).charge) = (p.position, p.charge) := by
  unfold forceBody
  split_ifs <;> rfl

theorem forceBody_congr (all all2 : List (Particle F)) (p : Particle F)
    (h : all.map (fun p => (p.position, p.charge)) = all2.map (fun p => (p.position, p.charge))) :
    forceBody sqrt all p = forceBody sqrt all2 p := by
  unfold forceBody computeNetForce
  rw [totalField_congr sqrt p.position all all2 h]

theorem forceLoopFrom_eq (ps : List (Particle F)) :
    ∀ (rest done : List (Particle F)),
      (done ++ rest).map (fun p => (p.position, p.charge))
        = ps.map (fun p => (p.position, p.charge)) →
      forceLoopFrom sqrt done rest = done ++ rest.map (forceBody sqrt ps) := by
  intro rest
  induction rest with
  | nil =>
    intro done _
    simp [forceLoopFrom]
  | cons p rest ih =>
    intro done h
    have hb : forceBody sqrt (done ++ p :: rest) p = forceBody sqrt ps p :=
      forceBody_congr sqrt _ _ p h
    rw [forceLoopFrom, hb, ih]
    · simp
    · have hk := forceBody_key sqrt ps p
      simp only [List.map_append, List.map_cons, List.map_nil, List.append_assoc,
        List.singleton_append] at h ⊢
      rw [hk]
      exact h

/-- Every acceleration written by the first loop of `step` is computed from
the particle vector as it was before the loop. -/
theorem forceLoop_eq_map (ps : List (Particle F)) :
    forceLoop sqrt ps = ps.map (forceBody sqrt ps) := by
  unfold forceLoop
  rw [forceLoopFrom_eq sqrt ps ps [] rfl]
  rfl

/-- The element at index `i` just before the clamp: the first two loops
applied to the pre-step element, up to a later change of the acceleration. -/
theorem beforeClamp_get (dt : F) (sys : ParticleSystem F) (i : Nat) (p : Particle F)
    (hp : sys.m_particles[i]? = some p) :
    ∃ q, (beforeClamp sqrt dt sys)[i]? = some q
      ∧ AccelOnly (integrateBody sys.m_integrationMethod dt (forceBody sqrt sys.m_particles p)) q := by
  have h2 : ((forceLoop sqrt sys.m_particles).map (integrateBody sys.m_integrationMethod dt))[i]?
      = some (integrateBody sys.m_integrationMethod dt (forceBody sqrt sys.m_particles p)) := by
    rw [forceLoop_eq_map, List.getElem?_map, List.getElem?_map, hp]
    rfl
  unfold beforeClamp
  dsimp only
  split_ifs
  · exact applyCollisionPrevention_accelOnly sqrt sys.m_minSeparation _ i _ h2
  · exact ⟨_, h2, accelOnly_refl _⟩

theorem step_particles (dt : F) (sys : ParticleSystem F) (hne : sys.m_particles ≠ []) :
    (step sqrt dt sys).m_particles = clampVelocities sqrt (beforeClamp sqrt dt sys) := by
  unfold step
  have he : sys.m_particles.isEmpty = false := by
    cases h : sys.m_particles with
    | nil => exact absurd h hne
    | cons a l => rfl
  simp only [he, Bool.false_eq_true, if_false]

theorem step_get (dt : F) (sys : ParticleSystem F) (i : Nat) (p : Particle F)
    (hp : sys.m_particles[i]? = some p) :
    ∃ q, (step sqrt dt sys).m_particles[i]? = some (clampBody sqrt q)
      ∧ (beforeClamp sqrt dt sys)[i]? = some q
      ∧ AccelOnly (integrateBody sys.m_integrationMethod dt (forceBody sqrt sys.m_particles p)) q := by
  have hne : sys.m_particles ≠ [] := by
    intro h
    rw [h] at hp
    simp at hp
  obtain ⟨q, hq, ha⟩ := beforeClamp_get sqrt dt sys i p hp
  refine ⟨q, ?_, hq, ha⟩
  rw [step_particles sqrt dt sys hne]
  unfold clampVelocities
  rw [List.getElem?_map, hq]
  rfl

theorem clampBody_frame (p : Particle F) :
    (clampBody sqrt p).position = p.position
      ∧ (clampBody sqrt p).isFixed = p.isFixed
      ∧ (clampBody sqrt p).isBeingDragged = p.isBeingDragged := by
  unfold clampBody
  dsimp only
  split_ifs <;> exact ⟨rfl, rfl, rfl⟩

theorem clampBody_of_le (p : Particle F)
    (h : Vec3.length sqrt p.velocity ≤ PhysicsConstants.MAX_VELOCITY) :
    clampBody sqrt p = p := by
  unfold clampBody
  dsimp only
  rw [if_neg (not_lt.mpr h)]

/-- One tick on a fixed or dragged particle: only the velocity clamp is
applied to it. -/
theorem step_get_fixed (dt : F) (sys : ParticleSystem F) (i : Nat) (p : Particle F)
    (hp : sys.m_particles[i]? = some p)
    (hflag : (p.isFixed || p.isBeingDragged) = true) :
    (step sqrt dt sys).m_particles[i]? = some (clampBody sqrt p) := by
  obtain ⟨q, hq, _, ha⟩ := step_get sqrt dt sys i p hp
  have h1 : forceBody sqrt sys.m_particles p = p := by
    unfold forceBody
    rw [if_pos hflag]
  have h2 : integrateBody sys.m_integrationMethod dt p = p := by
    unfold integrateBody
    rw [if_pos hflag]
  rw [h1, h2] at ha
  rw [hq, ha.2 hflag]

theorem stepN_get_fixed (dt : F) (n : Nat) :
    ∀ (sys : ParticleSystem F) (i : Nat) (p : Particle F),
      sys.m_particles[i]? = some p → (p.isFixed || p.isBeingDragged) = true →
      ∃ q, (stepN sqrt dt n sys).m_particles[i]? = some q
        ∧ q.position = p.position
        ∧ (Vec3.length sqrt p.velocity ≤ PhysicsConstants.MAX_VELOCITY → q = p) := by
  induction n with
  | zero =>
    intro sys i p hp _
    exact ⟨p, hp, rfl, fun _ => rfl⟩
  | succ n ih =>
    intro sys i p hp hflag
    have h1 := step_get_fixed sqrt dt sys i p hp hflag
    obtain ⟨hpos, hfix, hdrag⟩ := clampBody_frame sqrt p
    have hflag2 : ((clampBody sqrt p).isFixed || (clampBody sqrt p).isBeingDragged) = true := by
      rw [hfix, hdrag]
      exact hflag
    obtain ⟨q, hq, hqpos, hqv⟩ := ih (step sqrt dt sys) i (clampBody sqrt p) h1 hflag2
    refine ⟨q, hq, hqpos.trans hpos, ?_⟩
    intro hle
    have hc : clampBody sqrt p = p := clampBody_of_le sqrt p hle
    rw [hc] at hqv
    exact hqv hle

/-- C1 (amended): a particle that is fixed or being dragged has the same
position after any number of calls of `step(dt)`, and the same velocity
provided its speed is at most `MAX_VELOCITY`. -/
theorem C1_fixed_or_dragged_unchanged (dt : F) (n : Nat) (sys : ParticleSystem F) (i : Nat)
    (p : Particle F) (hp : sys.m_particles[i]? = some p)
    (hflag : p.isFixed = true ∨ p.isBeingDragged = true) :
    ∃ q, (stepN sqrt dt n sys).m_particles[i]? = some q
      ∧ q.position = p.position
      ∧ (Vec3.length sqrt p.velocity ≤ PhysicsConstants.MAX_VELOCITY →
          q.velocity = p.velocity) := by
  have hf : (p.isFixed || p.isBeingDragged) = true := by
    rcases hflag with h | h <;> simp [h]
  obtain ⟨q, hq, hpos, hv⟩ := stepN_get_fixed sqrt dt n sys i p hp hf
  exact ⟨q, hq, hpos, fun hle => by rw [hv hle]⟩

theorem normalize_muls_eq (v : Vec3 F) (m : F) :
    Vec3.normalize sqrt v * m = (v / Vec3.length sqrt v) * m := by
  unfold Vec3.normalize Vec3.length
  ext <;> simp [div_eq_mul_inv]

/-- C7: with the Verlet method, one `step(dt)` on a particle that is neither
fixed nor dragged and has non-zero mass uses the acceleration
`a = charge * totalField(position, particles) / mass` evaluated on the
pre-step particle vector; just before the clamp its velocity is `v + a*dt`
and its position `x + v*dt + 0.5*a*dt^2`; after the step the position is
that one, and the velocity is `v + a*dt` whenever that has length at most
`MAX_VELOCITY`. -/
theorem C7_verlet_step (dt : F) (sys : ParticleSystem F) (i : Nat) (p : Particle F)
    (hm : sys.m_integrationMethod = IntegrationMethod.VERLET)
    (hp : sys.m_particles[i]? = some p)
    (hfix : p.isFixed = false) (hdrag : p.isBeingDragged = false) (_hmass : p.mass ≠ 0) :
    ∃ q0 q, (beforeClamp sqrt dt sys)[i]? = some q0
      ∧ (step sqrt dt sys).m_particles[i]? = some q
      ∧ q0.velocity
          = p.velocity
            + (p.charge * ElectricField.totalField sqrt p.position sys.m_particles / p.mass) * dt
      ∧ q0.position
          = p.position + p.velocity * dt
            + (0.5 : F)
              * (p.charge * ElectricField.totalField sqrt p.position sys.m_particles / p.mass)
              * dt ^ 2
      ∧ q.position = q0.position
      ∧ (Vec3.length sqrt
            (p.velocity
              + (p.charge * ElectricField.totalField sqrt p.position sys.m_particles / p.mass)
                * dt)
          ≤ PhysicsConstants.MAX_VELOCITY →
          q.velocity
            = p.velocity
              + (p.charge * ElectricField.totalField sqrt p.position sys.m_particles / p.mass)
                * dt) := by
  obtain ⟨q0, hq, hb, ha⟩ := step_get sqrt dt sys i p hp
  have hfree : (p.isFixed || p.isBeingDragged) = false := by simp [hfix, hdrag]
  have h1 : forceBody sqrt sys.m_particles p
      = { p with acceleration :=
            p.charge * ElectricField.totalField sqrt p.position sys.m_particles / p.mass } := by
    unfold forceBody computeNetForce
    simp [hfree]
  have hfree2 : ((forceBody sqrt sys.m_particles p).isFixed
      || (forceBody sqrt sys.m_particles p).isBeingDragged) = false := by
    rw [h1]
    exact hfree
  have hv : q0.velocity
      = p.velocity
        + (p.charge * ElectricField.totalField sqrt p.position sys.m_particles / p.mass)
          * dt := by
    rw [ha.1]
    unfold integrateBody
    rw [hm]
    simp only [hfree2, Bool.false_eq_true, if_false]
    rw [h1]
    rfl
  have hx : q0.position
      = p.position + p.velocity * dt
        + (0.5 : F)
          * (p.charge * ElectricField.totalField sqrt p.position sys.m_particles / p.mass)
          * dt ^ 2 := by
    rw [ha.1]
    unfold integrateBody
    rw [hm]
    simp only [hfree2, Bool.false_eq_true, if_false]
    rw [h1]
    unfold verletStep
    ext <;> simp <;> ring
  refine ⟨q0, clampBody sqrt q0, hb, hq, hv, hx, (clampBody_frame sqrt q0).1, ?_⟩
  intro hle
  rw [← hv] at hle
  rw [clampBody_of_le sqrt q0 hle, hv]

/-- C8: after `step(dt)` on a non-empty system every particle has speed at
most `MAX_VELOCITY`; a particle whose velocity `v` just before the clamp has
`|v| > MAX_VELOCITY` ends with `(v/|v|) * MAX_VELOCITY`, of length exactly
`MAX_VELOCITY`, and one with `|v| <= MAX_VELOCITY` keeps `v`. -/
theorem C8_step_clamps_speed (hs : SqrtSpec sqrt) (dt : F) (sys : ParticleSystem F)
    (hne : sys.m_particles ≠ []) (i : Nat) (q : Particle F)
    (hq : (step sqrt dt sys).m_particles[i]? = some q) :
    Vec3.length sqrt q.velocity ≤ PhysicsConstants.MAX_VELOCITY
      ∧ ∃ q0, (beforeClamp sqrt dt sys)[i]? = some q0
          ∧ (PhysicsConstants.MAX_VELOCITY < Vec3.length sqrt q0.velocity →
              q.velocity
                  = (q0.velocity / Vec3.length sqrt q0.velocity) * (PhysicsConstants.MAX_VELOCITY : F)
                ∧ Vec3.length sqrt q.velocity = PhysicsConstants.MAX_VELOCITY)
          ∧ (Vec3.length sqrt q0.velocity ≤ PhysicsConstants.MAX_VELOCITY →
              q.velocity = q0.velocity) := by
  rw [step_particles sqrt dt sys hne] at hq
  unfold clampVelocities at hq
  rw [List.getElem?_map] at hq
  cases hb : (beforeClamp sqrt dt sys)[i]? with
  | none =>
    rw [hb] at hq
    simp at hq
  | some q0 =>
    rw [hb] at hq
    simp only [Option.map_some', Option.some.injEq] at hq
    have hMax : (0 : F) < PhysicsConstants.MAX_VELOCITY := max_velocity_pos
    by_cases hgt : PhysicsConstants.MAX_VELOCITY < Vec3.length sqrt q0.velocity
    · have hvel : q.velocity
          = Vec3.normalize sqrt q0.velocity * (PhysicsConstants.MAX_VELOCITY : F) := by
        rw [← hq]
        unfold clampBody
        simp only [gt_iff_lt, hgt, if_true]
      have hlen : Vec3.length sqrt q.velocity = PhysicsConstants.MAX_VELOCITY := by
        rw [hvel, Vec3.muls_eq_smul, Vec3.length_smul hs,
          Vec3.length_normalize hs _ (lt_trans hMax hgt), abs_of_pos hMax, mul_one]
      refine ⟨le_of_eq hlen, q0, rfl, ?_, ?_⟩
      · intro _
        exact ⟨by rw [hvel, normalize_muls_eq], hlen⟩
      · intro hle
        exact absurd hgt (not_lt.mpr hle)
    · have hle : Vec3.length sqrt q0.velocity ≤ PhysicsConstants.MAX_VELOCITY := not_lt.mp hgt
      have hqq : q = q0 := by rw [← hq, clampBody_of_le sqrt q0 hle]
      refine ⟨by rw [hqq]; exact hle, q0, rfl, ?_, ?_⟩
      · intro h
        exact absurd h hgt
      · intro _
        rw [hqq]

end ParticleSystem

/-! ## Concrete evaluations over the real numbers -/

section RealEvaluation

theorem length_real_x (a : ℝ) (ha : 0 ≤ a) : Vec3.length Real.sqrt (⟨a, 0, 0⟩ : Vec3 ℝ) = a :=
  Vec3.length_eq_of_sq realSqrtSpec _ a ha (by simp [Vec3.dot])

theorem C2_fromPointCharge_coulomb_witness :
    (PhysicsConstants.MIN_SAFE_DISTANCE : ℝ)
        ≤ Vec3.length Real.sqrt ((⟨1, 0, 0⟩ : Vec3 ℝ) - ⟨0, 0, 0⟩)
      ∧ Vec3.length Real.sqrt (ElectricField.fromPointCharge Real.sqrt ⟨1, 0, 0⟩ ⟨0, 0, 0⟩ 1)
        = PhysicsConstants.k * |(1 : ℝ)|
          / (Vec3.length Real.sqrt ((⟨1, 0, 0⟩ : Vec3 ℝ) - ⟨0, 0, 0⟩)) ^ 2 := by
  have h : (PhysicsConstants.MIN_SAFE_DISTANCE : ℝ)
      ≤ Vec3.length Real.sqrt ((⟨1, 0, 0⟩ : Vec3 ℝ) - ⟨0, 0, 0⟩) := by
    have e : ((⟨1, 0, 0⟩ : Vec3 ℝ) - ⟨0, 0, 0⟩) = ⟨1, 0, 0⟩ := by ext <;> simp
    rw [e, length_real_x 1 zero_le_one]
    unfold PhysicsConstants.MIN_SAFE_DISTANCE
    norm_num
  exact ⟨h, (ElectricField.C2_fromPointCharge_coulomb realSqrtSpec ⟨1, 0, 0⟩ ⟨0, 0, 0⟩ 1 h).2.1⟩

theorem C3_fromPointCharge_singularity_witness :
    ElectricField.fromPointCharge Real.sqrt (⟨1, 2, 3⟩ : Vec3 ℝ) ⟨1, 2, 3⟩ 1 = 0 :=
  ElectricField.C3_fromPointCharge_singularity realSqrtSpec ⟨1, 2, 3⟩ ⟨1, 2, 3⟩ 1 (Or.inl rfl)

theorem createProton_position {F : Type} [LinearOrderedField F] (pos : Vec3 F) :
    (Particle.createProton pos).position = pos ∧
      (Particle.createProton pos).charge = PhysicsConstants.e := by
  unfold Particle.createProton Particle.updateColorFromCharge
  constructor <;> (simp only []; split_ifs <;> rfl)

theorem createElectron_position {F : Type} [LinearOrderedField F] (pos : Vec3 F) :
    (Particle.createElectron pos).position = pos ∧
      (Particle.createElectron pos).charge = -PhysicsConstants.e := by
  unfold Particle.createElectron Particle.updateColorFromCharge
  constructor <;> (simp only []; split_ifs <;> rfl)

theorem C4_totalField_sum_witness :
    ElectricField.totalField Real.sqrt (⟨1, 0, 0⟩ : Vec3 ℝ)
        [Particle.createProton ⟨1, 0, 0⟩, Particle.createElectron ⟨-1, 0, 0⟩]
      = ElectricField.totalField Real.sqrt (⟨1, 0, 0⟩ : Vec3 ℝ)
          [Particle.createElectron ⟨-1, 0, 0⟩] :=
  (ElectricField.C4_totalField_sum (⟨1, 0, 0⟩ : Vec3 ℝ)
    [Particle.createProton ⟨1, 0, 0⟩, Particle.createElectron ⟨-1, 0, 0⟩]).2.2
    realSqrtSpec [] [Particle.createElectron ⟨-1, 0, 0⟩] (Particle.createProton ⟨1, 0, 0⟩)
    (createProton_position _).1 rfl

theorem C5_totalField_dipole_witness :
    (0 : ℝ) < PhysicsConstants.e
      ∧ ElectricField.totalField Real.sqrt (0 : Vec3 ℝ)
          [Particle.createElectron ⟨-1, 0, 0⟩, Particle.createProton ⟨1, 0, 0⟩]
        = ⟨-2 * PhysicsConstants.k * PhysicsConstants.e, 0, 0⟩ :=
  ⟨elementary_charge_pos,
    (ElectricField.C5_totalField_dipole realSqrtSpec PhysicsConstants.e elementary_charge_pos
      (Particle.createProton ⟨1, 0, 0⟩) (Particle.createElectron ⟨-1, 0, 0⟩)
      (createProton_position _).1 (createProton_position _).2
      (createElectron_position _).1 (createElectron_position _).2).1⟩

theorem speed_of_light_nonneg : (0 : ℝ) ≤ PhysicsConstants.c := by
  unfold PhysicsConstants.c
  norm_num

theorem max_velocity_lt_c : (PhysicsConstants.MAX_VELOCITY : ℝ) < PhysicsConstants.c := by
  unfold PhysicsConstants.MAX_VELOCITY PhysicsConstants.c
  norm_num

/-- The clamp rescales the velocity `(c,0,0)` to `(MAX_VELOCITY,0,0)`. -/
theorem clampBody_example_fast (isFixed : Bool) :
    ParticleSystem.clampBody Real.sqrt
        (exampleParticle (⟨PhysicsConstants.c, 0, 0⟩ : Vec3 ℝ) isFixed)
      = exampleParticle ⟨PhysicsConstants.MAX_VELOCITY, 0, 0⟩ isFixed := by
  have hl : Vec3.length Real.sqrt (⟨PhysicsConstants.c, 0, 0⟩ : Vec3 ℝ) = PhysicsConstants.c :=
    length_real_x _ speed_of_light_nonneg
  have hc : (PhysicsConstants.c : ℝ) ≠ 0 := by
    unfold PhysicsConstants.c
    norm_num
  unfold ParticleSystem.clampBody exampleParticle
  simp only [hl, gt_iff_lt, max_velocity_lt_c, if_true, ParticleSystem.normalize_muls_eq]
  congr 1
  ext <;> simp [hc]

/-- C1, as stated, fails: a fixed particle with velocity `(c,0,0)` has the
velocity `(MAX_VELOCITY,0,0)` after one call of `step`. -/
theorem C1_counterexample_fixed_fast :
    (exampleSystem (⟨PhysicsConstants.c, 0, 0⟩ : Vec3 ℝ) true).m_particles[0]?
        = some (exampleParticle ⟨PhysicsConstants.c, 0, 0⟩ true)
      ∧ (exampleParticle (⟨PhysicsConstants.c, 0, 0⟩ : Vec3 ℝ) true).isFixed = true
      ∧ (ParticleSystem.stepN Real.sqrt 1 1
            (exampleSystem (⟨PhysicsConstants.c, 0, 0⟩ : Vec3 ℝ) true)).m_particles[0]?
          = some (exampleParticle ⟨PhysicsConstants.MAX_VELOCITY, 0, 0⟩ true)
      ∧ (exampleParticle (⟨PhysicsConstants.MAX_VELOCITY, 0, 0⟩ : Vec3 ℝ) true).velocity
          ≠ (exampleParticle (⟨PhysicsConstants.c, 0, 0⟩ : Vec3 ℝ) true).velocity := by
  refine ⟨rfl, rfl, ?_, ?_⟩
  · show (ParticleSystem.step Real.sqrt 1
        (exampleSystem (⟨PhysicsConstants.c, 0, 0⟩ : Vec3 ℝ) true)).m_particles[0]? = _
    rw [ParticleSystem.step_get_fixed Real.sqrt 1 (exampleSystem (⟨PhysicsConstants.c, 0, 0⟩ : Vec3 ℝ) true)
      0 (exampleParticle ⟨PhysicsConstants.c, 0, 0⟩ true) rfl rfl, clampBody_example_fast]
  · intro h
    have hx := congrArg Vec3.x h
    exact absurd hx (ne_of_lt max_velocity_lt_c)

theorem C1_fixed_or_dragged_unchanged_witness :
    ∃ q, (ParticleSystem.stepN Real.sqrt 1 3
            (exampleSystem (⟨1, 0, 0⟩ : Vec3 ℝ) true)).m_particles[0]? = some q
      ∧ q.position = (exampleParticle (⟨1, 0, 0⟩ : Vec3 ℝ) true).position
      ∧ q.velocity = (exampleParticle (⟨1, 0, 0⟩ : Vec3 ℝ) true).velocity := by
  obtain ⟨q, h1, h2, h3⟩ := ParticleSystem.C1_fixed_or_dragged_unchanged Real.sqrt 1 3
    (exampleSystem (⟨1, 0, 0⟩ : Vec3 ℝ) true) 0 (exampleParticle ⟨1, 0, 0⟩ true) rfl
    (Or.inl rfl)
  refine ⟨q, h1, h2, h3 ?_⟩
  show Vec3.length Real.sqrt (⟨1, 0, 0⟩ : Vec3 ℝ) ≤ PhysicsConstants.MAX_VELOCITY
  rw [length_real_x 1 zero_le_one]
  unfold PhysicsConstants.MAX_VELOCITY PhysicsConstants.c
  norm_num

theorem C7_verlet_step_witness :
    ∃ q0 q, (ParticleSystem.beforeClamp Real.sqrt 1
            (exampleSystem (⟨1, 0, 0⟩ : Vec3 ℝ) false))[0]? = some q0
      ∧ (ParticleSystem.step Real.sqrt 1
            (exampleSystem (⟨1, 0, 0⟩ : Vec3 ℝ) false)).m_particles[0]? = some q
      ∧ q0.velocity = ⟨1, 0, 0⟩ ∧ q0.position = ⟨1, 0, 0⟩
      ∧ q.position = ⟨1, 0, 0⟩ ∧ q.velocity = ⟨1, 0, 0⟩ := by
  have hm : (PhysicsConstants.m_p : ℝ) ≠ 0 := by
    unfold PhysicsConstants.m_p
    norm_num
  obtain ⟨q0, q, h1, h2, h3, h4, h5, h6⟩ := ParticleSystem.C7_verlet_step Real.sqrt 1
    (exampleSystem (⟨1, 0, 0⟩ : Vec3 ℝ) false) 0 (exampleParticle ⟨1, 0, 0⟩ false) rfl rfl
    rfl rfl hm
  have hE : ElectricField.totalField Real.sqrt
      (exampleParticle (⟨1, 0, 0⟩ : Vec3 ℝ) false).position
      (exampleSystem (⟨1, 0, 0⟩ : Vec3 ℝ) false).m_particles = 0 := by
    have hz : Vec3.length Real.sqrt ((0 : Vec3 ℝ) - 0) < PhysicsConstants.MIN_SAFE_DISTANCE := by
      rw [Vec3.sub_self_eq_zero, Vec3.length_zero realSqrtSpec]
      exact min_safe_distance_pos
    show ElectricField.totalField Real.sqrt (0 : Vec3 ℝ)
      [exampleParticle (⟨1, 0, 0⟩ : Vec3 ℝ) false] = 0
    unfold ElectricField.totalField
    simp only [List.foldl]
    exact if_pos hz
  have hv : (exampleParticle (⟨1, 0, 0⟩ : Vec3 ℝ) false).velocity
      + ((exampleParticle (⟨1, 0, 0⟩ : Vec3 ℝ) false).charge * (0 : Vec3 ℝ)
          / (exampleParticle (⟨1, 0, 0⟩ : Vec3 ℝ) false).mass) * (1 : ℝ) = ⟨1, 0, 0⟩ := by
    ext <;> simp [exampleParticle]
  rw [hE] at h3 h4 h6
  rw [hv] at h3 h6
  have hspeed : Vec3.length Real.sqrt (⟨1, 0, 0⟩ : Vec3 ℝ) ≤ PhysicsConstants.MAX_VELOCITY := by
    rw [length_real_x 1 zero_le_one]
    unfold PhysicsConstants.MAX_VELOCITY PhysicsConstants.c
    norm_num
  refine ⟨q0, q, h1, h2, h3, ?_, ?_, h6 hspeed⟩
  · rw [h4]
    ext <;> simp [exampleParticle]
  · rw [h5, h4]
    ext <;> simp [exampleParticle]

theorem C8_step_clamps_speed_witness :
    Vec3.length Real.sqrt
        (exampleParticle (⟨PhysicsConstants.MAX_VELOCITY, 0, 0⟩ : Vec3 ℝ) true).velocity
      ≤ PhysicsConstants.MAX_VELOCITY := by
  have hstep : (ParticleSystem.step Real.sqrt 1
      (exampleSystem (⟨PhysicsConstants.c, 0, 0⟩ : Vec3 ℝ) true)).m_particles[0]?
      = some (exampleParticle ⟨PhysicsConstants.MAX_VELOCITY, 0, 0⟩ true) := by
    rw [ParticleSystem.step_get_fixed Real.sqrt 1 (exampleSystem (⟨PhysicsConstants.c, 0, 0⟩ : Vec3 ℝ) true)
      0 (exampleParticle ⟨PhysicsConstants.c, 0, 0⟩ true) rfl rfl, clampBody_example_fast]
  exact (ParticleSystem.C8_step_clamps_speed Real.sqrt realSqrtSpec 1
    (exampleSystem (⟨PhysicsConstants.c, 0, 0⟩ : Vec3 ℝ) true) (List.cons_ne_nil _ _) 0 _
    hstep).1

/-- Field on the x axis, at distance `d` to the right of the charge. -/
theorem fromPointCharge_real_x (a b q d : ℝ) (hd : a - b = d)
    (hmin : PhysicsConstants.MIN_SAFE_DISTANCE ≤ d) :
    ElectricField.fromPointCharge Real.sqrt ⟨a, 0, 0⟩ ⟨b, 0, 0⟩ q
      = ⟨PhysicsConstants.k * q / (d * d), 0, 0⟩ := by
  have hpos : 0 < d := lt_of_lt_of_le min_safe_distance_pos hmin
  have e : ((⟨a, 0, 0⟩ : Vec3 ℝ) - ⟨b, 0, 0⟩) = ⟨d, 0, 0⟩ := by
    ext <;> simp [hd]
  have hl : Vec3.length Real.sqrt ((⟨a, 0, 0⟩ : Vec3 ℝ) - ⟨b, 0, 0⟩) = d := by
    rw [e]
    exact length_real_x d (le_of_lt hpos)
  rw [ElectricField.fromPointCharge_far _ _ _ (by rw [hl]; exact hmin), hl, e]
  ext <;> simp [ne_of_gt hpos]

theorem retardedPosition_example :
    ElectricField.retardedPosition (5 / 2 : ℝ) exampleSource = ⟨5, 0, 0⟩ := by
  have h0 : |(0 : ℝ) - 5 / 2| = 5 / 2 := by
    rw [abs_of_neg (by norm_num)]
    norm_num
  have h1 : |(2 : ℝ) - 5 / 2| = 1 / 2 := by
    rw [abs_of_neg (by norm_num)]
    norm_num
  have h2 : |(4 : ℝ) - 5 / 2| = 3 / 2 := by
    rw [abs_of_pos (by norm_num)]
    norm_num
  have h3 : |(4 : ℝ) - 0| = 4 := by
    rw [abs_of_pos (by norm_num)]
    norm_num
  have hloop : ElectricField.nearestLoop (5 / 2 : ℝ) (exampleSource (F := ℝ)).history 0
      (DBL_MAX, -1) = (1 / 2, 1) := by
    unfold exampleSource DBL_MAX
    simp only [ElectricField.nearestLoop, h0, h1, h2]
    norm_num
  unfold ElectricField.retardedPosition
  rw [hloop]
  unfold exampleSource
  norm_num [h3, Int.toNat]
  ext <;> norm_num

/-- C10, evaluation of the code: with samples at times `0`, `2`, `4` and
retarded time `5/2`, `retardedField` interpolates between the samples at
times `0` and `4`, the neighbours of the nearest sample, and uses the
position `(5,0,0)`; interpolating between the bracketing samples at times
`2` and `4` gives the position `(8,0,0)` and a different field. -/
theorem C10_retardedField_skips_nearest_sample :
    ElectricField.retardedField Real.sqrt (⟨9, 0, 0⟩ : Vec3 ℝ)
        (5 / 2 + 1 / PhysicsConstants.c) exampleSource
      = ⟨PhysicsConstants.k / 16, 0, 0⟩
    ∧ ElectricField.fromPointCharge Real.sqrt (⟨9, 0, 0⟩ : Vec3 ℝ)
        (bracketInterpolation
          { position := ⟨8, 0, 0⟩, velocity := 0, timestamp := 2 }
          { position := ⟨8, 0, 0⟩, velocity := 0, timestamp := 4 } (5 / 2))
        (exampleSource (F := ℝ)).charge
      = ⟨PhysicsConstants.k, 0, 0⟩
    ∧ (⟨PhysicsConstants.k / 16, 0, 0⟩ : Vec3 ℝ) ≠ ⟨PhysicsConstants.k, 0, 0⟩ := by
  have hmin1 : (PhysicsConstants.MIN_SAFE_DISTANCE : ℝ) ≤ 1 := min_safe_distance_le_one
  have hmin4 : (PhysicsConstants.MIN_SAFE_DISTANCE : ℝ) ≤ 4 := le_trans hmin1 (by norm_num)
  have hd : Vec3.length Real.sqrt ((⟨9, 0, 0⟩ : Vec3 ℝ) - (exampleSource (F := ℝ)).position)
      = 1 := by
    have e : ((⟨9, 0, 0⟩ : Vec3 ℝ) - (exampleSource (F := ℝ)).position) = ⟨1, 0, 0⟩ := by
      unfold exampleSource
      ext <;> norm_num
    rw [e]
    exact length_real_x 1 zero_le_one
  have ht : (5 / 2 + 1 / PhysicsConstants.c - 1 / PhysicsConstants.c : ℝ) = 5 / 2 := by ring
  refine ⟨?_, ?_, ?_⟩
  · unfold ElectricField.retardedField
    simp only [hd, ht, retardedPosition_example]
    have hq : (exampleSource (F := ℝ)).charge = 1 := rfl
    rw [hq, fromPointCharge_real_x 9 5 1 4 (by norm_num) hmin4]
    ext <;> norm_num
  · have hb : bracketInterpolation
        ({ position := ⟨8, 0, 0⟩, velocity := 0, timestamp := 2 } : HistoryPoint ℝ)
        { position := ⟨8, 0, 0⟩, velocity := 0, timestamp := 4 } (5 / 2) = ⟨8, 0, 0⟩ := by
      unfold bracketInterpolation
      ext <;> norm_num
    have hq : (exampleSource (F := ℝ)).charge = 1 := rfl
    rw [hb, hq, fromPointCharge_real_x 9 8 1 1 (by norm_num) hmin1]
    ext <;> norm_num
  · intro h
    have hx := congrArg Vec3.x h
    have hk : (0 : ℝ) < PhysicsConstants.k := coulomb_k_pos
    simp only at hx
    linarith

theorem totalField_example_source :
    ElectricField.totalField Real.sqrt (⟨9, 0, 0⟩ : Vec3 ℝ) [exampleSource]
      = ⟨PhysicsConstants.k, 0, 0⟩ := by
  have hmin1 : (PhysicsConstants.MIN_SAFE_DISTANCE : ℝ) ≤ 1 := min_safe_distance_le_one
  have e : ((⟨9, 0, 0⟩ : Vec3 ℝ) - (exampleSource (F := ℝ)).position) = ⟨1, 0, 0⟩ := by
    unfold exampleSource
    ext <;> norm_num
  have hd : ¬ Vec3.length Real.sqrt ((⟨9, 0, 0⟩ : Vec3 ℝ) - (exampleSource (F := ℝ)).position)
      < PhysicsConstants.MIN_SAFE_DISTANCE := by
    rw [e, length_real_x 1 zero_le_one]
    exact not_lt.mpr hmin1
  have hp : (exampleSource (F := ℝ)).position = ⟨8, 0, 0⟩ := rfl
  have hq : (exampleSource (F := ℝ)).charge = 1 := rfl
  unfold ElectricField.totalField
  simp only [List.foldl, if_neg hd, Vec3.zero_add_vec]
  rw [hp, hq, fromPointCharge_real_x 9 8 1 1 (by norm_num) hmin1]
  ext <;> norm_num

theorem C6_direction_magnitude_witness :
    (1e-20 : ℝ)
        ≤ Vec3.length Real.sqrt
            (ElectricField.totalField Real.sqrt (⟨9, 0, 0⟩ : Vec3 ℝ) [exampleSource])
      ∧ Vec3.length Real.sqrt
            (ElectricField.direction Real.sqrt (⟨9, 0, 0⟩ : Vec3 ℝ) [exampleSource]) = 1 := by
  have hk : (0 : ℝ) < PhysicsConstants.k := coulomb_k_pos
  have h : (1e-20 : ℝ)
      ≤ Vec3.length Real.sqrt
          (ElectricField.totalField Real.sqrt (⟨9, 0, 0⟩ : Vec3 ℝ) [exampleSource]) := by
    rw [totalField_example_source, length_real_x _ (le_of_lt hk)]
    unfold PhysicsConstants.k
    norm_num
  exact ⟨h, ((ElectricField.C6_direction_magnitude realSqrtSpec ⟨9, 0, 0⟩ [exampleSource]).2.2
    h).2.1⟩

end RealEvaluation

/-! ## Adding, removing and resetting particles -/

namespace ParticleSystem

section PlainListFacts

variable {F : Type}

theorem foldl_length {α : Type} (f : List (Particle F) → α → List (Particle F))
    (hf : ∀ acc x, (f acc x).length = acc.length) (l : List α) (ps : List (Particle F)) :
    (l.foldl f ps).length = ps.length := by
  induction l generalizing ps with
  | nil => rfl
  | cons x l ih => rw [List.foldl_cons, ih, hf]

theorem removeParticle_out_of_range (index : Int) (sys : ParticleSystem F)
    (h : index < 0 ∨ index ≥ (sys.m_particles.length : Int)) :
    removeParticle index sys = sys := by
  unfold removeParticle
  have hn : ¬ (index ≥ 0 ∧ index < (sys.m_particles.length : Int)) := by
    rintro ⟨h1, h2⟩
    rcases h with h | h <;> omega
  rw [if_neg hn]

theorem removeParticle_in_range (index : Int) (sys : ParticleSystem F)
    (h0 : 0 ≤ index) (h1 : index < (sys.m_particles.length : Int))
    (hlen : sys.m_initialParticles.length = sys.m_particles.length) :
    (removeParticle index sys).m_particles = sys.m_particles.eraseIdx index.toNat
      ∧ (removeParticle index sys).m_initialParticles
        = sys.m_initialParticles.eraseIdx index.toNat := by
  unfold removeParticle
  have hc : index ≥ 0 ∧ index < (sys.m_particles.length : Int) := ⟨h0, h1⟩
  have hi : index < (sys.m_initialParticles.length : Int) := by rw [hlen]; exact h1
  rw [if_pos hc]
  exact ⟨rfl, by simp only [if_pos hi]⟩

end PlainListFacts

variable {F : Type} [LinearOrderedField F] (sqrt : F → F)

theorem collisionPair_length (minSep : F) (ps : List (Particle F)) (i j : Nat) :
    (collisionPair sqrt minSep ps i j).length = ps.length := by
  unfold collisionPair
  split
  · dsimp only
    split_ifs <;> simp
  · rfl

theorem applyCollisionPrevention_length (minSep : F) (ps : List (Particle F)) :
    (applyCollisionPrevention sqrt minSep ps).length = ps.length := by
  unfold applyCollisionPrevention
  apply foldl_length
  intro acc i
  apply foldl_length
  intro acc2 j
  exact collisionPair_length sqrt minSep acc2 i j

theorem beforeClamp_length (dt : F) (sys : ParticleSystem F) :
    (beforeClamp sqrt dt sys).length = sys.m_particles.length := by
  unfold beforeClamp
  dsimp only
  split_ifs
  · rw [applyCollisionPrevention_length, List.length_map, forceLoop_eq_map, List.length_map]
  · rw [List.length_map, forceLoop_eq_map, List.length_map]

theorem step_length (dt : F) (sys : ParticleSystem F) :
    (step sqrt dt sys).m_particles.length = sys.m_particles.length := by
  unfold step
  split_ifs
  · rfl
  · show (clampVelocities sqrt (beforeClamp sqrt dt sys)).length = _
    unfold clampVelocities
    rw [List.length_map, beforeClamp_length]

theorem step_initial (dt : F) (sys : ParticleSystem F) :
    (step sqrt dt sys).m_initialParticles = sys.m_initialParticles := by
  unfold step
  split_ifs <;> rfl

/-- Every call keeps the live vector and the initial snapshot equally long. -/
theorem perform_length (sys : ParticleSystem F) (call : Call F)
    (hlen : sys.m_initialParticles.length = sys.m_particles.length) :
    (perform sqrt sys call).m_initialParticles.length
      = (perform sqrt sys call).m_particles.length := by
  cases call with
  | addParticle particle =>
    show (sys.m_initialParticles ++ [particle]).length = (sys.m_particles ++ [particle]).length
    rw [List.length_append, List.length_append, hlen]
  | removeParticle index =>
    show (removeParticle index sys).m_initialParticles.length
      = (removeParticle index sys).m_particles.length
    by_cases hc : 0 ≤ index ∧ index < (sys.m_particles.length : Int)
    · obtain ⟨e1, e2⟩ := removeParticle_in_range index sys hc.1 hc.2 hlen
      rw [e1, e2, List.length_eraseIdx, List.length_eraseIdx, hlen]
    · have ho : index < 0 ∨ index ≥ (sys.m_particles.length : Int) := by omega
      rw [removeParticle_out_of_range index sys ho, hlen]
  | step dt =>
    show (step sqrt dt sys).m_initialParticles.length = (step sqrt dt sys).m_particles.length
    rw [step_initial, step_length, hlen]
  | reset =>
    show sys.m_initialParticles.length = (sys.m_initialParticles.map resetBody).length
    rw [List.length_map]

theorem performAll_length (calls : List (Call F)) :
    ∀ sys : ParticleSystem F, sys.m_initialParticles.length = sys.m_particles.length →
      (performAll sqrt calls sys).m_initialParticles.length
        = (performAll sqrt calls sys).m_particles.length := by
  induction calls with
  | nil =>
    intro sys h
    exact h
  | cons call calls ih =>
    intro sys h
    exact ih (perform sqrt sys call) (perform_length sqrt sys call h)

/-- The initial snapshot is the record of the particles added and not
removed. -/
theorem performAll_initial (calls : List (Call F)) :
    ∀ sys : ParticleSystem F, sys.m_initialParticles.length = sys.m_particles.length →
      (performAll sqrt calls sys).m_initialParticles
        = addedNotRemoved calls sys.m_initialParticles := by
  induction calls with
  | nil =>
    intro sys _
    rfl
  | cons call calls ih =>
    intro sys h
    have h2 := perform_length sqrt sys call h
    show (performAll sqrt calls (perform sqrt sys call)).m_initialParticles = _
    rw [ih (perform sqrt sys call) h2]
    cases call with
    | addParticle particle => rfl
    | removeParticle index =>
      show addedNotRemoved calls (removeParticle index sys).m_initialParticles = _
      by_cases hc : 0 ≤ index ∧ index < (sys.m_particles.length : Int)
      · have hc2 : 0 ≤ index ∧ index < (sys.m_initialParticles.length : Int) := by
          rw [h]
          exact hc
        rw [(removeParticle_in_range index sys hc.1 hc.2 h).2]
        simp only [addedNotRemoved, if_pos hc2]
      · have ho : index < 0 ∨ index ≥ (sys.m_particles.length : Int) := by omega
        have hc2 : ¬ (0 ≤ index ∧ index < (sys.m_initialParticles.length : Int)) := by
          rw [h]
          exact hc
        rw [removeParticle_out_of_range index sys ho]
        simp only [addedNotRemoved, if_neg hc2]
    | step dt =>
      show addedNotRemoved calls (step sqrt dt sys).m_initialParticles = _
      rw [step_initial]
      rfl
    | reset => rfl

/-- C13: after any sequence of calls on a fresh system, `reset()` leaves one
particle per particle added and not removed, in the same order, each as it
was when added (position, charge, mass, `isFixed` and the other fields) but
with velocity zero, acceleration zero and `isBeingDragged` false; a second
`reset()` changes nothing. -/
theorem C13_reset_restores_initial (calls : List (Call F)) :
    (reset (performAll sqrt calls init)).m_particles
        = (addedNotRemoved calls []).map
            (fun p => { p with velocity := 0, acceleration := 0, isBeingDragged := false })
      ∧ reset (reset (performAll sqrt calls init)) = reset (performAll sqrt calls init) := by
  refine ⟨?_, rfl⟩
  show (performAll sqrt calls init).m_initialParticles.map resetBody = _
  rw [performAll_initial sqrt calls init rfl]
  rfl

/-- C14: `removeParticle(index)` with `index < 0` or `index >= count` leaves
the system unchanged; on a system reached by calls from a fresh one, with
`0 <= index < count` it erases exactly the element at that index from the
live vector and from the initial snapshot, and the two always have the same
length. -/
theorem C14_removeParticle_bounds (anySys : ParticleSystem F) (calls : List (Call F))
    (index : Int) :
    ((index < 0 ∨ index ≥ (anySys.m_particles.length : Int)) →
        removeParticle index anySys = anySys)
      ∧ (0 ≤ index → index < ((performAll sqrt calls init).m_particles.length : Int) →
          (removeParticle index (performAll sqrt calls init)).m_particles
              = (performAll sqrt calls init).m_particles.eraseIdx index.toNat
            ∧ (removeParticle index (performAll sqrt calls init)).m_initialParticles
              = (performAll sqrt calls init).m_initialParticles.eraseIdx index.toNat)
      ∧ (performAll sqrt calls init).m_initialParticles.length
          = (performAll sqrt calls init).m_particles.length
      ∧ (removeParticle index (performAll sqrt calls init)).m_initialParticles.length
          = (removeParticle index (performAll sqrt calls init)).m_particles.length := by
  have hlen := performAll_length sqrt calls init rfl
  refine ⟨removeParticle_out_of_range index anySys, ?_, hlen, ?_⟩
  · intro h0 h1
    exact removeParticle_in_range index _ h0 h1 hlen
  · exact perform_length sqrt (performAll sqrt calls init) (Call.removeParticle index) hlen

end ParticleSystem

/-! ## Collision softening never reaches the motion -/

namespace ParticleSystem

section EraseFacts

variable {F : Type} [LinearOrderedField F]

theorem eraseFreeAccel_of_accelOnly {p q : Particle F} (h : AccelOnly p q) :
    eraseFreeAccel q = eraseFreeAccel p := by
  by_cases hf : (p.isFixed || p.isBeingDragged) = true
  · rw [h.2 hf]
  · have hq : (q.isFixed || q.isBeingDragged) = (p.isFixed || p.isBeingDragged) := by
      rw [h.1]
    unfold eraseFreeAccel
    rw [hq, if_neg hf, if_neg hf, h.1]

theorem map_eraseFreeAccel_of_accelOnlyList {ps qs : List (Particle F)}
    (h : AccelOnlyList ps qs) (hlen : qs.length = ps.length) :
    qs.map eraseFreeAccel = ps.map eraseFreeAccel := by
  apply List.ext_getElem?
  intro i
  rw [List.getElem?_map, List.getElem?_map]
  cases hp : ps[i]? with
  | none =>
    have hi : ps.length ≤ i := List.getElem?_eq_none_iff.mp hp
    rw [List.getElem?_eq_none (by rw [hlen]; exact hi)]
  | some p =>
    obtain ⟨q, hq, ha⟩ := h i p hp
    rw [hq, Option.map_some', Option.map_some', eraseFreeAccel_of_accelOnly ha]

theorem eraseFreeAccel_key (p : Particle F) :
    ((eraseFreeAccel p).position, (eraseFreeAccel p).charge) = (p.position, p.charge) := by
  unfold eraseFreeAccel
  split_ifs <;> rfl

theorem eraseFreeAccel_motion (p : Particle F) :
    ((eraseFreeAccel p).position, (eraseFreeAccel p).velocity) = (p.position, p.velocity) := by
  unfold eraseFreeAccel
  split_ifs <;> rfl

theorem map_key_of_map_erase {ps qs : List (Particle F)}
    (h : ps.map eraseFreeAccel = qs.map eraseFreeAccel) :
    ps.map (fun p => (p.position, p.charge)) = qs.map (fun p => (p.position, p.charge)) := by
  have e : ∀ l : List (Particle F),
      l.map (fun p => (p.position, p.charge))
        = (l.map eraseFreeAccel).map (fun p => (p.position, p.charge)) := by
    intro l
    rw [List.map_map]
    apply List.map_congr_left
    intro p _
    exact (eraseFreeAccel_key p).symm
  rw [e ps, e qs, h]

theorem map_motion_of_map_erase {ps qs : List (Particle F)}
    (h : ps.map eraseFreeAccel = qs.map eraseFreeAccel) :
    ps.map (fun p => (p.position, p.velocity)) = qs.map (fun p => (p.position, p.velocity)) := by
  have e : ∀ l : List (Particle F),
      l.map (fun p => (p.position, p.velocity))
        = (l.map eraseFreeAccel).map (fun p => (p.position, p.velocity)) := by
    intro l
    rw [List.map_map]
    apply List.map_congr_left
    intro p _
    exact (eraseFreeAccel_motion p).symm
  rw [e ps, e qs, h]

end EraseFacts

variable {F : Type} [LinearOrderedField F] (sqrt : F → F)

/-- The first loop of `step` overwrites the acceleration of every free
particle, so it does not read it. -/
theorem forceBody_eraseFreeAccel (all : List (Particle F)) (p : Particle F) :
    forceBody sqrt all (eraseFreeAccel p) = forceBody sqrt all p := by
  unfold eraseFreeAccel
  by_cases hf : (p.isFixed || p.isBeingDragged) = true
  · rw [if_pos hf]
  · rw [if_neg hf]
    unfold forceBody
    simp only [hf, if_false]
    rfl

theorem forceLoop_of_map_erase {ps qs : List (Particle F)}
    (h : ps.map eraseFreeAccel = qs.map eraseFreeAccel) :
    forceLoop sqrt ps = forceLoop sqrt qs := by
  have e : ∀ l : List (Particle F),
      l.map (forceBody sqrt qs) = (l.map eraseFreeAccel).map (forceBody sqrt qs) := by
    intro l
    rw [List.map_map]
    apply List.map_congr_left
    intro p _
    exact (forceBody_eraseFreeAccel sqrt qs p).symm
  have hk := map_key_of_map_erase h
  have e1 : ps.map (forceBody sqrt ps) = ps.map (forceBody sqrt qs) := by
    apply List.map_congr_left
    intro p _
    exact forceBody_congr sqrt ps qs p hk
  rw [forceLoop_eq_map, forceLoop_eq_map, e1, e ps, e qs, h]

theorem clampBody_eraseFreeAccel (p : Particle F) :
    eraseFreeAccel (clampBody sqrt p) = clampBody sqrt (eraseFreeAccel p) := by
  unfold eraseFreeAccel clampBody
  dsimp only
  split_ifs <;> rfl

theorem map_erase_beforeClamp (dt : F) (sys : ParticleSystem F) :
    (beforeClamp sqrt dt sys).map eraseFreeAccel
      = ((forceLoop sqrt sys.m_particles).map
          (integrateBody sys.m_integrationMethod dt)).map eraseFreeAccel := by
  unfold beforeClamp
  dsimp only
  split_ifs
  · exact map_eraseFreeAccel_of_accelOnlyList
      (applyCollisionPrevention_accelOnly sqrt sys.m_minSeparation _)
      (applyCollisionPrevention_length sqrt sys.m_minSeparation _)
  · rfl

/-- Two systems that agree on the integration method and on their particles
up to the accelerations of free particles still do so after one `step`,
whatever their collision-prevention settings are. -/
theorem step_map_erase (dt : F) (sys1 sys2 : ParticleSystem F)
    (hm : sys1.m_integrationMethod = sys2.m_integrationMethod)
    (h : sys1.m_particles.map eraseFreeAccel = sys2.m_particles.map eraseFreeAccel) :
    (step sqrt dt sys1).m_integrationMethod = (step sqrt dt sys2).m_integrationMethod
      ∧ (step sqrt dt sys1).m_particles.map eraseFreeAccel
        = (step sqrt dt sys2).m_particles.map eraseFreeAccel := by
  have hm1 : (step sqrt dt sys1).m_integrationMethod = sys1.m_integrationMethod := by
    unfold step
    split_ifs <;> rfl
  have hm2 : (step sqrt dt sys2).m_integrationMethod = sys2.m_integrationMethod := by
    unfold step
    split_ifs <;> rfl
  refine ⟨by rw [hm1, hm2, hm], ?_⟩
  by_cases he : sys1.m_particles = []
  · have he2 : sys2.m_particles = [] := by
      rw [he] at h
      cases hq : sys2.m_particles with
      | nil => rfl
      | cons a l =>
        rw [hq] at h
        simp at h
    have s1 : (step sqrt dt sys1).m_particles = [] := by
      unfold step
      simp [he]
    have s2 : (step sqrt dt sys2).m_particles = [] := by
      unfold step
      simp [he2]
    rw [s1, s2]
  · have he2 : sys2.m_particles ≠ [] := by
      intro hq
      rw [hq] at h
      cases hp : sys1.m_particles with
      | nil => exact he hp
      | cons a l =>
        rw [hp] at h
        simp at h
    have hc : ∀ l : List (Particle F),
        (clampVelocities sqrt l).map eraseFreeAccel
          = (l.map eraseFreeAccel).map (clampBody sqrt) := by
      intro l
      unfold clampVelocities
      rw [List.map_map, List.map_map]
      apply List.map_congr_left
      intro p _
      exact clampBody_eraseFreeAccel sqrt p
    rw [step_particles sqrt dt sys1 he, step_particles sqrt dt sys2 he2, hc, hc,
      map_erase_beforeClamp, map_erase_beforeClamp, forceLoop_of_map_erase sqrt h, hm]

theorem stepN_map_erase (dt : F) (n : Nat) :
    ∀ sys1 sys2 : ParticleSystem F,
      sys1.m_integrationMethod = sys2.m_integrationMethod →
      sys1.m_particles.map eraseFreeAccel = sys2.m_particles.map eraseFreeAccel →
      (stepN sqrt dt n sys1).m_particles.map eraseFreeAccel
        = (stepN sqrt dt n sys2).m_particles.map eraseFreeAccel := by
  induction n with
  | zero =>
    intro sys1 sys2 _ h
    exact h
  | succ n ih =>
    intro sys1 sys2 hm h
    obtain ⟨hm2, h2⟩ := step_map_erase sqrt dt sys1 sys2 hm h
    exact ih (step sqrt dt sys1) (step sqrt dt sys2) hm2 h2

/-- After any number of ticks the positions and velocities are those of the
run with collision prevention disabled: the accelerations written by
`applyCollisionPrevention` are overwritten by the next force loop before
anything reads them. -/
theorem collisionPrevention_never_moves (dt : F) (n : Nat) (sys : ParticleSystem F) :
    (stepN sqrt dt n sys).m_particles.map (fun p => (p.position, p.velocity))
      = (stepN sqrt dt n { sys with m_collisionPrevention := false }).m_particles.map
          (fun p => (p.position, p.velocity)) :=
  map_motion_of_map_erase
    (stepN_map_erase sqrt dt n sys { sys with m_collisionPrevention := false } rfl rfl)

end ParticleSystem

/-! ## The repulsion of one pair -/

namespace Vec3

variable {F : Type} [LinearOrderedField F] {sqrt : F → F}

theorem neg_eq_smul (v : Vec3 F) : -v = (-1 : F) * v := by
  ext <;> simp

theorem length_neg (hs : SqrtSpec sqrt) (v : Vec3 F) : length sqrt (-v) = length sqrt v := by
  rw [neg_eq_smul, length_smul hs, abs_neg, abs_one, one_mul]

theorem length_divs (hs : SqrtSpec sqrt) (v : Vec3 F) (m : F) :
    length sqrt (v / m) = length sqrt v / |m| := by
  rw [divs_eq_smul, length_smul hs, abs_div, abs_one]
  ring

theorem normalize_eq_smul (v : Vec3 F) : normalize sqrt v = (1 / length sqrt v) * v := by
  unfold normalize length
  exact muls_eq_smul _ _

end Vec3

namespace ParticleSystem

variable {F : Type} [LinearOrderedField F] (sqrt : F → F)

/-- The iteration of `applyCollisionPrevention` for a pair of free particles
within softening range. -/
theorem collisionPair_close (minSep : F) (ps : List (Particle F)) (i j : Nat)
    (p1 p2 : Particle F) (h1 : ps[i]? = some p1) (h2 : ps[j]? = some p2)
    (hf1 : (p1.isFixed || p1.isBeingDragged) = false)
    (hf2 : (p2.isFixed || p2.isBeingDragged) = false)
    (hhi : Vec3.length sqrt (p2.position - p1.position) < minSep)
    (hlo : 1e-15 < Vec3.length sqrt (p2.position - p1.position)) :
    collisionPair sqrt minSep ps i j
      = (ps.set i
          { p1 with acceleration := p1.acceleration - repulsionForce sqrt minSep p1 p2 / p1.mass }).set
          j
          { p2 with acceleration := p2.acceleration + repulsionForce sqrt minSep p1 p2 / p2.mass } := by
  have hflag : ¬ (p1.isFixed || p1.isBeingDragged || p2.isFixed || p2.isBeingDragged) = true := by
    have e : (p1.isFixed || p1.isBeingDragged || p2.isFixed || p2.isBeingDragged)
        = ((p1.isFixed || p1.isBeingDragged) || (p2.isFixed || p2.isBeingDragged)) := by
      simp [Bool.or_assoc]
    rw [e, hf1, hf2]
    decide
  have hd : Vec3.length sqrt (p2.position - p1.position) < minSep
      ∧ Vec3.length sqrt (p2.position - p1.position) > 1e-15 := ⟨hhi, hlo⟩
  unfold collisionPair repulsionForce
  rw [h1, h2]
  simp only [if_neg hflag, if_pos hd]

theorem repulsionForce_eq_smul (minSep : F) (p1 p2 : Particle F) :
    repulsionForce sqrt minSep p1 p2
      = ((1e-10 : F) * (minSep - Vec3.length sqrt (p2.position - p1.position))
          * (1 / Vec3.length sqrt (p2.position - p1.position)))
        * (p2.position - p1.position) := by
  unfold repulsionForce
  rw [Vec3.normalize_eq_smul]
  ext <;> simp <;> ring

theorem length_repulsionForce (hs : SqrtSpec sqrt) (minSep : F) (p1 p2 : Particle F)
    (hhi : Vec3.length sqrt (p2.position - p1.position) < minSep)
    (hlo : 1e-15 < Vec3.length sqrt (p2.position - p1.position)) :
    Vec3.length sqrt (repulsionForce sqrt minSep p1 p2)
      = (1e-10 : F) * (minSep - Vec3.length sqrt (p2.position - p1.position)) := by
  have hd : 0 < Vec3.length sqrt (p2.position - p1.position) := lt_trans (by norm_num) hlo
  have ho : 0 < minSep - Vec3.length sqrt (p2.position - p1.position) := sub_pos.mpr hhi
  have hc : (0 : F) < 1e-10 := by norm_num
  rw [repulsionForce_eq_smul, Vec3.length_smul hs,
    abs_of_pos (mul_pos (mul_pos hc ho) (one_div_pos.mpr hd))]
  field_simp

/-- C11 (amended): for a pair of free particles at distance `d` with
`1e-15 < d < minSeparation`, collision softening subtracts `f / m1` from the
acceleration of the first and adds `f / m2` to that of the second, where `f`
is a positive multiple of `p2.position - p1.position` of length
`1e-10 * (minSeparation - d)`; the two added vectors have the lengths
`1e-10 * (minSeparation - d) / |m1|` and `1e-10 * (minSeparation - d) / |m2|`
and are equal and opposite when the masses are equal. -/
theorem C11_collision_softening_pair (hs : SqrtSpec sqrt) (minSep : F)
    (ps : List (Particle F)) (i j : Nat) (hij : i ≠ j) (p1 p2 : Particle F)
    (h1 : ps[i]? = some p1) (h2 : ps[j]? = some p2)
    (hfix1 : p1.isFixed = false) (hdrag1 : p1.isBeingDragged = false)
    (hfix2 : p2.isFixed = false) (hdrag2 : p2.isBeingDragged = false)
    (hlo : 1e-15 < Vec3.length sqrt (p2.position - p1.position))
    (hhi : Vec3.length sqrt (p2.position - p1.position) < minSep) :
    (collisionPair sqrt minSep ps i j)[i]?
        = some { p1 with
            acceleration := p1.acceleration + -(repulsionForce sqrt minSep p1 p2 / p1.mass) }
      ∧ (collisionPair sqrt minSep ps i j)[j]?
        = some { p2 with
            acceleration := p2.acceleration + repulsionForce sqrt minSep p1 p2 / p2.mass }
      ∧ (∃ s : F, 0 < s ∧ repulsionForce sqrt minSep p1 p2 = s * (p2.position - p1.position))
      ∧ Vec3.length sqrt (repulsionForce sqrt minSep p1 p2)
        = 1e-10 * (minSep - Vec3.length sqrt (p2.position - p1.position))
      ∧ Vec3.length sqrt (-(repulsionForce sqrt minSep p1 p2 / p1.mass))
        = 1e-10 * (minSep - Vec3.length sqrt (p2.position - p1.position)) / |p1.mass|
      ∧ Vec3.length sqrt (repulsionForce sqrt minSep p1 p2 / p2.mass)
        = 1e-10 * (minSep - Vec3.length sqrt (p2.position - p1.position)) / |p2.mass|
      ∧ (p1.mass = p2.mass →
          -(repulsionForce sqrt minSep p1 p2 / p1.mass)
            = -(repulsionForce sqrt minSep p1 p2 / p2.mass)) := by
  have hf1 : (p1.isFixed || p1.isBeingDragged) = false := by simp [hfix1, hdrag1]
  have hf2 : (p2.isFixed || p2.isBeingDragged) = false := by simp [hfix2, hdrag2]
  have hd : 0 < Vec3.length sqrt (p2.position - p1.position) := lt_trans (by norm_num) hlo
  have ho : 0 < minSep - Vec3.length sqrt (p2.position - p1.position) := sub_pos.mpr hhi
  have hc : (0 : F) < 1e-10 := by norm_num
  have hi : i < ps.length := (List.getElem?_eq_some_iff.mp h1).1
  have hj : j < ps.length := (List.getElem?_eq_some_iff.mp h2).1
  have hlen := length_repulsionForce sqrt hs minSep p1 p2 hhi hlo
  rw [collisionPair_close sqrt minSep ps i j p1 p2 h1 h2 hf1 hf2 hhi hlo]
  refine ⟨?_, ?_, ?_, hlen, ?_, ?_, ?_⟩
  · rw [List.getElem?_set_ne (Ne.symm hij), List.getElem?_set_self hi]
    congr 2
    ext <;> simp [sub_eq_add_neg]
  · rw [List.getElem?_set_self (by rw [List.length_set]; exact hj)]
  · exact ⟨_, mul_pos (mul_pos hc ho) (one_div_pos.mpr hd), repulsionForce_eq_smul sqrt minSep p1 p2⟩
  · rw [Vec3.length_neg hs, Vec3.length_divs hs, hlen]
  · rw [Vec3.length_divs hs, hlen]
  · intro hm
    rw [hm]

end ParticleSystem

/-! ## Neutral particles at rest -/

namespace ParticleSystem

variable {F : Type} [LinearOrderedField F] (sqrt : F → F)

theorem fromPointCharge_zero_charge (evalPoint chargePos : Vec3 F) :
    ElectricField.fromPointCharge sqrt evalPoint chargePos 0 = 0 := by
  unfold ElectricField.fromPointCharge
  dsimp only
  split_ifs
  · rfl
  · ext <;> simp

theorem totalField_neutral (evalPoint : Vec3 F) (ps : List (Particle F))
    (h : ∀ p ∈ ps, p.charge = 0) : ElectricField.totalField sqrt evalPoint ps = 0 := by
  unfold ElectricField.totalField
  generalize (0 : Vec3 F) = acc
  induction ps generalizing acc with
  | nil => rfl
  | cons p ps ih =>
    have hp : p.charge = 0 := h p (List.mem_cons_self p ps)
    rw [List.foldl_cons, hp, fromPointCharge_zero_charge, Vec3.add_zero_vec, ite_self]
    exact ih (fun q hq => h q (List.mem_cons_of_mem p hq)) acc

theorem particle_acceleration_eta (p : Particle F) (h : p.acceleration = 0) :
    { p with acceleration := 0 } = p := by
  cases p
  simp only at h
  subst h
  rfl

theorem forceBody_rest (all : List (Particle F)) (p : Particle F)
    (hall : ∀ q ∈ all, q.charge = 0) (ha : p.acceleration = 0) :
    forceBody sqrt all p = p := by
  unfold forceBody computeNetForce
  split_ifs
  · rfl
  · have e : p.charge * ElectricField.totalField sqrt p.position all / p.mass = 0 := by
      rw [totalField_neutral sqrt p.position all hall]
      ext <;> simp
    dsimp only
    rw [e]
    exact particle_acceleration_eta p ha

theorem integrateBody_rest (method : IntegrationMethod) (dt : F) (p : Particle F)
    (hv : p.velocity = 0) (ha : p.acceleration = 0) : integrateBody method dt p = p := by
  have e1 : p.velocity + p.acceleration * dt = p.velocity := by
    rw [ha]
    ext <;> simp
  have e2 : p.position + p.velocity * dt + (0.5 : F) * p.acceleration * dt * dt = p.position := by
    rw [ha, hv]
    ext <;> simp
  have e3 : p.position + (p.velocity + p.acceleration * dt) * dt = p.position := by
    rw [ha, hv]
    ext <;> simp
  unfold integrateBody
  split_ifs
  · rfl
  · cases method with
    | VERLET =>
      show { p with
        position := p.position + p.velocity * dt + (0.5 : F) * p.acceleration * dt * dt
        velocity := p.velocity + p.acceleration * dt } = p
      rw [e1, e2]
    | EULER =>
      show { p with
        position := p.position + (p.velocity + p.acceleration * dt) * dt
        velocity := p.velocity + p.acceleration * dt } = p
      rw [e3, e1]

/-- On neutral particles at rest with zero acceleration the first two loops
of `step` change nothing. -/
theorem beforeClamp_rest (dt : F) (sys : ParticleSystem F)
    (hall : ∀ q ∈ sys.m_particles, q.charge = 0 ∧ q.velocity = 0 ∧ q.acceleration = 0) :
    beforeClamp sqrt dt sys
      = if sys.m_collisionPrevention then
          applyCollisionPrevention sqrt sys.m_minSeparation sys.m_particles
        else
          sys.m_particles := by
  have e : (forceLoop sqrt sys.m_particles).map (integrateBody sys.m_integrationMethod dt)
      = sys.m_particles := by
    rw [forceLoop_eq_map, List.map_map]
    conv_rhs => rw [← List.map_id sys.m_particles]
    apply List.map_congr_left
    intro p hp
    have h := hall p hp
    show integrateBody sys.m_integrationMethod dt (forceBody sqrt sys.m_particles p) = id p
    rw [forceBody_rest sqrt sys.m_particles p (fun q hq => (hall q hq).1) h.2.2,
      integrateBody_rest sys.m_integrationMethod dt p h.2.1 h.2.2]
    rfl
  unfold beforeClamp
  dsimp only
  rw [e]

theorem applyCollisionPrevention_pair (minSep : F) (a b : Particle F) :
    applyCollisionPrevention sqrt minSep [a, b] = collisionPair sqrt minSep [a, b] 0 1 :=
  rfl

end ParticleSystem

/-! ## Concrete evaluations: particle system -/

section RealEvaluationSystem

theorem length_real_x_abs (a : ℝ) : Vec3.length Real.sqrt (⟨a, 0, 0⟩ : Vec3 ℝ) = |a| :=
  Vec3.length_eq_of_sq realSqrtSpec _ |a| (abs_nonneg a) (by simp [Vec3.dot])

theorem close_pair_distance (q m1 m2 : ℝ) :
    Vec3.length Real.sqrt
        ((exampleCustom (1 / 2) q m2).position - (exampleCustom 0 q m1).position)
      = 1 / 2 := by
  have e : (exampleCustom (1 / 2 : ℝ) q m2).position - (exampleCustom 0 q m1).position
      = ⟨1 / 2, 0, 0⟩ := by
    ext <;> simp [exampleCustom]
  rw [e, length_real_x _ (by norm_num)]

theorem close_pair_force (q m1 m2 : ℝ) :
    repulsionForce Real.sqrt 1 (exampleCustom 0 q m1) (exampleCustom (1 / 2) q m2)
      = ⟨1e-10 * (1 / 2), 0, 0⟩ := by
  rw [ParticleSystem.repulsionForce_eq_smul, close_pair_distance]
  ext <;> simp [exampleCustom]
  norm_num

/-- Collision softening on the example pair. -/
theorem close_pair_softening (q m1 m2 : ℝ) :
    ParticleSystem.applyCollisionPrevention Real.sqrt 1
        [exampleCustom 0 q m1, exampleCustom (1 / 2) q m2]
      = [{ exampleCustom 0 q m1 with acceleration := ⟨-(1e-10 * (1 / 2) / m1), 0, 0⟩ },
         { exampleCustom (1 / 2) q m2 with acceleration := ⟨1e-10 * (1 / 2) / m2, 0, 0⟩ }] := by
  rw [ParticleSystem.applyCollisionPrevention_pair,
    ParticleSystem.collisionPair_close Real.sqrt 1 _ 0 1 (exampleCustom 0 q m1)
      (exampleCustom (1 / 2) q m2) rfl rfl rfl rfl
      (by rw [close_pair_distance]; norm_num) (by rw [close_pair_distance]; norm_num),
    close_pair_force]
  simp only [List.set]
  congr 2
  · ext <;> simp [exampleCustom]
  · congr 2
    ext <;> simp [exampleCustom]

/-- C11, as stated, fails: with masses `1` and `2` the two accelerations that
collision softening adds have the lengths `5e-11` and `2.5e-11`. -/
theorem C11_counterexample_unequal_masses :
    (ParticleSystem.applyCollisionPrevention Real.sqrt
          (exampleCloseSystem PhysicsConstants.e (1 : ℝ) 2).m_minSeparation
          (exampleCloseSystem PhysicsConstants.e (1 : ℝ) 2).m_particles).map
        (fun p => p.acceleration)
      = [⟨-(1e-10 * (1 / 2) / 1), 0, 0⟩, ⟨1e-10 * (1 / 2) / 2, 0, 0⟩]
    ∧ (exampleCloseSystem PhysicsConstants.e (1 : ℝ) 2).m_particles.map
        (fun p => p.acceleration) = [0, 0]
    ∧ Vec3.length Real.sqrt (⟨-(1e-10 * (1 / 2) / 1), 0, 0⟩ : Vec3 ℝ)
      ≠ Vec3.length Real.sqrt (⟨1e-10 * (1 / 2) / 2, 0, 0⟩ : Vec3 ℝ) := by
  refine ⟨?_, rfl, ?_⟩
  · show (ParticleSystem.applyCollisionPrevention Real.sqrt 1
        [exampleCustom 0 PhysicsConstants.e 1, exampleCustom (1 / 2) PhysicsConstants.e 2]).map
        (fun p => p.acceleration) = _
    rw [close_pair_softening]
    rfl
  · rw [length_real_x_abs, length_real_x_abs]
    norm_num [abs_of_pos]

theorem C11_collision_softening_pair_witness :
    (ParticleSystem.collisionPair Real.sqrt 1
        [exampleCustom 0 PhysicsConstants.e (1 : ℝ), exampleCustom (1 / 2) PhysicsConstants.e 2]
        0 1)[1]?
      = some { exampleCustom (1 / 2) PhysicsConstants.e (2 : ℝ) with
          acceleration := (exampleCustom (1 / 2) PhysicsConstants.e (2 : ℝ)).acceleration
            + repulsionForce Real.sqrt 1 (exampleCustom 0 PhysicsConstants.e 1)
                (exampleCustom (1 / 2) PhysicsConstants.e 2)
              / (exampleCustom (1 / 2) PhysicsConstants.e (2 : ℝ)).mass } :=
  (ParticleSystem.C11_collision_softening_pair Real.sqrt realSqrtSpec 1
    [exampleCustom 0 PhysicsConstants.e (1 : ℝ), exampleCustom (1 / 2) PhysicsConstants.e 2]
    0 1 (by decide) (exampleCustom 0 PhysicsConstants.e 1)
    (exampleCustom (1 / 2) PhysicsConstants.e 2) rfl rfl rfl rfl rfl rfl
    (by rw [close_pair_distance]; norm_num) (by rw [close_pair_distance]; norm_num)).2.1

theorem C14_removeParticle_bounds_witness :
    (ParticleSystem.removeParticle 0
        (ParticleSystem.performAll Real.sqrt
          [ParticleSystem.Call.addParticle (exampleCustom 0 1 1),
           ParticleSystem.Call.addParticle (exampleCustom (1 / 2) 1 2)]
          ParticleSystem.init)).m_particles
      = [exampleCustom (1 / 2) 1 2]
    ∧ (ParticleSystem.removeParticle 0
        (ParticleSystem.performAll Real.sqrt
          [ParticleSystem.Call.addParticle (exampleCustom 0 1 1),
           ParticleSystem.Call.addParticle (exampleCustom (1 / 2) 1 2)]
          ParticleSystem.init)).m_initialParticles
      = [exampleCustom (1 / 2) 1 2] :=
  (ParticleSystem.C14_removeParticle_bounds Real.sqrt ParticleSystem.init
    [ParticleSystem.Call.addParticle (exampleCustom 0 1 1),
     ParticleSystem.Call.addParticle (exampleCustom (1 / 2) 1 2)] 0).2.1
    (le_refl 0) (by decide)

theorem step_close_pair (m1 m2 : ℝ) :
    (ParticleSystem.step Real.sqrt 1 (exampleCloseSystem 0 m1 m2)).m_particles
      = [{ exampleCustom 0 0 m1 with acceleration := ⟨-(1e-10 * (1 / 2) / m1), 0, 0⟩ },
         { exampleCustom (1 / 2) 0 m2 with acceleration := ⟨1e-10 * (1 / 2) / m2, 0, 0⟩ }] := by
  have hps : (exampleCloseSystem (0 : ℝ) m1 m2).m_particles
      = [exampleCustom 0 0 m1, exampleCustom (1 / 2) 0 m2] := rfl
  have hcp : (exampleCloseSystem (0 : ℝ) m1 m2).m_collisionPrevention = true := rfl
  have hms : (exampleCloseSystem (0 : ℝ) m1 m2).m_minSeparation = 1 := rfl
  have hall : ∀ q ∈ (exampleCloseSystem (0 : ℝ) m1 m2).m_particles,
      q.charge = 0 ∧ q.velocity = 0 ∧ q.acceleration = 0 := by
    intro q hq
    rw [hps] at hq
    simp only [List.mem_cons, List.mem_singleton, List.not_mem_nil, or_false] at hq
    rcases hq with h | h <;> rw [h] <;> exact ⟨rfl, rfl, rfl⟩
  have hc : ∀ p : Particle ℝ, p.velocity = 0 → ParticleSystem.clampBody Real.sqrt p = p := by
    intro p hp
    apply ParticleSystem.clampBody_of_le
    rw [hp, Vec3.length_zero realSqrtSpec]
    exact le_of_lt max_velocity_pos
  have hne : (exampleCloseSystem (0 : ℝ) m1 m2).m_particles ≠ [] := by
    rw [hps]
    exact List.cons_ne_nil _ _
  rw [ParticleSystem.step_particles Real.sqrt 1 _ hne,
    ParticleSystem.beforeClamp_rest Real.sqrt 1 _ hall, hcp, hms, hps]
  simp only [if_true]
  rw [close_pair_softening]
  unfold ParticleSystem.clampVelocities
  simp only [List.map]
  rw [hc _ rfl, hc _ rfl]

/-- C12, evaluation of the code: two free neutral particles of mass `1` at
rest, half a metre apart, with minimum separation `1`.  The first `step`
leaves them where they are and collision softening writes the accelerations
`(-5e-11,0,0)` and `(5e-11,0,0)`; after the second `step` the positions and
velocities are still those of the run with collision prevention disabled. -/
theorem C12_softening_has_no_effect_on_next_step :
    (ParticleSystem.step Real.sqrt 1 (exampleCloseSystem (0 : ℝ) 1 1)).m_particles.map
        (fun p => (p.position, p.acceleration))
      = [(⟨0, 0, 0⟩, ⟨-(1e-10 * (1 / 2) / 1), 0, 0⟩),
         (⟨1 / 2, 0, 0⟩, ⟨1e-10 * (1 / 2) / 1, 0, 0⟩)]
    ∧ (ParticleSystem.stepN Real.sqrt 1 2 (exampleCloseSystem (0 : ℝ) 1 1)).m_particles.map
        (fun p => (p.position, p.velocity))
      = (ParticleSystem.stepN Real.sqrt 1 2
          { exampleCloseSystem (0 : ℝ) 1 1 with m_collisionPrevention := false }).m_particles.map
        (fun p => (p.position, p.velocity)) := by
  refine ⟨?_, ParticleSystem.collisionPrevention_never_moves Real.sqrt 1 2 _⟩
  rw [step_close_pair]
  rfl

end RealEvaluationSystem

/-! ## Drag controller -/

namespace DragController

section WriteFacts

variable {F : Type}

theorem writeParticle_get (i : Nat) (f : Particle F → Particle F) (ps : List (Particle F))
    (p : Particle F) (hp : ps[i]? = some p) : (writeParticle i f ps)[i]? = some (f p) := by
  unfold writeParticle
  rw [hp]
  exact List.getElem?_set_self (List.getElem?_eq_some_iff.mp hp).1

theorem writeParticle_get_ne (i j : Nat) (f : Particle F → Particle F)
    (ps : List (Particle F)) (hij : i ≠ j) : (writeParticle i f ps)[j]? = ps[j]? := by
  unfold writeParticle
  split
  · exact List.getElem?_set_ne hij
  · rfl

theorem pushHistory_short (history : List (MotionPoint F)) (point : MotionPoint F)
    (h : history.length < 10) : pushHistory history point = history ++ [point] := by
  unfold pushHistory MAX_HISTORY
  have hl : ¬ (history ++ [point]).length > 10 := by
    rw [List.length_append, List.length_singleton]
    omega
  simp only [if_neg hl]

theorem pushHistory_full (history : List (MotionPoint F)) (point : MotionPoint F)
    (h : 10 ≤ history.length) : pushHistory history point = history.tail ++ [point] := by
  unfold pushHistory MAX_HISTORY
  have hl : (history ++ [point]).length > 10 := by
    rw [List.length_append, List.length_singleton]
    omega
  simp only [if_pos hl]
  cases history with
  | nil => simp at h
  | cons a l => rfl

end WriteFacts

variable {F : Type} [LinearOrderedField F] (sqrt : F → F)

theorem rayPlaneIntersect_plane (dc : DragController F) (ps : List (Particle F)) (ray : Ray F)
    (hden : 1e-10 ≤ |Vec3.dot ray.direction dc.m_dragPlaneNormal|)
    (ht : 0 ≤ planeParameter dc ray) :
    rayPlaneIntersect dc ps ray dc.m_dragPlanePoint dc.m_dragPlaneNormal
      = some (ray.origin + planeParameter dc ray * ray.direction) := by
  unfold rayPlaneIntersect planeParameter at *
  simp only [if_neg (not_lt.mpr hden), if_neg (not_lt.mpr ht)]

theorem rayPlaneIntersect_behind (dc : DragController F) (ps : List (Particle F)) (ray : Ray F)
    (hden : 1e-10 ≤ |Vec3.dot ray.direction dc.m_dragPlaneNormal|)
    (ht : planeParameter dc ray < 0) :
    rayPlaneIntersect dc ps ray dc.m_dragPlanePoint dc.m_dragPlaneNormal = none := by
  unfold rayPlaneIntersect planeParameter at *
  simp only [if_neg (not_lt.mpr hden), if_pos ht]

theorem updateDrag_dragging (ray : Ray F) (now : F) (dc : DragController F)
    (ps : List (Particle F)) (i : Nat) (hstate : dc.m_state = DragState.DRAGGING)
    (hptr : dc.m_particle = some i) (x : Vec3 F)
    (hx : rayPlaneIntersect dc ps ray dc.m_dragPlanePoint dc.m_dragPlaneNormal = some x) :
    updateDrag ray now (dc, ps)
      = ({ dc with
            m_positionHistory :=
              pushHistory dc.m_positionHistory { position := x, timestamp := now } },
          writeParticle i (fun p => { p with position := x, velocity := 0 }) ps) := by
  unfold updateDrag
  simp only [hptr, hstate, ne_eq, not_true_eq_false, if_false, hx]

theorem updateDrag_rejected (ray : Ray F) (now : F) (dc : DragController F)
    (ps : List (Particle F))
    (hx : rayPlaneIntersect dc ps ray dc.m_dragPlanePoint dc.m_dragPlaneNormal = none) :
    updateDrag ray now (dc, ps) = (dc, ps) := by
  unfold updateDrag
  dsimp only
  split
  · rfl
  · split_ifs
    · rfl
    · rw [hx]

/-- C15: in the Dragging state, for a ray with `|dot(rayDir, planeNormal)| >=
1e-10` and `t >= 0`, `updateDrag` puts the dragged particle at
`rayOrigin + t*rayDir`, a point of the drag plane, zeroes its velocity and
appends one `(position, timestamp)` sample to the history, dropping the
oldest sample when the history already holds 10. -/
theorem C15_updateDrag_on_plane (ray : Ray F) (now : F) (dc : DragController F)
    (ps : List (Particle F)) (i : Nat) (p : Particle F)
    (hstate : dc.m_state = DragState.DRAGGING) (hptr : dc.m_particle = some i)
    (hp : ps[i]? = some p)
    (hden : 1e-10 ≤ |Vec3.dot ray.direction dc.m_dragPlaneNormal|)
    (ht : 0 ≤ planeParameter dc ray) :
    (updateDrag ray now (dc, ps)).2[i]?
        = some { p with
            position := ray.origin + planeParameter dc ray * ray.direction
            velocity := 0 }
      ∧ Vec3.dot (ray.origin + planeParameter dc ray * ray.direction - dc.m_dragPlanePoint)
          dc.m_dragPlaneNormal = 0
      ∧ (dc.m_positionHistory.length < 10 →
          (updateDrag ray now (dc, ps)).1.m_positionHistory
            = dc.m_positionHistory
              ++ [{ position := ray.origin + planeParameter dc ray * ray.direction
                    timestamp := now }])
      ∧ (10 ≤ dc.m_positionHistory.length →
          (updateDrag ray now (dc, ps)).1.m_positionHistory
            = dc.m_positionHistory.tail
              ++ [{ position := ray.origin + planeParameter dc ray * ray.direction
                    timestamp := now }])
      ∧ (∀ j, i ≠ j → (updateDrag ray now (dc, ps)).2[j]? = ps[j]?) := by
  have hd : Vec3.dot ray.direction dc.m_dragPlaneNormal ≠ 0 := by
    intro h0
    rw [h0, abs_zero] at hden
    norm_num at hden
  rw [updateDrag_dragging ray now dc ps i hstate hptr _
    (rayPlaneIntersect_plane dc ps ray hden ht)]
  refine ⟨writeParticle_get i _ ps p hp, ?_, ?_, ?_, ?_⟩
  · unfold planeParameter
    simp only [Vec3.dot, Vec3.sub_x, Vec3.sub_y, Vec3.sub_z, Vec3.add_x, Vec3.add_y, Vec3.add_z,
      Vec3.smul_x, Vec3.smul_y, Vec3.smul_z] at hd ⊢
    field_simp
    ring
  · intro h
    exact pushHistory_short _ _ h
  · intro h
    exact pushHistory_full _ _ h
  · intro j hij
    exact writeParticle_get_ne i j _ ps hij

theorem endDrag_dragging (dc : DragController F) (ps : List (Particle F)) (i : Nat)
    (hstate : dc.m_state = DragState.DRAGGING) (hptr : dc.m_particle = some i) :
    endDrag sqrt (dc, ps)
      = ({ dc with
            m_particle := none
            m_state := DragState.IDLE
            m_positionHistory := [] },
          writeParticle i (fun p => { p with isBeingDragged := false })
            (if dc.m_positionHistory.length ≥ 2 then
              writeParticle i (fun p => { p with velocity := releaseVelocity sqrt dc }) ps
            else
              ps)) := by
  unfold endDrag
  simp only [hptr, hstate, ne_eq, not_true_eq_false, if_false]

/-- The particle released by `endDrag` when the history holds at least two
samples. -/
theorem endDrag_released (dc : DragController F) (ps : List (Particle F)) (i : Nat)
    (p : Particle F) (hstate : dc.m_state = DragState.DRAGGING)
    (hptr : dc.m_particle = some i) (hp : ps[i]? = some p)
    (hlen : 2 ≤ dc.m_positionHistory.length) :
    (endDrag sqrt (dc, ps)).2[i]?
      = some { p with velocity := releaseVelocity sqrt dc, isBeingDragged := false } := by
  rw [endDrag_dragging sqrt dc ps i hstate hptr]
  have h2 : dc.m_positionHistory.length ≥ 2 := hlen
  simp only [if_pos h2]
  rw [writeParticle_get i _ _ _ (writeParticle_get i _ ps p hp)]

theorem inferVelocity_eq (dc : DragController F) (first last : MotionPoint F)
    (hlen : 2 ≤ dc.m_positionHistory.length)
    (hfirst : dc.m_positionHistory.head? = some first)
    (hlast : dc.m_positionHistory.getLast? = some last) :
    inferVelocity dc
      = if last.timestamp - first.timestamp < 1e-6 then 0
        else (last.position - first.position) / (last.timestamp - first.timestamp) := by
  unfold inferVelocity
  have h2 : ¬ dc.m_positionHistory.length < 2 := by omega
  rw [if_neg h2, hfirst, hlast]

/-- C17 (amended): when the history at release holds at least two samples,
the oldest `P0` at `t0` and the newest `P1` at `t1` with `t1 - t0 >= 1e-6`,
`endDrag` sets the velocity of the particle to `v = (P1 - P0)/(t1 - t0)` when
`|v| <= maxReleaseSpeed`, and to `(v/|v|) * maxReleaseSpeed` otherwise, a
vector of length `maxReleaseSpeed` when that speed is not negative. -/
theorem C17_endDrag_inferred_velocity (hs : SqrtSpec sqrt) (dc : DragController F)
    (ps : List (Particle F)) (i : Nat) (p : Particle F) (first last : MotionPoint F)
    (hstate : dc.m_state = DragState.DRAGGING) (hptr : dc.m_particle = some i)
    (hp : ps[i]? = some p) (hlen : 2 ≤ dc.m_positionHistory.length)
    (hfirst : dc.m_positionHistory.head? = some first)
    (hlast : dc.m_positionHistory.getLast? = some last)
    (hdt : 1e-6 ≤ last.timestamp - first.timestamp) :
    ∃ q, (endDrag sqrt (dc, ps)).2[i]? = some q
      ∧ (Vec3.length sqrt
            ((last.position - first.position) / (last.timestamp - first.timestamp))
          ≤ dc.m_maxReleaseSpeed →
          q.velocity = (last.position - first.position) / (last.timestamp - first.timestamp))
      ∧ (dc.m_maxReleaseSpeed
          < Vec3.length sqrt
              ((last.position - first.position) / (last.timestamp - first.timestamp)) →
          q.velocity
              = ((last.position - first.position) / (last.timestamp - first.timestamp)
                  / Vec3.length sqrt
                      ((last.position - first.position) / (last.timestamp - first.timestamp)))
                * dc.m_maxReleaseSpeed
            ∧ (0 ≤ dc.m_maxReleaseSpeed → Vec3.length sqrt q.velocity = dc.m_maxReleaseSpeed)) := by
  have hv : inferVelocity dc
      = (last.position - first.position) / (last.timestamp - first.timestamp) := by
    rw [inferVelocity_eq dc first last hlen hfirst hlast, if_neg (not_lt.mpr hdt)]
  refine ⟨_, endDrag_released sqrt dc ps i p hstate hptr hp hlen, ?_, ?_⟩
  · intro hle
    show releaseVelocity sqrt dc = _
    unfold releaseVelocity
    dsimp only
    rw [hv, if_neg (not_lt.mpr hle)]
  · intro hgt
    have e : releaseVelocity sqrt dc
        = Vec3.normalize sqrt
            ((last.position - first.position) / (last.timestamp - first.timestamp))
          * dc.m_maxReleaseSpeed := by
      unfold releaseVelocity
      dsimp only
      rw [hv, if_pos hgt]
    refine ⟨?_, ?_⟩
    · show releaseVelocity sqrt dc = _
      rw [e, ParticleSystem.normalize_muls_eq]
    · intro hmax
      show Vec3.length sqrt (releaseVelocity sqrt dc) = _
      rw [e, Vec3.muls_eq_smul, Vec3.length_smul hs,
        Vec3.length_normalize hs _ (lt_of_le_of_lt hmax hgt), abs_of_nonneg hmax, mul_one]

/-- C18: for `maxReleaseSpeed >= 0` and a drag that ends with at least two
samples, the velocity written by `endDrag` has length at most
`maxReleaseSpeed`, is a non-negative multiple of
`(lastPos - firstPos)/(lastTime - firstTime)`, and is the zero vector when
`lastTime - firstTime < 1e-6`. -/
theorem C18_endDrag_velocity_capped (hs : SqrtSpec sqrt) (dc : DragController F)
    (ps : List (Particle F)) (i : Nat) (p : Particle F) (first last : MotionPoint F)
    (hmax : 0 ≤ dc.m_maxReleaseSpeed)
    (hstate : dc.m_state = DragState.DRAGGING) (hptr : dc.m_particle = some i)
    (hp : ps[i]? = some p) (hlen : 2 ≤ dc.m_positionHistory.length)
    (hfirst : dc.m_positionHistory.head? = some first)
    (hlast : dc.m_positionHistory.getLast? = some last) :
    ∃ q, (endDrag sqrt (dc, ps)).2[i]? = some q
      ∧ Vec3.length sqrt q.velocity ≤ dc.m_maxReleaseSpeed
      ∧ (∃ s : F, 0 ≤ s ∧
          q.velocity
            = s * ((last.position - first.position) / (last.timestamp - first.timestamp)))
      ∧ (last.timestamp - first.timestamp < 1e-6 → q.velocity = 0) := by
  refine ⟨_, endDrag_released sqrt dc ps i p hstate hptr hp hlen, ?_⟩
  show Vec3.length sqrt (releaseVelocity sqrt dc) ≤ dc.m_maxReleaseSpeed
    ∧ (∃ s : F, 0 ≤ s ∧ releaseVelocity sqrt dc
        = s * ((last.position - first.position) / (last.timestamp - first.timestamp)))
    ∧ (last.timestamp - first.timestamp < 1e-6 → releaseVelocity sqrt dc = 0)
  have hzero : ∀ u : Vec3 F, (0 : Vec3 F) = (0 : F) * u := by
    intro u
    ext <;> simp
  have hone : ∀ u : Vec3 F, u = (1 : F) * u := by
    intro u
    ext <;> simp
  by_cases hdt : last.timestamp - first.timestamp < 1e-6
  · have hv : inferVelocity dc = 0 := by
      rw [inferVelocity_eq dc first last hlen hfirst hlast, if_pos hdt]
    have e : releaseVelocity sqrt dc = 0 := by
      unfold releaseVelocity
      dsimp only
      rw [hv, Vec3.length_zero hs, if_neg (not_lt.mpr hmax)]
    rw [e, Vec3.length_zero hs]
    exact ⟨hmax, ⟨0, le_rfl, hzero _⟩, fun _ => rfl⟩
  · have hv : inferVelocity dc
        = (last.position - first.position) / (last.timestamp - first.timestamp) := by
      rw [inferVelocity_eq dc first last hlen hfirst hlast, if_neg hdt]
    by_cases hgt : dc.m_maxReleaseSpeed
        < Vec3.length sqrt
            ((last.position - first.position) / (last.timestamp - first.timestamp))
    · have hpos := lt_of_le_of_lt hmax hgt
      have e : releaseVelocity sqrt dc
          = (dc.m_maxReleaseSpeed
              * (1 / Vec3.length sqrt
                  ((last.position - first.position) / (last.timestamp - first.timestamp))))
            * ((last.position - first.position) / (last.timestamp - first.timestamp)) := by
        unfold releaseVelocity
        dsimp only
        rw [hv, if_pos hgt, Vec3.muls_eq_smul, Vec3.normalize_eq_smul, Vec3.smul_smul]
      refine ⟨?_, ⟨_, mul_nonneg hmax (le_of_lt (one_div_pos.mpr hpos)), e⟩, ?_⟩
      · rw [e, Vec3.length_smul hs,
          abs_of_nonneg (mul_nonneg hmax (le_of_lt (one_div_pos.mpr hpos)))]
        apply le_of_eq
        field_simp
      · intro h
        exact absurd h hdt
    · have e : releaseVelocity sqrt dc
          = (last.position - first.position) / (last.timestamp - first.timestamp) := by
        unfold releaseVelocity
        dsimp only
        rw [hv, if_neg hgt]
      rw [e]
      refine ⟨not_lt.mp hgt, ⟨1, zero_le_one, hone _⟩, ?_⟩
      intro h
      exact absurd h hdt

theorem init_invariant : DragInvariant (init : DragController F) := by
  refine ⟨?_, ?_, fun _ => rfl⟩
  · show DragState.IDLE ≠ DragState.RELEASING
    decide
  · constructor
    · intro h
      exact absurd h (by show DragState.IDLE ≠ DragState.DRAGGING; decide)
    · intro h
      exact absurd rfl h

theorem updateDrag_idle (ray : Ray F) (now : F) (w : DragController F × List (Particle F))
    (h : w.1.m_state ≠ DragState.DRAGGING) : updateDrag ray now w = w := by
  unfold updateDrag
  split
  · rfl
  · rw [if_pos h]

theorem endDrag_idle (w : DragController F × List (Particle F))
    (h : w.1.m_state ≠ DragState.DRAGGING) : endDrag sqrt w = w := by
  unfold endDrag
  split
  · rfl
  · rw [if_pos h]

theorem beginDrag_invariant (i : Nat) (hitPoint cameraPos : Vec3 F)
    (w : DragController F × List (Particle F)) :
    DragInvariant (beginDrag sqrt i hitPoint cameraPos w).1 := by
  refine ⟨?_, ?_, ?_⟩
  · show DragState.DRAGGING ≠ DragState.RELEASING
    decide
  · constructor
    · intro _
      show some i ≠ none
      exact Option.some_ne_none i
    · intro _
      rfl
  · intro h
    exact absurd h (by show DragState.DRAGGING ≠ DragState.IDLE; decide)

theorem updateDrag_invariant (ray : Ray F) (now : F) (w : DragController F × List (Particle F))
    (hinv : DragInvariant w.1) : DragInvariant (updateDrag ray now w).1 := by
  unfold updateDrag
  split
  · exact hinv
  · rename_i i hptr
    split_ifs with hst
    · exact hinv
    · split
      · have hd : w.1.m_state = DragState.DRAGGING := not_not.mp hst
        refine ⟨hinv.1, hinv.2.1, ?_⟩
        intro h
        have h2 : w.1.m_state = DragState.IDLE := h
        rw [hd] at h2
        exact absurd h2 (by decide)
      · exact hinv

theorem endDrag_invariant (w : DragController F × List (Particle F))
    (hinv : DragInvariant w.1) : DragInvariant (endDrag sqrt w).1 := by
  by_cases hst : w.1.m_state = DragState.DRAGGING
  · have hsome : w.1.m_particle ≠ none := hinv.2.1.mp hst
    obtain ⟨i, hi⟩ := Option.ne_none_iff_exists'.mp hsome
    have he := endDrag_dragging sqrt w.1 w.2 i hst hi
    have hww : (w.1, w.2) = w := rfl
    rw [hww] at he
    rw [he]
    refine ⟨?_, ?_, fun _ => rfl⟩
    · show DragState.IDLE ≠ DragState.RELEASING
      decide
    · constructor
      · intro h
        exact absurd h (by show DragState.IDLE ≠ DragState.DRAGGING; decide)
      · intro h
        exact absurd rfl h
  · rw [endDrag_idle sqrt w hst]
    exact hinv

theorem performAll_invariant (calls : List (Call F)) :
    ∀ w : DragController F × List (Particle F), DragInvariant w.1 →
      DragInvariant (performAll sqrt calls w).1 := by
  induction calls with
  | nil =>
    intro w h
    exact h
  | cons call calls ih =>
    intro w h
    apply ih (perform sqrt w call)
    cases call with
    | beginDrag i hitPoint cameraPos => exact beginDrag_invariant sqrt i hitPoint cameraPos w
    | updateDrag ray now => exact updateDrag_invariant ray now w h
    | endDrag => exact endDrag_invariant sqrt w h

/-- C19: after any sequence of `beginDrag`, `updateDrag` and `endDrag` calls
on a fresh controller the state is not `RELEASING`; it is `DRAGGING` exactly
when a particle is referenced; in `IDLE` the history is empty and
`updateDrag` and `endDrag` change nothing; `endDrag` in `DRAGGING` clears the
`isBeingDragged` flag of the referenced particle, drops the reference, clears
the history and moves to `IDLE`. -/
theorem C19_drag_state_machine (calls : List (Call F)) (particles : List (Particle F))
    (ray : Ray F) (now : F) (w : DragController F × List (Particle F))
    (hw : w = performAll sqrt calls (init, particles)) :
    w.1.m_state ≠ DragState.RELEASING
      ∧ (w.1.m_state = DragState.DRAGGING ↔ w.1.m_particle ≠ none)
      ∧ (w.1.m_state = DragState.IDLE → w.1.m_positionHistory = [])
      ∧ (w.1.m_state = DragState.IDLE → updateDrag ray now w = w ∧ endDrag sqrt w = w)
      ∧ (w.1.m_state = DragState.DRAGGING →
          (endDrag sqrt w).1.m_state = DragState.IDLE
            ∧ (endDrag sqrt w).1.m_particle = none
            ∧ (endDrag sqrt w).1.m_positionHistory = []
            ∧ ∃ i, w.1.m_particle = some i
                ∧ ∀ p, w.2[i]? = some p →
                    ∃ q, (endDrag sqrt w).2[i]? = some q ∧ q.isBeingDragged = false) := by
  have hinv : DragInvariant w.1 := by
    rw [hw]
    exact performAll_invariant sqrt calls (init, particles) init_invariant
  refine ⟨hinv.1, hinv.2.1, hinv.2.2, ?_, ?_⟩
  · intro hidle
    have hnd : w.1.m_state ≠ DragState.DRAGGING := by
      rw [hidle]
      decide
    exact ⟨updateDrag_idle ray now w hnd, endDrag_idle sqrt w hnd⟩
  · intro hdrag
    have hsome : w.1.m_particle ≠ none := hinv.2.1.mp hdrag
    obtain ⟨i, hi⟩ := Option.ne_none_iff_exists'.mp hsome
    have he := endDrag_dragging sqrt w.1 w.2 i hdrag hi
    have hww : (w.1, w.2) = w := rfl
    rw [hww] at he
    rw [he]
    refine ⟨rfl, rfl, rfl, i, hi, ?_⟩
    intro p hp
    by_cases hlen : w.1.m_positionHistory.length ≥ 2
    · simp only [if_pos hlen]
      exact ⟨_, writeParticle_get i _ _ _ (writeParticle_get i _ w.2 p hp), rfl⟩
    · simp only [if_neg hlen]
      exact ⟨_, writeParticle_get i _ w.2 p hp, rfl⟩

end DragController

/-! ## Concrete evaluations: drag controller -/

section RealEvaluationDrag

theorem exampleDragStart_normal :
    (exampleDragStart Real.sqrt).1.m_dragPlaneNormal = (⟨1, 0, 0⟩ : Vec3 ℝ) := by
  have e : ((⟨5, 0, 0⟩ : Vec3 ℝ) - 0) = ⟨5, 0, 0⟩ := by
    ext <;> simp
  have hl : Vec3.length Real.sqrt (⟨5, 0, 0⟩ : Vec3 ℝ) = 5 := length_real_x 5 (by norm_num)
  show (if Vec3.length Real.sqrt ((⟨5, 0, 0⟩ : Vec3 ℝ) - 0) > 1e-10 then
      Vec3.normalize Real.sqrt ((⟨5, 0, 0⟩ : Vec3 ℝ) - 0) else ⟨0, 1, 0⟩) = _
  rw [e, hl, if_pos (by norm_num), Vec3.normalize_eq_smul, hl]
  ext <;> norm_num

theorem exampleDragStart_particles :
    (exampleDragStart Real.sqrt).2
      = [{ exampleCustom (5 : ℝ) PhysicsConstants.e PhysicsConstants.m_p with
            isBeingDragged := true }] :=
  rfl

theorem C15_updateDrag_on_plane_witness :
    (DragController.updateDrag exampleNormalRay (1 : ℝ) (exampleDragStart Real.sqrt)).2[0]?
      = some { exampleCustom (5 : ℝ) PhysicsConstants.e PhysicsConstants.m_p with
          isBeingDragged := true
          position := (exampleNormalRay : Ray ℝ).origin
            + planeParameter (exampleDragStart Real.sqrt).1 exampleNormalRay
              * (exampleNormalRay : Ray ℝ).direction
          velocity := 0 } := by
  have hd : Vec3.dot (exampleNormalRay : Ray ℝ).direction
      (exampleDragStart Real.sqrt).1.m_dragPlaneNormal = 1 := by
    rw [exampleDragStart_normal]
    simp [Vec3.dot, exampleNormalRay]
  have ht : planeParameter (exampleDragStart Real.sqrt).1 (exampleNormalRay : Ray ℝ) = 5 := by
    unfold planeParameter
    rw [exampleDragStart_normal]
    show Vec3.dot ((⟨5, 0, 0⟩ : Vec3 ℝ) - (exampleNormalRay : Ray ℝ).origin) ⟨1, 0, 0⟩
      / Vec3.dot (exampleNormalRay : Ray ℝ).direction ⟨1, 0, 0⟩ = 5
    simp [Vec3.dot, exampleNormalRay]
  exact (DragController.C15_updateDrag_on_plane (exampleNormalRay : Ray ℝ) 1
    (exampleDragStart Real.sqrt).1 (exampleDragStart Real.sqrt).2 0
    { exampleCustom (5 : ℝ) PhysicsConstants.e PhysicsConstants.m_p with isBeingDragged := true }
    rfl rfl rfl (by rw [hd]; norm_num) (by rw [ht]; norm_num)).1

/-- C16, evaluation of the code: the particle at `(5,0,0)` is dragged on the
plane with normal `(1,0,0)`; for the ray from `(0,1,0)` with direction
`(0,1,0)`, parallel to that plane, the fallback parameter is
`(0 - 1)/1 = -1 < 0`, and `updateDrag` still moves the particle to `(0,0,0)`
and records a sample. -/
theorem C16_fallback_moves_particle_behind_origin :
    |Vec3.dot (exampleParallelRay : Ray ℝ).direction
        (exampleDragStart Real.sqrt).1.m_dragPlaneNormal| < 1e-10
    ∧ (exampleDragStart Real.sqrt).2.map (fun p => (p.position, p.velocity))
        = [((⟨5, 0, 0⟩ : Vec3 ℝ), 0)]
    ∧ (exampleDragStart Real.sqrt).1.m_positionHistory = []
    ∧ ((5 : ℝ) * 0 - (exampleParallelRay : Ray ℝ).origin.y)
        / (exampleParallelRay : Ray ℝ).direction.y = -1
    ∧ (DragController.updateDrag exampleParallelRay 1 (exampleDragStart Real.sqrt)).2.map
        (fun p => (p.position, p.velocity))
        = [((⟨0, 0, 0⟩ : Vec3 ℝ), 0)]
    ∧ (DragController.updateDrag exampleParallelRay 1
        (exampleDragStart Real.sqrt)).1.m_positionHistory
        = [{ position := ⟨0, 0, 0⟩, timestamp := 1 }] := by
  have hd : Vec3.dot (exampleParallelRay : Ray ℝ).direction
      (exampleDragStart Real.sqrt).1.m_dragPlaneNormal = 0 := by
    rw [exampleDragStart_normal]
    simp [Vec3.dot, exampleParallelRay]
  have hx : DragController.rayPlaneIntersect (exampleDragStart Real.sqrt).1
      (exampleDragStart Real.sqrt).2 exampleParallelRay
      (exampleDragStart Real.sqrt).1.m_dragPlanePoint
      (exampleDragStart Real.sqrt).1.m_dragPlaneNormal = some (⟨0, 0, 0⟩ : Vec3 ℝ) := by
    unfold DragController.rayPlaneIntersect
    simp only [hd, abs_zero]
    rw [if_pos (by norm_num)]
    show some ((exampleParallelRay : Ray ℝ).origin
      + (exampleParallelRay : Ray ℝ).direction
        * (((⟨5, 0, 0⟩ : Vec3 ℝ).y - (exampleParallelRay : Ray ℝ).origin.y)
          / (exampleParallelRay : Ray ℝ).direction.y)) = _
    congr 1
    ext <;> simp [exampleParallelRay]
  have hu := DragController.updateDrag_dragging exampleParallelRay (1 : ℝ)
    (exampleDragStart Real.sqrt).1 (exampleDragStart Real.sqrt).2 0 rfl rfl _ hx
  have hww : ((exampleDragStart Real.sqrt).1, (exampleDragStart Real.sqrt).2)
      = exampleDragStart Real.sqrt := rfl
  rw [hww] at hu
  refine ⟨by rw [hd, abs_zero]; norm_num, ?_, rfl, ?_, ?_, ?_⟩
  · rw [exampleDragStart_particles]
    rfl
  · simp [exampleParallelRay]
  · rw [hu, exampleDragStart_particles]
    rfl
  · rw [hu]
    rfl

theorem releaseVelocity_too_short :
    DragController.releaseVelocity Real.sqrt (exampleRelease (1e-7 : ℝ)).1 = 0 := by
  have hv : DragController.inferVelocity (exampleRelease (1e-7 : ℝ)).1 = 0 := by
    rw [DragController.inferVelocity_eq (exampleRelease (1e-7 : ℝ)).1
      ({ position := ⟨0, 0, 0⟩, timestamp := 0 } : MotionPoint ℝ)
      ({ position := ⟨1e-7, 0, 0⟩, timestamp := 1e-7 } : MotionPoint ℝ) (by decide) rfl rfl]
    rw [if_pos (by norm_num)]
  unfold DragController.releaseVelocity
  dsimp only
  rw [hv, Vec3.length_zero realSqrtSpec, if_neg]
  show ¬ (0 : ℝ) > DragController.MAX_RELEASE_SPEED
  unfold DragController.MAX_RELEASE_SPEED
  norm_num

/-- C17, as stated, fails: with the samples `(0,0,0)` at time `0` and
`(1e-7,0,0)` at time `1e-7` the quotient `(P1 - P0)/(t1 - t0)` is `(1,0,0)`, of
length below the release cap, and `endDrag` sets the velocity to zero. -/
theorem C17_counterexample_short_drag :
    (exampleRelease (1e-7 : ℝ)).1.m_positionHistory
        = [{ position := ⟨0, 0, 0⟩, timestamp := 0 },
           { position := ⟨1e-7, 0, 0⟩, timestamp := 1e-7 }]
    ∧ (0 : ℝ) < 1e-7
    ∧ ((⟨1e-7, 0, 0⟩ : Vec3 ℝ) - ⟨0, 0, 0⟩) / ((1e-7 : ℝ) - 0) = ⟨1, 0, 0⟩
    ∧ Vec3.length Real.sqrt (⟨1, 0, 0⟩ : Vec3 ℝ)
        ≤ (exampleRelease (1e-7 : ℝ)).1.m_maxReleaseSpeed
    ∧ (DragController.endDrag Real.sqrt (exampleRelease (1e-7 : ℝ))).2[0]?
        = some { exampleCustom (1e-7 : ℝ) PhysicsConstants.e PhysicsConstants.m_p with
            velocity := 0 }
    ∧ (0 : Vec3 ℝ) ≠ ⟨1, 0, 0⟩ := by
  refine ⟨rfl, by norm_num, ?_, ?_, ?_, ?_⟩
  · ext <;> norm_num
  · rw [length_real_x 1 zero_le_one]
    show (1 : ℝ) ≤ DragController.MAX_RELEASE_SPEED
    unfold DragController.MAX_RELEASE_SPEED
    norm_num
  · have h := DragController.endDrag_released Real.sqrt (exampleRelease (1e-7 : ℝ)).1
      (exampleRelease (1e-7 : ℝ)).2 0 _ rfl rfl rfl (by decide)
    have hww : ((exampleRelease (1e-7 : ℝ)).1, (exampleRelease (1e-7 : ℝ)).2)
        = exampleRelease (1e-7 : ℝ) := rfl
    rw [hww, releaseVelocity_too_short] at h
    rw [h]
    rfl
  · intro h
    have hx := congrArg Vec3.x h
    norm_num at hx

theorem exampleRelease_one_quotient :
    ((⟨1, 0, 0⟩ : Vec3 ℝ) - ⟨0, 0, 0⟩) / ((1 : ℝ) - 0) = ⟨1, 0, 0⟩ := by
  ext <;> norm_num

theorem C17_endDrag_inferred_velocity_witness :
    ∃ q, (DragController.endDrag Real.sqrt (exampleRelease (1 : ℝ))).2[0]? = some q
      ∧ q.velocity = ⟨1, 0, 0⟩ := by
  obtain ⟨q, h1, h2, _⟩ := DragController.C17_endDrag_inferred_velocity Real.sqrt realSqrtSpec
    (exampleRelease (1 : ℝ)).1 (exampleRelease (1 : ℝ)).2 0
    { exampleCustom (1 : ℝ) PhysicsConstants.e PhysicsConstants.m_p with isBeingDragged := true }
    ({ position := ⟨0, 0, 0⟩, timestamp := 0 } : MotionPoint ℝ)
    ({ position := ⟨1, 0, 0⟩, timestamp := 1 } : MotionPoint ℝ)
    rfl rfl rfl (by decide) rfl rfl (by norm_num)
  refine ⟨q, h1, ?_⟩
  rw [← exampleRelease_one_quotient]
  apply h2
  rw [exampleRelease_one_quotient, length_real_x 1 zero_le_one]
  show (1 : ℝ) ≤ DragController.MAX_RELEASE_SPEED
  unfold DragController.MAX_RELEASE_SPEED
  norm_num

theorem C18_endDrag_velocity_capped_witness :
    ∃ q, (DragController.endDrag Real.sqrt (exampleRelease (1 : ℝ))).2[0]? = some q
      ∧ Vec3.length Real.sqrt q.velocity ≤ (exampleRelease (1 : ℝ)).1.m_maxReleaseSpeed := by
  have hmax : (0 : ℝ) ≤ (exampleRelease (1 : ℝ)).1.m_maxReleaseSpeed := by
    show (0 : ℝ) ≤ DragController.MAX_RELEASE_SPEED
    unfold DragController.MAX_RELEASE_SPEED
    norm_num
  obtain ⟨q, h1, h2, _⟩ := DragController.C18_endDrag_velocity_capped Real.sqrt realSqrtSpec
    (exampleRelease (1 : ℝ)).1 (exampleRelease (1 : ℝ)).2 0
    { exampleCustom (1 : ℝ) PhysicsConstants.e PhysicsConstants.m_p with isBeingDragged := true }
    ({ position := ⟨0, 0, 0⟩, timestamp := 0 } : MotionPoint ℝ)
    ({ position := ⟨1, 0, 0⟩, timestamp := 1 } : MotionPoint ℝ)
    hmax rfl rfl rfl (by decide) rfl rfl
  exact ⟨q, h1, h2⟩

theorem C19_drag_state_machine_witness :
    (DragController.performAll Real.sqrt
        [DragController.Call.beginDrag 0 ⟨5, 0, 0⟩ 0,
         DragController.Call.updateDrag exampleParallelRay 1,
         DragController.Call.endDrag]
        (DragController.init,
          [exampleCustom (5 : ℝ) PhysicsConstants.e PhysicsConstants.m_p])).1.m_state
      ≠ DragState.RELEASING :=
  (DragController.C19_drag_state_machine Real.sqrt
    [DragController.Call.beginDrag 0 ⟨5, 0, 0⟩ 0,
     DragController.Call.updateDrag exampleParallelRay 1,
     DragController.Call.endDrag]
    [exampleCustom (5 : ℝ) PhysicsConstants.e PhysicsConstants.m_p] exampleParallelRay 1 _
    rfl).1

end RealEvaluationDrag

/-! ## Field-line tracer -/

namespace FieldLineGenerator

variable {F : Type} [LinearOrderedField F] (sqrt : F → F) (toFloat : F → F)

theorem generateLoop_stop (particles : List (Particle F)) (config : FieldLineConfig F)
    (traceForward : Bool) (n : Nat) (pos : Vec3 F) (line : FieldLine F)
    (h : ¬ traceContinues sqrt particles config line.sourceCharge pos) :
    generateLoop sqrt toFloat particles config traceForward (n + 1) pos line
      = { line with isComplete := true } := by
  unfold traceContinues at h
  rw [generateLoop]
  by_cases h1 : Vec3.length sqrt (ElectricField.totalField sqrt pos particles)
      < config.minFieldMagnitude
  · rw [if_pos h1]
  · rw [if_neg h1]
    by_cases h2 : Vec3.length sqrt pos > config.maxDistance
    · rw [if_pos h2]
    · rw [if_neg h2]
      by_cases h3 : enteredOppositeCharge sqrt line.sourceCharge pos particles = true
      · rw [if_pos h3]
      · exact absurd ⟨h1, h2, Bool.eq_false_iff.mpr h3⟩ h

theorem generateLoop_continue (particles : List (Particle F)) (config : FieldLineConfig F)
    (traceForward : Bool) (n : Nat) (pos : Vec3 F) (line : FieldLine F)
    (h : traceContinues sqrt particles config line.sourceCharge pos) :
    generateLoop sqrt toFloat particles config traceForward (n + 1) pos line
      = generateLoop sqrt toFloat particles config traceForward n
          (traceStep sqrt particles config traceForward pos)
          { line with
            points := line.points ++ [pos]
            fieldMagnitudes :=
              line.fieldMagnitudes
                ++ [toFloat (Vec3.length sqrt (ElectricField.totalField sqrt pos particles))] } := by
  obtain ⟨h1, h2, h3⟩ := h
  rw [generateLoop]
  rw [if_neg h1, if_neg h2, h3]
  rfl

/-- As long as no termination condition fires the loop records the positions
of the trace one after the other. -/
theorem generateLoop_run (particles : List (Particle F)) (config : FieldLineConfig F)
    (traceForward : Bool) (n : Nat) :
    ∀ (m : Nat) (pos : Vec3 F) (line : FieldLine F),
      (∀ j, j < m → traceContinues sqrt particles config line.sourceCharge
        (tracePoint sqrt particles config traceForward j pos)) →
      generateLoop sqrt toFloat particles config traceForward (m + n) pos line
        = generateLoop sqrt toFloat particles config traceForward n
            (tracePoint sqrt particles config traceForward m pos)
            { line with
              points := line.points ++ tracePoints sqrt particles config traceForward m pos
              fieldMagnitudes :=
                line.fieldMagnitudes
                  ++ (tracePoints sqrt particles config traceForward m pos).map
                      (fun x => toFloat (Vec3.length sqrt (ElectricField.totalField sqrt x particles))) } := by
  intro m
  induction m with
  | zero =>
    intro pos line _
    simp [tracePoint, tracePoints]
  | succ m ih =>
    intro pos line h
    have h0 : traceContinues sqrt particles config line.sourceCharge pos := h 0 (Nat.succ_pos m)
    have e : m + 1 + n = (m + n) + 1 := by omega
    rw [e, generateLoop_continue sqrt toFloat particles config traceForward (m + n) pos line h0,
      ih (traceStep sqrt particles config traceForward pos)
        { line with
          points := line.points ++ [pos]
          fieldMagnitudes :=
            line.fieldMagnitudes
              ++ [toFloat (Vec3.length sqrt (ElectricField.totalField sqrt pos particles))] }
        (fun j hj => h (j + 1) (Nat.succ_lt_succ hj))]
    simp [tracePoint, tracePoints]

/-- The line returned when the trace stops at its `m`-th position, before the
step bound is reached. -/
theorem generate_of_stop (seed : Vec3 F) (particles : List (Particle F))
    (config : FieldLineConfig F) (traceForward : Bool) (sc : F) (m : Nat)
    (hsc : (if particles.isEmpty then 0
        else (sourceChargeLoop sqrt seed particles (DBL_MAX, 0)).2) = sc)
    (hm : (m : Int) < config.maxStepsPerLine)
    (hrun : ∀ j, j < m → traceContinues sqrt particles config sc
      (tracePoint sqrt particles config traceForward j seed))
    (hstop : ¬ traceContinues sqrt particles config sc
      (tracePoint sqrt particles config traceForward m seed)) :
    generate sqrt toFloat seed particles config traceForward
      = { points := tracePoints sqrt particles config traceForward m seed
          fieldMagnitudes :=
            (tracePoints sqrt particles config traceForward m seed).map
              (fun x => toFloat (Vec3.length sqrt (ElectricField.totalField sqrt x particles)))
          sourceCharge := sc
          isComplete := true
          isForward := traceForward } := by
  obtain ⟨n, hn⟩ : ∃ n, config.maxStepsPerLine.toNat = m + (n + 1) := by
    refine ⟨config.maxStepsPerLine.toNat - m - 1, ?_⟩
    omega
  unfold generate
  dsimp only
  rw [hsc, hn, generateLoop_run sqrt toFloat particles config traceForward (n + 1) m seed _ hrun,
    generateLoop_stop sqrt toFloat particles config traceForward n _ _ hstop]
  simp

theorem enteredOppositeCharge_pair (sc : F) (pos : Vec3 F) (a b : Particle F) :
    enteredOppositeCharge sqrt sc pos [a, b]
      = if Vec3.length sqrt (pos - a.position) < a.visualRadius * 0.5 then
          decide ((if sc > 0 then (1 : Int) else -1) ≠ (if a.charge > 0 then (1 : Int) else -1))
        else if Vec3.length sqrt (pos - b.position) < b.visualRadius * 0.5 then
          decide ((if sc > 0 then (1 : Int) else -1) ≠ (if b.charge > 0 then (1 : Int) else -1))
        else
          false := by
  unfold enteredOppositeCharge isInsideParticle
  simp only [isInsideParticleFrom]
  by_cases ha : Vec3.length sqrt (pos - a.position) < a.visualRadius * 0.5
  · simp [ha]
  · by_cases hb : Vec3.length sqrt (pos - b.position) < b.visualRadius * 0.5
    · simp [ha, hb]
    · simp [ha, hb]

/-- In a scene of one positive and one negative charge the third termination
condition of a line that starts at the positive charge fires only inside the
footprint of the negative charge. -/
theorem entered_negative_footprint (pPlus pMinus : Particle F) (particles : List (Particle F))
    (hscene : particles = [pPlus, pMinus] ∨ particles = [pMinus, pPlus])
    (hplus : 0 < pPlus.charge) (pos : Vec3 F)
    (h : enteredOppositeCharge sqrt pPlus.charge pos particles = true) :
    Vec3.length sqrt (pos - pMinus.position) < pMinus.visualRadius * 0.5 := by
  have hsrc : (if pPlus.charge > 0 then (1 : Int) else -1) = 1 := if_pos hplus
  rcases hscene with hs | hs
  · rw [hs, enteredOppositeCharge_pair, hsrc] at h
    by_cases ha : Vec3.length sqrt (pos - pPlus.position) < pPlus.visualRadius * 0.5
    · rw [if_pos ha] at h
      simp at h
    · rw [if_neg ha] at h
      by_cases hb : Vec3.length sqrt (pos - pMinus.position) < pMinus.visualRadius * 0.5
      · exact hb
      · rw [if_neg hb] at h
        exact absurd h (by decide)
  · rw [hs, enteredOppositeCharge_pair, hsrc] at h
    by_cases hb : Vec3.length sqrt (pos - pMinus.position) < pMinus.visualRadius * 0.5
    · exact hb
    · rw [if_neg hb] at h
      by_cases ha : Vec3.length sqrt (pos - pPlus.position) < pPlus.visualRadius * 0.5
      · rw [if_pos ha] at h
        simp at h
      · rw [if_neg ha] at h
        exact absurd h (by decide)

/-- The source charge of a line whose seed is nearer to the positive charge. -/
theorem sourceCharge_near_positive (pPlus pMinus : Particle F) (particles : List (Particle F))
    (hscene : particles = [pPlus, pMinus] ∨ particles = [pMinus, pPlus]) (seed : Vec3 F)
    (hnear : Vec3.length sqrt (seed - pPlus.position) < Vec3.length sqrt (seed - pMinus.position))
    (hfin : Vec3.length sqrt (seed - pPlus.position) < DBL_MAX) :
    (if particles.isEmpty then 0
      else (sourceChargeLoop sqrt seed particles (DBL_MAX, 0)).2) = pPlus.charge := by
  rcases hscene with hs | hs
  · rw [hs]
    simp only [List.isEmpty_cons, Bool.false_eq_true, if_false, sourceChargeLoop, List.foldl]
    rw [if_pos hfin, if_neg (not_lt.mpr (le_of_lt hnear))]
  · rw [hs]
    simp only [List.isEmpty_cons, Bool.false_eq_true, if_false, sourceChargeLoop, List.foldl]
    by_cases hm : Vec3.length sqrt (seed - pMinus.position) < DBL_MAX
    · rw [if_pos hm, if_pos hnear]
    · rw [if_neg hm, if_pos hfin]

/-- C20 (amended): in a scene of exactly two charges, one positive and one
negative, with adaptive stepping enabled, a line traced forward from a seed
nearer to the positive charge whose trace reaches, after `m` iterations and
before the step bound, a position where the opposite-charge condition fires,
is returned with `isComplete = true`; that position is inside the footprint
of the negative charge and is not recorded: the recorded points are the `m`
positions before it, and the condition fired at none of them. -/
theorem C20_line_stops_at_negative_charge (pPlus pMinus : Particle F)
    (particles : List (Particle F))
    (hscene : particles = [pPlus, pMinus] ∨ particles = [pMinus, pPlus])
    (hplus : 0 < pPlus.charge) (_hminus : pMinus.charge < 0)
    (config : FieldLineConfig F) (_hadaptive : config.useAdaptiveStep = true)
    (seed : Vec3 F)
    (hnear : Vec3.length sqrt (seed - pPlus.position) < Vec3.length sqrt (seed - pMinus.position))
    (hfin : Vec3.length sqrt (seed - pPlus.position) < DBL_MAX)
    (m : Nat) (hm : (m : Int) < config.maxStepsPerLine)
    (hrun : ∀ j, j < m → traceContinues sqrt particles config pPlus.charge
      (tracePoint sqrt particles config true j seed))
    (hstop : enteredOppositeCharge sqrt pPlus.charge
      (tracePoint sqrt particles config true m seed) particles = true) :
    (generate sqrt toFloat seed particles config true).isComplete = true
      ∧ Vec3.length sqrt (tracePoint sqrt particles config true m seed - pMinus.position)
          < pMinus.visualRadius * 0.5
      ∧ (generate sqrt toFloat seed particles config true).points
          = tracePoints sqrt particles config true m seed
      ∧ (∀ j, j < m →
          enteredOppositeCharge sqrt pPlus.charge
            (tracePoint sqrt particles config true j seed) particles = false) := by
  have hnot : ¬ traceContinues sqrt particles config pPlus.charge
      (tracePoint sqrt particles config true m seed) := by
    intro hc
    rw [hc.2.2] at hstop
    exact absurd hstop (by decide)
  have hg := generate_of_stop sqrt toFloat seed particles config true pPlus.charge m
    (sourceCharge_near_positive sqrt pPlus pMinus particles hscene seed hnear hfin) hm hrun hnot
  rw [hg]
  exact ⟨rfl, entered_negative_footprint sqrt pPlus pMinus particles hscene hplus _ hstop, rfl,
    fun j hj => (hrun j hj).2.2⟩

end FieldLineGenerator

/-! ## Concrete evaluations: field line between two charges -/

section RealEvaluationLine

/-- Field on the x axis, at distance `d` to the left of the charge. -/
theorem fromPointCharge_real_x_left (a b q d : ℝ) (hd : b - a = d)
    (hmin : PhysicsConstants.MIN_SAFE_DISTANCE ≤ d) :
    ElectricField.fromPointCharge Real.sqrt ⟨a, 0, 0⟩ ⟨b, 0, 0⟩ q
      = ⟨-(PhysicsConstants.k * q / (d * d)), 0, 0⟩ := by
  have hpos : 0 < d := lt_of_lt_of_le min_safe_distance_pos hmin
  have e : ((⟨a, 0, 0⟩ : Vec3 ℝ) - ⟨b, 0, 0⟩) = ⟨-d, 0, 0⟩ := by
    ext <;> simp [← hd]
  have hl : Vec3.length Real.sqrt ((⟨a, 0, 0⟩ : Vec3 ℝ) - ⟨b, 0, 0⟩) = d := by
    rw [e, length_real_x_abs, abs_neg, abs_of_pos hpos]
  rw [ElectricField.fromPointCharge_far _ _ _ (by rw [hl]; exact hmin), hl, e]
  ext <;> simp [ne_of_gt hpos]

/-- The field of the example dipole at a point of the axis between the two
charges. -/
theorem dipole_field_axis (x : ℝ) (h0 : PhysicsConstants.MIN_SAFE_DISTANCE ≤ x)
    (h1 : PhysicsConstants.MIN_SAFE_DISTANCE ≤ 1 - x) :
    ElectricField.totalField Real.sqrt (⟨x, 0, 0⟩ : Vec3 ℝ) exampleDipole
      = ⟨PhysicsConstants.k / (x * x) + PhysicsConstants.k / ((1 - x) * (1 - x)), 0, 0⟩ := by
  have f1 := fromPointCharge_real_x x 0 1 x (sub_zero x) h0
  have f2 := fromPointCharge_real_x_left x 1 (-1) (1 - x) rfl h1
  have l1 : Vec3.length Real.sqrt ((⟨x, 0, 0⟩ : Vec3 ℝ) - (exampleCharge (0 : ℝ) 1).position)
      = x := by
    have e : ((⟨x, 0, 0⟩ : Vec3 ℝ) - (exampleCharge (0 : ℝ) 1).position) = ⟨x, 0, 0⟩ := by
      ext <;> simp [exampleCharge]
    rw [e, length_real_x x (le_trans (le_of_lt min_safe_distance_pos) h0)]
  have l2 : Vec3.length Real.sqrt
      ((⟨x, 0, 0⟩ : Vec3 ℝ) - (exampleCharge (1 : ℝ) (-1)).position) = 1 - x := by
    have e : ((⟨x, 0, 0⟩ : Vec3 ℝ) - (exampleCharge (1 : ℝ) (-1)).position)
        = ⟨-(1 - x), 0, 0⟩ := by
      ext <;> simp [exampleCharge]
    rw [e, length_real_x_abs, abs_neg,
      abs_of_nonneg (le_trans (le_of_lt min_safe_distance_pos) h1)]
  have hp1 : (exampleCharge (0 : ℝ) 1).position = ⟨0, 0, 0⟩ := rfl
  have hp2 : (exampleCharge (1 : ℝ) (-1)).position = ⟨1, 0, 0⟩ := rfl
  have hq1 : (exampleCharge (0 : ℝ) 1).charge = 1 := rfl
  have hq2 : (exampleCharge (1 : ℝ) (-1)).charge = -1 := rfl
  unfold exampleDipole
  rw [ElectricField.totalField_pair _ _ _ (by rw [l1]; exact h0) (by rw [l2]; exact h1),
    hp1, hp2, hq1, hq2, f1, f2]
  ext <;> simp
  ring

/-- The x component of the dipole field between the charges is at least `k`. -/
theorem dipole_field_large (x : ℝ) (h0 : 0 < x) (h1 : 0 < 1 - x) :
    PhysicsConstants.k
      ≤ PhysicsConstants.k / (x * x) + PhysicsConstants.k / ((1 - x) * (1 - x)) := by
  have hk : (0 : ℝ) < PhysicsConstants.k := coulomb_k_pos
  have hxx : x * x ≤ 1 := by nlinarith
  have ha : PhysicsConstants.k ≤ PhysicsConstants.k / (x * x) := by
    rw [le_div_iff₀ (mul_pos h0 h0)]
    nlinarith
  have hb : 0 ≤ PhysicsConstants.k / ((1 - x) * (1 - x)) :=
    le_of_lt (div_pos hk (mul_pos h1 h1))
  linarith

theorem coulomb_k_large : (1 : ℝ) ≤ PhysicsConstants.k := by
  unfold PhysicsConstants.k
  norm_num

theorem normalize_real_x (a : ℝ) (ha : 0 < a) :
    Vec3.normalize Real.sqrt (⟨a, 0, 0⟩ : Vec3 ℝ) = ⟨1, 0, 0⟩ := by
  rw [Vec3.normalize_eq_smul, length_real_x a (le_of_lt ha)]
  ext <;> simp [ne_of_gt ha]

theorem dipole_direction_axis (x : ℝ) (h0 : PhysicsConstants.MIN_SAFE_DISTANCE ≤ x)
    (h1 : PhysicsConstants.MIN_SAFE_DISTANCE ≤ 1 - x) :
    ElectricField.direction Real.sqrt (⟨x, 0, 0⟩ : Vec3 ℝ) exampleDipole = ⟨1, 0, 0⟩ := by
  have hx0 : 0 < x := lt_of_lt_of_le min_safe_distance_pos h0
  have hx1 : 0 < 1 - x := lt_of_lt_of_le min_safe_distance_pos h1
  have hE := dipole_field_large x hx0 hx1
  have hpos : 0 < PhysicsConstants.k / (x * x) + PhysicsConstants.k / ((1 - x) * (1 - x)) :=
    lt_of_lt_of_le coulomb_k_pos hE
  unfold ElectricField.direction
  dsimp only
  rw [dipole_field_axis x h0 h1, length_real_x _ (le_of_lt hpos), normalize_real_x _ hpos,
    if_neg]
  have := coulomb_k_large
  intro hlt
  norm_num at hlt
  linarith

theorem dipole_curvature_axis (x : ℝ) (h0 : PhysicsConstants.MIN_SAFE_DISTANCE ≤ x)
    (h1 : PhysicsConstants.MIN_SAFE_DISTANCE ≤ 1 - (x + 1 / 100)) :
    FieldLineGenerator.estimateCurvature Real.sqrt (⟨x, 0, 0⟩ : Vec3 ℝ) ⟨1, 0, 0⟩ exampleDipole
      = 0 := by
  have h0b : PhysicsConstants.MIN_SAFE_DISTANCE ≤ x + 1 / 100 := by linarith
  have hx0 : 0 < x + 1 / 100 := lt_of_lt_of_le min_safe_distance_pos h0b
  have hx1 : 0 < 1 - (x + 1 / 100) := lt_of_lt_of_le min_safe_distance_pos h1
  have hE := dipole_field_large (x + 1 / 100) hx0 hx1
  have hpos : 0 < PhysicsConstants.k / ((x + 1 / 100) * (x + 1 / 100))
      + PhysicsConstants.k / ((1 - (x + 1 / 100)) * (1 - (x + 1 / 100))) :=
    lt_of_lt_of_le coulomb_k_pos hE
  have e : (⟨x, 0, 0⟩ : Vec3 ℝ) + (0.01 : ℝ) * (⟨1, 0, 0⟩ : Vec3 ℝ) = ⟨x + 1 / 100, 0, 0⟩ := by
    ext <;> norm_num
  have hz : (⟨1, 0, 0⟩ : Vec3 ℝ) - ⟨1, 0, 0⟩ = 0 := Vec3.sub_self_eq_zero _
  unfold FieldLineGenerator.estimateCurvature
  dsimp only
  rw [e, dipole_field_axis _ h0b h1, length_real_x _ (le_of_lt hpos), normalize_real_x _ hpos,
    hz, Vec3.length_zero realSqrtSpec, if_neg, zero_div]
  have := coulomb_k_large
  intro hlt
  norm_num at hlt
  linarith

theorem dipole_traceStep_axis (x : ℝ) (h0 : PhysicsConstants.MIN_SAFE_DISTANCE ≤ x)
    (h1 : PhysicsConstants.MIN_SAFE_DISTANCE ≤ 1 - (x + 1 / 2)) :
    traceStep Real.sqrt exampleDipole exampleCoarseConfig true (⟨x, 0, 0⟩ : Vec3 ℝ)
      = ⟨x + 1 / 2, 0, 0⟩ := by
  have hx0 : 0 < x := lt_of_lt_of_le min_safe_distance_pos h0
  have hE := dipole_field_large x hx0 (by linarith [min_safe_distance_pos (F := ℝ)])
  have hpos : 0 < PhysicsConstants.k / (x * x) + PhysicsConstants.k / ((1 - x) * (1 - x)) :=
    lt_of_lt_of_le coulomb_k_pos hE
  have hcurv := dipole_curvature_axis x h0 (by linarith)
  have hh : (exampleCoarseConfig : FieldLineConfig ℝ).stepSize = 1 / 2 := rfl
  have ha : (exampleCoarseConfig : FieldLineConfig ℝ).useAdaptiveStep = true := rfl
  have e2 : (⟨x, 0, 0⟩ : Vec3 ℝ) + ((0.5 : ℝ) * (1 / 2)) * (⟨1, 0, 0⟩ : Vec3 ℝ)
      = ⟨x + 1 / 4, 0, 0⟩ := by
    ext <;> norm_num
  have e4 : (⟨x, 0, 0⟩ : Vec3 ℝ) + (1 / 2 : ℝ) * (⟨1, 0, 0⟩ : Vec3 ℝ) = ⟨x + 1 / 2, 0, 0⟩ := by
    ext <;> norm_num
  have d2 := dipole_direction_axis (x + 1 / 4) (by linarith) (by linarith)
  have d4 := dipole_direction_axis (x + 1 / 2) (by linarith) h1
  have l1 : ¬ Vec3.length Real.sqrt (⟨1, 0, 0⟩ : Vec3 ℝ) < 1e-10 := by
    rw [length_real_x 1 zero_le_one]
    norm_num
  unfold traceStep FieldLineGenerator.rk4Advance
  dsimp only
  rw [dipole_field_axis x h0 (by linarith), normalize_real_x _ hpos]
  simp only [hh, ha, if_true, hcurv]
  have hH : (1 / 2 : ℝ) / (1.0 + 0 * (exampleCoarseConfig : FieldLineConfig ℝ).adaptiveStepFactor)
      = 1 / 2 := by
    norm_num
  simp only [hH, e2, d2, l1, if_false, e4, d4]
  ext <;> norm_num

theorem dipole_dist_plus (x : ℝ) (hx : 0 ≤ x) :
    Vec3.length Real.sqrt ((⟨x, 0, 0⟩ : Vec3 ℝ) - (exampleCharge (0 : ℝ) 1).position) = x := by
  have e : ((⟨x, 0, 0⟩ : Vec3 ℝ) - (exampleCharge (0 : ℝ) 1).position) = ⟨x, 0, 0⟩ := by
    ext <;> simp [exampleCharge]
  rw [e, length_real_x x hx]

theorem dipole_dist_minus (x : ℝ) (hx : x ≤ 1) :
    Vec3.length Real.sqrt ((⟨x, 0, 0⟩ : Vec3 ℝ) - (exampleCharge (1 : ℝ) (-1)).position)
      = 1 - x := by
  have e : ((⟨x, 0, 0⟩ : Vec3 ℝ) - (exampleCharge (1 : ℝ) (-1)).position)
      = ⟨-(1 - x), 0, 0⟩ := by
    ext <;> simp [exampleCharge]
  rw [e, length_real_x_abs, abs_neg, abs_of_nonneg (by linarith)]

theorem dipole_seed_continues :
    traceContinues Real.sqrt exampleDipole exampleCoarseConfig (1 : ℝ) ⟨2 / 5, 0, 0⟩ := by
  have hmin : (PhysicsConstants.MIN_SAFE_DISTANCE : ℝ) ≤ 2 / 5 := by
    unfold PhysicsConstants.MIN_SAFE_DISTANCE
    norm_num
  have hmin2 : (PhysicsConstants.MIN_SAFE_DISTANCE : ℝ) ≤ 1 - 2 / 5 := by
    unfold PhysicsConstants.MIN_SAFE_DISTANCE
    norm_num
  have hE := dipole_field_large (2 / 5) (by norm_num) (by norm_num)
  have hk := coulomb_k_large
  refine ⟨?_, ?_, ?_⟩
  · rw [dipole_field_axis _ hmin hmin2, length_real_x _ (by linarith)]
    show ¬ _ < (1e-6 : ℝ)
    intro hlt
    norm_num at hlt
    linarith
  · rw [length_real_x _ (by norm_num)]
    show ¬ (2 / 5 : ℝ) > 100.0
    norm_num
  · unfold exampleDipole
    rw [FieldLineGenerator.enteredOppositeCharge_pair, dipole_dist_plus _ (by norm_num),
      dipole_dist_minus _ (by norm_num)]
    have r1 : (exampleCharge (0 : ℝ) 1).visualRadius = 2 / 5 := rfl
    have r2 : (exampleCharge (1 : ℝ) (-1)).visualRadius = 2 / 5 := rfl
    rw [r1, r2, if_neg (by norm_num), if_neg (by norm_num)]

theorem dipole_stop_entered :
    FieldLineGenerator.enteredOppositeCharge Real.sqrt (1 : ℝ) ⟨9 / 10, 0, 0⟩ exampleDipole
      = true := by
  have r1 : (exampleCharge (0 : ℝ) 1).visualRadius = 2 / 5 := rfl
  have r2 : (exampleCharge (1 : ℝ) (-1)).visualRadius = 2 / 5 := rfl
  have q2 : (exampleCharge (1 : ℝ) (-1)).charge = -1 := rfl
  unfold exampleDipole
  rw [FieldLineGenerator.enteredOppositeCharge_pair, dipole_dist_plus _ (by norm_num),
    dipole_dist_minus _ (by norm_num), r1, r2, q2, if_neg (by norm_num), if_pos (by norm_num)]
  norm_num

theorem dipole_seed_step :
    traceStep Real.sqrt exampleDipole exampleCoarseConfig true (⟨2 / 5, 0, 0⟩ : Vec3 ℝ)
      = ⟨9 / 10, 0, 0⟩ := by
  have h := dipole_traceStep_axis (2 / 5)
    (by unfold PhysicsConstants.MIN_SAFE_DISTANCE; norm_num)
    (by unfold PhysicsConstants.MIN_SAFE_DISTANCE; norm_num)
  rw [h]
  ext <;> norm_num

/-- The line traced in the example dipole from the seed `(2/5,0,0)`. -/
theorem dipole_line :
    FieldLineGenerator.generate Real.sqrt floatCast (⟨2 / 5, 0, 0⟩ : Vec3 ℝ) exampleDipole
        exampleCoarseConfig true
      = { points := [⟨2 / 5, 0, 0⟩]
          fieldMagnitudes :=
            [floatCast (Vec3.length Real.sqrt
              (ElectricField.totalField Real.sqrt (⟨2 / 5, 0, 0⟩ : Vec3 ℝ) exampleDipole))]
          sourceCharge := 1
          isComplete := true
          isForward := true } := by
  have hsrc := FieldLineGenerator.sourceCharge_near_positive Real.sqrt (exampleCharge (0 : ℝ) 1)
    (exampleCharge 1 (-1)) exampleDipole (Or.inl rfl) ⟨2 / 5, 0, 0⟩
    (by rw [dipole_dist_plus _ (by norm_num), dipole_dist_minus _ (by norm_num)]; norm_num)
    (by rw [dipole_dist_plus _ (by norm_num)]; unfold DBL_MAX; norm_num)
  have hq : (exampleCharge (0 : ℝ) 1).charge = 1 := rfl
  rw [hq] at hsrc
  have hrun : ∀ j, j < 1 → traceContinues Real.sqrt exampleDipole exampleCoarseConfig (1 : ℝ)
      (tracePoint Real.sqrt exampleDipole exampleCoarseConfig true j ⟨2 / 5, 0, 0⟩) := by
    intro j hj
    have hj0 : j = 0 := by omega
    rw [hj0]
    exact dipole_seed_continues
  have hpt : tracePoint Real.sqrt exampleDipole exampleCoarseConfig true 1
      (⟨2 / 5, 0, 0⟩ : Vec3 ℝ) = ⟨9 / 10, 0, 0⟩ := dipole_seed_step
  have hstop : ¬ traceContinues Real.sqrt exampleDipole exampleCoarseConfig (1 : ℝ)
      (tracePoint Real.sqrt exampleDipole exampleCoarseConfig true 1 ⟨2 / 5, 0, 0⟩) := by
    rw [hpt]
    intro hc
    have h3 := hc.2.2
    rw [dipole_stop_entered] at h3
    exact absurd h3 (by decide)
  rw [FieldLineGenerator.generate_of_stop Real.sqrt floatCast _ exampleDipole exampleCoarseConfig true 1 1
    hsrc (by decide) hrun hstop]
  rfl

/-- C20, as stated, fails: in the example dipole the line from the seed
`(2/5,0,0)` steps to `(9/10,0,0)`, inside the footprint of the negative
charge, and ends there as complete; its only recorded point is the seed, at
distance `3/5` from the negative charge, whose footprint has radius `1/5`. -/
theorem C20_counterexample_last_point_outside :
    (FieldLineGenerator.generate Real.sqrt floatCast (⟨2 / 5, 0, 0⟩ : Vec3 ℝ) exampleDipole
        exampleCoarseConfig true).isComplete = true
    ∧ (FieldLineGenerator.generate Real.sqrt floatCast (⟨2 / 5, 0, 0⟩ : Vec3 ℝ) exampleDipole
        exampleCoarseConfig true).points = [⟨2 / 5, 0, 0⟩]
    ∧ traceStep Real.sqrt exampleDipole exampleCoarseConfig true (⟨2 / 5, 0, 0⟩ : Vec3 ℝ)
        = ⟨9 / 10, 0, 0⟩
    ∧ FieldLineGenerator.enteredOppositeCharge Real.sqrt (1 : ℝ) ⟨9 / 10, 0, 0⟩ exampleDipole
        = true
    ∧ (exampleCoarseConfig : FieldLineConfig ℝ).useAdaptiveStep = true
    ∧ ¬ Vec3.length Real.sqrt
          ((⟨2 / 5, 0, 0⟩ : Vec3 ℝ) - (exampleCharge (1 : ℝ) (-1)).position)
        < (exampleCharge (1 : ℝ) (-1)).visualRadius * 0.5 := by
  refine ⟨?_, ?_, dipole_seed_step, dipole_stop_entered, rfl, ?_⟩
  · rw [dipole_line]
  · rw [dipole_line]
  · rw [dipole_dist_minus _ (by norm_num)]
    show ¬ (1 - 2 / 5 : ℝ) < 2 / 5 * 0.5
    norm_num

theorem C20_line_stops_at_negative_charge_witness :
    (FieldLineGenerator.generate Real.sqrt floatCast (⟨2 / 5, 0, 0⟩ : Vec3 ℝ) exampleDipole
        exampleCoarseConfig true).isComplete = true
    ∧ Vec3.length Real.sqrt
        (tracePoint Real.sqrt exampleDipole exampleCoarseConfig true 1 (⟨2 / 5, 0, 0⟩ : Vec3 ℝ)
          - (exampleCharge (1 : ℝ) (-1)).position)
      < (exampleCharge (1 : ℝ) (-1)).visualRadius * 0.5 := by
  have hq : (exampleCharge (0 : ℝ) 1).charge = 1 := rfl
  have hpt : tracePoint Real.sqrt exampleDipole exampleCoarseConfig true 1
      (⟨2 / 5, 0, 0⟩ : Vec3 ℝ) = ⟨9 / 10, 0, 0⟩ := dipole_seed_step
  have h := FieldLineGenerator.C20_line_stops_at_negative_charge Real.sqrt floatCast
    (exampleCharge (0 : ℝ) 1) (exampleCharge 1 (-1)) exampleDipole (Or.inl rfl)
    (by rw [hq]; norm_num) (by show (-1 : ℝ) < 0; norm_num)
    exampleCoarseConfig rfl ⟨2 / 5, 0, 0⟩
    (by rw [dipole_dist_plus _ (by norm_num), dipole_dist_minus _ (by norm_num)]; norm_num)
    (by rw [dipole_dist_plus _ (by norm_num)]; unfold DBL_MAX; norm_num)
    1 (by decide)
    (by
      intro j hj
      have hj0 : j = 0 := by omega
      rw [hj0, hq]
      exact dipole_seed_continues)
    (by rw [hpt, hq]; exact dipole_stop_entered)
  exact ⟨h.1, h.2.1⟩

end RealEvaluationLine

/-! ## Shape of a traced line -/

namespace FieldLineGenerator

variable {F : Type} [LinearOrderedField F] (sqrt : F → F) (toFloat : F → F)

theorem tracePoints_length (particles : List (Particle F)) (config : FieldLineConfig F)
    (traceForward : Bool) :
    ∀ (m : Nat) (pos : Vec3 F),
      (tracePoints sqrt particles config traceForward m pos).length = m := by
  intro m
  induction m with
  | zero => intro pos; rfl
  | succ m ih => intro pos; simp [tracePoints, ih]

theorem tracePoints_get (particles : List (Particle F)) (config : FieldLineConfig F)
    (traceForward : Bool) :
    ∀ (m : Nat) (pos : Vec3 F) (j : Nat), j < m →
      (tracePoints sqrt particles config traceForward m pos)[j]?
        = some (tracePoint sqrt particles config traceForward j pos) := by
  intro m
  induction m with
  | zero => intro pos j hj; omega
  | succ m ih =>
    intro pos j hj
    cases j with
    | zero => simp [tracePoints, tracePoint]
    | succ j =>
      simp only [tracePoints, tracePoint, List.getElem?_cons_succ]
      exact ih _ j (by omega)

theorem tracePoint_succ (particles : List (Particle F)) (config : FieldLineConfig F)
    (traceForward : Bool) :
    ∀ (j : Nat) (pos : Vec3 F),
      tracePoint sqrt particles config traceForward (j + 1) pos
        = traceStep sqrt particles config traceForward
            (tracePoint sqrt particles config traceForward j pos) := by
  intro j
  induction j with
  | zero => intro pos; rfl
  | succ j ih =>
    intro pos
    rw [tracePoint, ih]
    rfl

/-- The loop stops at the first position of the trace where a termination
condition fires, or after `n` iterations. -/
theorem generateLoop_shape (particles : List (Particle F)) (config : FieldLineConfig F)
    (traceForward : Bool) :
    ∀ (n : Nat) (pos : Vec3 F) (line : FieldLine F),
      ∃ m, m ≤ n
        ∧ (∀ j, j < m → traceContinues sqrt particles config line.sourceCharge
            (tracePoint sqrt particles config traceForward j pos))
        ∧ (m < n → ¬ traceContinues sqrt particles config line.sourceCharge
            (tracePoint sqrt particles config traceForward m pos))
        ∧ generateLoop sqrt toFloat particles config traceForward n pos line
          = { line with
              points := line.points ++ tracePoints sqrt particles config traceForward m pos
              fieldMagnitudes :=
                line.fieldMagnitudes
                  ++ (tracePoints sqrt particles config traceForward m pos).map
                      (fun x => toFloat (Vec3.length sqrt (ElectricField.totalField sqrt x particles)))
              isComplete := if m < n then true else line.isComplete } := by
  intro n
  induction n with
  | zero =>
    intro pos line
    refine ⟨0, le_refl 0, fun j hj => absurd hj (Nat.not_lt_zero j),
      fun h => absurd h (Nat.lt_irrefl 0), ?_⟩
    simp [generateLoop, tracePoints]
  | succ n ih =>
    intro pos line
    by_cases hc : traceContinues sqrt particles config line.sourceCharge pos
    · obtain ⟨m, hm, hrun, hstop, heq⟩ :=
        ih (traceStep sqrt particles config traceForward pos)
          { line with
            points := line.points ++ [pos]
            fieldMagnitudes :=
              line.fieldMagnitudes
                ++ [toFloat (Vec3.length sqrt (ElectricField.totalField sqrt pos particles))] }
      refine ⟨m + 1, Nat.succ_le_succ hm, ?_, ?_, ?_⟩
      · intro j hj
        cases j with
        | zero => exact hc
        | succ j => exact hrun j (by omega)
      · intro hlt
        exact hstop (by omega)
      · rw [generateLoop_continue sqrt toFloat particles config traceForward n pos line hc, heq]
        by_cases hmn : m < n
        · have h1 : m + 1 < n + 1 := by omega
          simp [tracePoints, hmn, h1]
        · have h1 : ¬ m + 1 < n + 1 := by omega
          simp [tracePoints, hmn, h1]
    · refine ⟨0, Nat.zero_le _, fun j hj => absurd hj (Nat.not_lt_zero j), fun _ => hc, ?_⟩
      rw [generateLoop_stop sqrt toFloat particles config traceForward n pos line hc]
      simp [tracePoints]

end FieldLineGenerator

namespace FieldLineGenerator

variable {F : Type} [LinearOrderedField F] (sqrt : F → F) (toFloat : F → F)

/-- The line returned by `generate`: the positions of the trace up to the
first one where a termination condition fires, at most `maxStepsPerLine` of
them. -/
theorem generate_shape (seed : Vec3 F) (particles : List (Particle F))
    (config : FieldLineConfig F) (traceForward : Bool) (sc : F)
    (hsc : (if particles.isEmpty then 0
        else (sourceChargeLoop sqrt seed particles (DBL_MAX, 0)).2) = sc) :
    ∃ m, m ≤ config.maxStepsPerLine.toNat
      ∧ (∀ j, j < m → traceContinues sqrt particles config sc
          (tracePoint sqrt particles config traceForward j seed))
      ∧ (m < config.maxStepsPerLine.toNat → ¬ traceContinues sqrt particles config sc
          (tracePoint sqrt particles config traceForward m seed))
      ∧ generate sqrt toFloat seed particles config traceForward
        = { points := tracePoints sqrt particles config traceForward m seed
            fieldMagnitudes :=
              (tracePoints sqrt particles config traceForward m seed).map
                (fun x => toFloat (Vec3.length sqrt (ElectricField.totalField sqrt x particles)))
            sourceCharge := sc
            isComplete :=
              decide (m < config.maxStepsPerLine.toNat)
                || decide (toSizeT config.maxStepsPerLine ≤ m)
            isForward := traceForward } := by
  obtain ⟨m, hm, hrun, hstop, heq⟩ :=
    generateLoop_shape sqrt toFloat particles config traceForward config.maxStepsPerLine.toNat seed
      { points := []
        fieldMagnitudes := []
        sourceCharge := sc
        isComplete := false
        isForward := traceForward }
  refine ⟨m, hm, hrun, hstop, ?_⟩
  unfold generate
  dsimp only
  rw [hsc, heq]
  have hlen := tracePoints_length sqrt particles config traceForward m seed
  by_cases h1 : m < config.maxStepsPerLine.toNat
  · simp [h1]
  · by_cases h2 : toSizeT config.maxStepsPerLine ≤ m
    · simp [h1, h2, hlen]
    · simp [h1, h2, hlen]

theorem toSizeT_le_toNat (n : Int) (hn : 0 ≤ n) : toSizeT n ≤ n.toNat := by
  unfold toSizeT
  omega

/-- C22: for every seed, particle list and configuration with
`maxStepsPerLine >= 0` the returned line has `isComplete = true` and its
`isForward` flag is the `traceForward` argument; its points are the first `m`
positions of the trace, where either `m < maxStepsPerLine` and a termination
condition fired at the next position, or `m = maxStepsPerLine`. -/
theorem C22_generate_complete (seed : Vec3 F) (particles : List (Particle F))
    (config : FieldLineConfig F) (traceForward : Bool) (hmax : 0 ≤ config.maxStepsPerLine) :
    (generate sqrt toFloat seed particles config traceForward).isComplete = true
      ∧ (generate sqrt toFloat seed particles config traceForward).isForward = traceForward
      ∧ ∃ m : Nat,
          (generate sqrt toFloat seed particles config traceForward).points
            = tracePoints sqrt particles config traceForward m seed
          ∧ (((m : Int) < config.maxStepsPerLine
              ∧ ¬ traceContinues sqrt particles config
                  (generate sqrt toFloat seed particles config traceForward).sourceCharge
                  (tracePoint sqrt particles config traceForward m seed))
            ∨ (m : Int) = config.maxStepsPerLine) := by
  obtain ⟨m, hm, _, hstop, heq⟩ :=
    generate_shape sqrt toFloat seed particles config traceForward _ rfl
  have hsz := toSizeT_le_toNat config.maxStepsPerLine hmax
  rw [heq]
  refine ⟨?_, rfl, m, rfl, ?_⟩
  · by_cases h1 : m < config.maxStepsPerLine.toNat
    · simp [h1]
    · have h2 : toSizeT config.maxStepsPerLine ≤ m := by omega
      simp [h2]
  · by_cases h1 : m < config.maxStepsPerLine.toNat
    · exact Or.inl ⟨by omega, hstop h1⟩
    · exact Or.inr (by omega)

end FieldLineGenerator

/-! ## Length of a tracer step -/

namespace Vec3

variable {F : Type} [LinearOrderedField F] {sqrt : F → F}

theorem dot_mul_self_le (a b : Vec3 F) : dot a b * dot a b ≤ dot a a * dot b b := by
  unfold dot
  nlinarith [mul_self_nonneg (a.x * b.y - a.y * b.x), mul_self_nonneg (a.x * b.z - a.z * b.x),
    mul_self_nonneg (a.y * b.z - a.z * b.y)]

theorem dot_le_length_mul (hs : SqrtSpec sqrt) (a b : Vec3 F) :
    dot a b ≤ length sqrt a * length sqrt b := by
  by_contra h
  have h1 : length sqrt a * length sqrt b < dot a b := not_le.mp h
  have h0 : 0 ≤ length sqrt a * length sqrt b :=
    mul_nonneg (length_nonneg hs a) (length_nonneg hs b)
  have h2 := mul_self_lt_mul_self h0 h1
  have h3 : length sqrt a * length sqrt b * (length sqrt a * length sqrt b)
      = dot a a * dot b b := by
    rw [mul_mul_mul_comm, length_mul_self hs, length_mul_self hs]
  rw [h3] at h2
  exact absurd (dot_mul_self_le a b) (not_le.mpr h2)

theorem dot_add_self (a b : Vec3 F) :
    dot (a + b) (a + b) = dot a a + 2 * dot a b + dot b b := by
  simp only [dot, add_x, add_y, add_z]
  ring

/-- The triangle inequality for `glm::length`. -/
theorem length_add_le (hs : SqrtSpec sqrt) (a b : Vec3 F) :
    length sqrt (a + b) ≤ length sqrt a + length sqrt b := by
  by_contra h
  have h1 : length sqrt a + length sqrt b < length sqrt (a + b) := not_le.mp h
  have h0 : 0 ≤ length sqrt a + length sqrt b :=
    add_nonneg (length_nonneg hs a) (length_nonneg hs b)
  have h2 := mul_self_lt_mul_self h0 h1
  rw [length_mul_self hs, dot_add_self] at h2
  have h3 := dot_le_length_mul hs a b
  have h4 := length_mul_self hs a
  have h5 := length_mul_self hs b
  nlinarith

theorem add_sub_cancel_vec (a b : Vec3 F) : a + b - a = b := by
  ext <;> simp

/-- The displacement of a four-stage step of size `H` with unit stage
directions is at most `H` long. -/
theorem length_rk4_le (hs : SqrtSpec sqrt) (H : F) (hH : 0 ≤ H) (pos k1 k2 k3 k4 : Vec3 F)
    (h1 : length sqrt k1 = 1) (h2 : length sqrt k2 = 1) (h3 : length sqrt k3 = 1)
    (h4 : length sqrt k4 = 1) :
    length sqrt (pos + (H / 6.0) * (k1 + (2.0 : F) * k2 + (2.0 : F) * k3 + k4) - pos) ≤ H := by
  rw [add_sub_cancel_vec, length_smul hs]
  have e2 : length sqrt ((2.0 : F) * k2) = 2 := by
    rw [length_smul hs, h2]
    norm_num
  have e3 : length sqrt ((2.0 : F) * k3) = 2 := by
    rw [length_smul hs, h3]
    norm_num
  have t1 := length_add_le hs (k1 + (2.0 : F) * k2 + (2.0 : F) * k3) k4
  have t2 := length_add_le hs (k1 + (2.0 : F) * k2) ((2.0 : F) * k3)
  have t3 := length_add_le hs k1 ((2.0 : F) * k2)
  have hsum : length sqrt (k1 + (2.0 : F) * k2 + (2.0 : F) * k3 + k4) ≤ 6 := by
    linarith
  have hsix : |H / 6.0| = H / 6 := by
    rw [abs_of_nonneg (div_nonneg hH (by norm_num))]
    norm_num
  rw [hsix]
  have hH6 : 0 ≤ H / 6 := div_nonneg hH (by norm_num)
  calc H / 6 * length sqrt (k1 + (2.0 : F) * k2 + (2.0 : F) * k3 + k4)
      ≤ H / 6 * 6 := mul_le_mul_of_nonneg_left hsum hH6
    _ = H := by ring

end Vec3

namespace FieldLineGenerator

variable {F : Type} [LinearOrderedField F] (sqrt : F → F) (toFloat : F → F)

/-- `ElectricField::direction` returns the zero vector or a unit vector. -/
theorem direction_length (hs : SqrtSpec sqrt) (x : Vec3 F) (particles : List (Particle F)) :
    Vec3.length sqrt (ElectricField.direction sqrt x particles) = 0
      ∨ Vec3.length sqrt (ElectricField.direction sqrt x particles) = 1 := by
  unfold ElectricField.direction
  dsimp only
  by_cases h : Vec3.length sqrt (ElectricField.totalField sqrt x particles) < 1e-20
  · rw [if_pos h]
    exact Or.inl (Vec3.length_zero hs)
  · rw [if_neg h]
    refine Or.inr (Vec3.length_normalize hs _ (lt_of_lt_of_le ?_ (not_lt.mp h)))
    norm_num

/-- A stage direction of the step, after the fallback to the previous stage
and the sign flip of a backward trace, has length one. -/
theorem stage_length (hs : SqrtSpec sqrt) (x : Vec3 F) (particles : List (Particle F))
    (traceForward : Bool) (prev : Vec3 F) (hprev : Vec3.length sqrt prev = 1) :
    Vec3.length sqrt
        (if traceForward then
          (if Vec3.length sqrt (ElectricField.direction sqrt x particles) < 1e-10 then prev
            else ElectricField.direction sqrt x particles)
        else
          -(if Vec3.length sqrt (ElectricField.direction sqrt x particles) < 1e-10 then prev
            else ElectricField.direction sqrt x particles)) = 1 := by
  have hk : Vec3.length sqrt
      (if Vec3.length sqrt (ElectricField.direction sqrt x particles) < 1e-10 then prev
        else ElectricField.direction sqrt x particles) = 1 := by
    rcases direction_length sqrt hs x particles with h0 | h1
    · rw [if_pos (by rw [h0]; norm_num)]
      exact hprev
    · rw [if_neg (by rw [h1]; norm_num)]
      exact h1
  cases traceForward
  · simp only [Bool.false_eq_true, if_false]
    rw [Vec3.length_neg hs]
    exact hk
  · simp only [if_true]
    exact hk

theorem estimateCurvature_nonneg (hs : SqrtSpec sqrt) (pos dir : Vec3 F)
    (particles : List (Particle F)) : 0 ≤ estimateCurvature sqrt pos dir particles := by
  unfold estimateCurvature
  dsimp only
  split_ifs
  · exact le_refl 0
  · exact div_nonneg (Vec3.length_nonneg hs _) (by norm_num)

/-- The step of one iteration is at most `stepSize` long when the field at the
position is not zero. -/
theorem rk4Advance_close (hs : SqrtSpec sqrt) (particles : List (Particle F))
    (config : FieldLineConfig F) (traceForward : Bool) (pos E : Vec3 F)
    (hE : 0 < Vec3.length sqrt E) (hstep : 0 < config.stepSize)
    (hfactor : 0 ≤ config.adaptiveStepFactor) :
    Vec3.length sqrt (rk4Advance sqrt particles config traceForward pos E - pos)
      ≤ config.stepSize := by
  have hdir : Vec3.length sqrt
      (if traceForward then Vec3.normalize sqrt E else -Vec3.normalize sqrt E) = 1 := by
    cases traceForward
    · simp only [Bool.false_eq_true, if_false]
      rw [Vec3.length_neg hs]
      exact Vec3.length_normalize hs E hE
    · simp only [if_true]
      exact Vec3.length_normalize hs E hE
  have hH : ∀ c : F, 0 ≤ c →
      0 ≤ (if config.useAdaptiveStep then
            config.stepSize / (1.0 + c * config.adaptiveStepFactor)
          else config.stepSize)
      ∧ (if config.useAdaptiveStep then
            config.stepSize / (1.0 + c * config.adaptiveStepFactor)
          else config.stepSize) ≤ config.stepSize := by
    intro c hc
    have hden : (1 : F) ≤ 1.0 + c * config.adaptiveStepFactor := by
      have := mul_nonneg hc hfactor
      norm_num
      linarith
    cases config.useAdaptiveStep
    · simp only [Bool.false_eq_true, if_false]
      exact ⟨le_of_lt hstep, le_refl _⟩
    · simp only [if_true]
      exact ⟨div_nonneg (le_of_lt hstep) (by linarith),
        div_le_self (le_of_lt hstep) hden⟩
  unfold rk4Advance
  dsimp only
  have hc := hH _ (estimateCurvature_nonneg sqrt hs pos
    (if traceForward then Vec3.normalize sqrt E else -Vec3.normalize sqrt E) particles)
  refine le_trans (Vec3.length_rk4_le hs _ hc.1 _ _ _ _ _ hdir ?_ ?_ ?_) hc.2
  · exact stage_length sqrt hs _ particles traceForward _ hdir
  · exact stage_length sqrt hs _ particles traceForward _
      (stage_length sqrt hs _ particles traceForward _ hdir)
  · exact stage_length sqrt hs _ particles traceForward _
      (stage_length sqrt hs _ particles traceForward _
        (stage_length sqrt hs _ particles traceForward _ hdir))

/-- C29: for every configuration with `stepSize > 0`, `adaptiveStepFactor >= 0`
and `minFieldMagnitude > 0`, with adaptive stepping on or off and for both
trace directions, any two consecutive points of the line returned by
`generate` are at distance at most `stepSize` from each other. -/
theorem C29_consecutive_points_close (hs : SqrtSpec sqrt) (seed : Vec3 F)
    (particles : List (Particle F)) (config : FieldLineConfig F) (traceForward : Bool)
    (hstep : 0 < config.stepSize) (hfactor : 0 ≤ config.adaptiveStepFactor)
    (hmin : 0 < config.minFieldMagnitude) (j : Nat) (x y : Vec3 F)
    (hx : (generate sqrt toFloat seed particles config traceForward).points[j]? = some x)
    (hy : (generate sqrt toFloat seed particles config traceForward).points[j + 1]? = some y) :
    Vec3.length sqrt (y - x) ≤ config.stepSize := by
  obtain ⟨m, _, hrun, _, heq⟩ :=
    generate_shape sqrt toFloat seed particles config traceForward _ rfl
  rw [heq] at hx hy
  have hlen := tracePoints_length sqrt particles config traceForward m seed
  have hj : j + 1 < m := by
    by_contra hge
    have hnone : (tracePoints sqrt particles config traceForward m seed)[j + 1]? = none :=
      List.getElem?_eq_none (by omega)
    exact absurd (hnone.symm.trans hy) (by simp)
  have ex : x = tracePoint sqrt particles config traceForward j seed := by
    have h := tracePoints_get sqrt particles config traceForward m seed j (by omega)
    exact (Option.some.inj (h.symm.trans hx)).symm
  have ey : y = tracePoint sqrt particles config traceForward (j + 1) seed := by
    have h := tracePoints_get sqrt particles config traceForward m seed (j + 1) hj
    exact (Option.some.inj (h.symm.trans hy)).symm
  have hcont := hrun j (by omega)
  rw [ey, ex, tracePoint_succ]
  unfold traceStep
  exact rk4Advance_close sqrt hs particles config traceForward _ _
    (lt_of_lt_of_le hmin (not_lt.mp hcont.1)) hstep hfactor

end FieldLineGenerator

namespace FieldLineGenerator

variable {F : Type} [LinearOrderedField F] (sqrt : F → F) (toFloat : F → F)

/-- The `j`-th recorded point of a line whose trace meets no termination
condition up to its `j`-th position. -/
theorem generate_points_get (seed : Vec3 F) (particles : List (Particle F))
    (config : FieldLineConfig F) (traceForward : Bool) (sc : F)
    (hsc : (if particles.isEmpty then 0
        else (sourceChargeLoop sqrt seed particles (DBL_MAX, 0)).2) = sc)
    (j : Nat) (hj : (j : Int) < config.maxStepsPerLine)
    (hrun : ∀ i, i ≤ j → traceContinues sqrt particles config sc
      (tracePoint sqrt particles config traceForward i seed)) :
    (generate sqrt toFloat seed particles config traceForward).points[j]?
      = some (tracePoint sqrt particles config traceForward j seed) := by
  obtain ⟨m, _, _, hstop, heq⟩ :=
    generate_shape sqrt toFloat seed particles config traceForward sc hsc
  rw [heq]
  have hjm : j < m := by
    by_contra hge
    exact hstop (by omega) (hrun m (by omega))
  exact tracePoints_get sqrt particles config traceForward m seed j hjm

end FieldLineGenerator

section RealEvaluationTrace

/-- On the axis of the example dipole, between the two footprints, no
termination condition fires. -/
theorem dipole_axis_continues (x : ℝ) (h0 : 1 / 5 ≤ x) (h1 : x ≤ 4 / 5) :
    traceContinues Real.sqrt exampleDipole exampleCoarseConfig (1 : ℝ) ⟨x, 0, 0⟩ := by
  have hmin : (PhysicsConstants.MIN_SAFE_DISTANCE : ℝ) ≤ x := by
    unfold PhysicsConstants.MIN_SAFE_DISTANCE
    norm_num
    linarith
  have hmin2 : (PhysicsConstants.MIN_SAFE_DISTANCE : ℝ) ≤ 1 - x := by
    unfold PhysicsConstants.MIN_SAFE_DISTANCE
    norm_num
    linarith
  have hE := dipole_field_large x (by linarith) (by linarith)
  have hk := coulomb_k_large
  refine ⟨?_, ?_, ?_⟩
  · rw [dipole_field_axis _ hmin hmin2, length_real_x _ (by linarith)]
    show ¬ _ < (1e-6 : ℝ)
    intro hlt
    norm_num at hlt
    linarith
  · rw [length_real_x _ (by linarith)]
    show ¬ x > 100.0
    norm_num
    linarith
  · unfold exampleDipole
    rw [FieldLineGenerator.enteredOppositeCharge_pair, dipole_dist_plus _ (by linarith),
      dipole_dist_minus _ (by linarith)]
    have r1 : (exampleCharge (0 : ℝ) 1).visualRadius = 2 / 5 := rfl
    have r2 : (exampleCharge (1 : ℝ) (-1)).visualRadius = 2 / 5 := rfl
    rw [r1, r2, if_neg (by norm_num; linarith), if_neg (by norm_num; linarith)]

/-- The first two recorded points of the line traced in the example dipole
from the seed `(1/5,0,0)`. -/
theorem dipole_two_points :
    (FieldLineGenerator.generate Real.sqrt floatCast (⟨1 / 5, 0, 0⟩ : Vec3 ℝ) exampleDipole
        exampleCoarseConfig true).points[0]? = some ⟨1 / 5, 0, 0⟩
    ∧ (FieldLineGenerator.generate Real.sqrt floatCast (⟨1 / 5, 0, 0⟩ : Vec3 ℝ) exampleDipole
        exampleCoarseConfig true).points[0 + 1]? = some ⟨7 / 10, 0, 0⟩ := by
  have hsrc := FieldLineGenerator.sourceCharge_near_positive Real.sqrt (exampleCharge (0 : ℝ) 1)
    (exampleCharge 1 (-1)) exampleDipole (Or.inl rfl) ⟨1 / 5, 0, 0⟩
    (by rw [dipole_dist_plus _ (by norm_num), dipole_dist_minus _ (by norm_num)]; norm_num)
    (by rw [dipole_dist_plus _ (by norm_num)]; unfold DBL_MAX; norm_num)
  have hq : (exampleCharge (0 : ℝ) 1).charge = 1 := rfl
  rw [hq] at hsrc
  have hstep : traceStep Real.sqrt exampleDipole exampleCoarseConfig true
      (⟨1 / 5, 0, 0⟩ : Vec3 ℝ) = ⟨7 / 10, 0, 0⟩ := by
    rw [dipole_traceStep_axis (1 / 5)
      (by unfold PhysicsConstants.MIN_SAFE_DISTANCE; norm_num)
      (by unfold PhysicsConstants.MIN_SAFE_DISTANCE; norm_num)]
    ext <;> norm_num
  have hp1 : tracePoint Real.sqrt exampleDipole exampleCoarseConfig true 1
      (⟨1 / 5, 0, 0⟩ : Vec3 ℝ) = ⟨7 / 10, 0, 0⟩ := hstep
  have hrun : ∀ i, i ≤ 1 → traceContinues Real.sqrt exampleDipole exampleCoarseConfig (1 : ℝ)
      (tracePoint Real.sqrt exampleDipole exampleCoarseConfig true i ⟨1 / 5, 0, 0⟩) := by
    intro i hi
    have hi01 : i = 0 ∨ i = 1 := by omega
    rcases hi01 with hi0 | hi1
    · rw [hi0]
      exact dipole_axis_continues (1 / 5) (by norm_num) (by norm_num)
    · rw [hi1, hp1]
      exact dipole_axis_continues (7 / 10) (by norm_num) (by norm_num)
  have g0 := FieldLineGenerator.generate_points_get Real.sqrt floatCast (⟨1 / 5, 0, 0⟩ : Vec3 ℝ)
    exampleDipole exampleCoarseConfig true 1 hsrc 0 (by decide)
    (fun i hi => hrun i (by omega))
  have g1 := FieldLineGenerator.generate_points_get Real.sqrt floatCast (⟨1 / 5, 0, 0⟩ : Vec3 ℝ)
    exampleDipole exampleCoarseConfig true 1 hsrc 1 (by decide) hrun
  rw [hp1] at g1
  exact ⟨g0, g1⟩

theorem C22_generate_complete_witness :
    (FieldLineGenerator.generate Real.sqrt floatCast (⟨1 / 5, 0, 0⟩ : Vec3 ℝ) exampleDipole
        exampleCoarseConfig true).isComplete = true
    ∧ (FieldLineGenerator.generate Real.sqrt floatCast (⟨1 / 5, 0, 0⟩ : Vec3 ℝ) exampleDipole
        exampleCoarseConfig true).isForward = true :=
  ⟨(FieldLineGenerator.C22_generate_complete Real.sqrt floatCast (⟨1 / 5, 0, 0⟩ : Vec3 ℝ) exampleDipole
      exampleCoarseConfig true (by decide)).1,
    (FieldLineGenerator.C22_generate_complete Real.sqrt floatCast (⟨1 / 5, 0, 0⟩ : Vec3 ℝ) exampleDipole
      exampleCoarseConfig true (by decide)).2.1⟩

theorem C29_consecutive_points_close_witness :
    Vec3.length Real.sqrt ((⟨7 / 10, 0, 0⟩ : Vec3 ℝ) - ⟨1 / 5, 0, 0⟩)
      ≤ (exampleCoarseConfig : FieldLineConfig ℝ).stepSize :=
  FieldLineGenerator.C29_consecutive_points_close Real.sqrt floatCast realSqrtSpec
    (⟨1 / 5, 0, 0⟩ : Vec3 ℝ) exampleDipole exampleCoarseConfig true
    (by show (0 : ℝ) < 1 / 2; norm_num)
    (by show (0 : ℝ) ≤ 10.0; norm_num)
    (by show (0 : ℝ) < 1e-6; norm_num)
    0 ⟨1 / 5, 0, 0⟩ ⟨7 / 10, 0, 0⟩ dipole_two_points.1 dipole_two_points.2

end RealEvaluationTrace

/-! ## Drag controller: the fallback projection and short drags -/

namespace DragController

variable {F : Type} [LinearOrderedField F] (sqrt : F → F)

/-- The fallback branch of `rayPlaneIntersect`, taken for a ray nearly
parallel to the plane. -/
theorem rayPlaneIntersect_fallback (dc : DragController F) (ps : List (Particle F))
    (ray : Ray F) (planePoint planeNormal : Vec3 F) (i : Nat) (p : Particle F)
    (hptr : dc.m_particle = some i) (hget : ps[i]? = some p)
    (hden : |Vec3.dot ray.direction planeNormal| < 1e-10) :
    rayPlaneIntersect dc ps ray planePoint planeNormal
      = some (ray.origin
          + ray.direction * ((p.position.y - ray.origin.y) / ray.direction.y)) := by
  unfold rayPlaneIntersect
  simp only [if_pos hden, hptr, hget]

/-- With a non-zero divisor the fallback point lies at the height of the
particle. -/
theorem fallback_height (ray : Ray F) (p : Particle F) (hy : ray.direction.y ≠ 0) :
    (ray.origin + ray.direction * ((p.position.y - ray.origin.y) / ray.direction.y)).y
      = p.position.y := by
  simp only [Vec3.add_y, Vec3.muls_y]
  field_simp

theorem beginDrag_get (i : Nat) (hit cam : Vec3 F) (w : DragController F × List (Particle F))
    (p : Particle F) (hget : w.2[i]? = some p) :
    (beginDrag sqrt i hit cam w).2[i]? = some { p with isBeingDragged := true } := by
  unfold beginDrag
  exact writeParticle_get i _ w.2 p hget

/-- The particle after `endDrag` with fewer than two history samples. -/
theorem endDrag_short (dc : DragController F) (ps : List (Particle F)) (i : Nat)
    (p : Particle F) (hstate : dc.m_state = DragState.DRAGGING)
    (hptr : dc.m_particle = some i) (hget : ps[i]? = some p)
    (hshort : dc.m_positionHistory.length < 2) :
    (endDrag sqrt (dc, ps)).2[i]? = some { p with isBeingDragged := false } := by
  rw [endDrag_dragging sqrt dc ps i hstate hptr, if_neg (by omega)]
  exact writeParticle_get i _ ps p hget

/-- C30: when `endDrag` is called in the Dragging state with fewer than two
history samples it changes of the dragged particle only the `isBeingDragged`
flag, so the particle keeps the velocity it had just before the call; in a
drag started by `beginDrag` from any state `w0` that velocity is zero after
one successful `updateDrag`, and is the velocity the particle had in `w0`
when `endDrag` follows `beginDrag` directly. -/
theorem C30_endDrag_short_history_keeps_velocity (dc : DragController F)
    (ps : List (Particle F)) (i : Nat) (p : Particle F)
    (hstate : dc.m_state = DragState.DRAGGING) (hptr : dc.m_particle = some i)
    (hget : ps[i]? = some p) (hshort : dc.m_positionHistory.length < 2)
    (w0 : DragController F × List (Particle F)) (p0 : Particle F)
    (hget0 : w0.2[i]? = some p0) :
    (endDrag sqrt (dc, ps)).2[i]? = some { p with isBeingDragged := false }
      ∧ (∀ (hit cam : Vec3 F) (ray : Ray F) (now : F) (x : Vec3 F),
          rayPlaneIntersect (beginDrag sqrt i hit cam w0).1 (beginDrag sqrt i hit cam w0).2 ray
              (beginDrag sqrt i hit cam w0).1.m_dragPlanePoint
              (beginDrag sqrt i hit cam w0).1.m_dragPlaneNormal = some x →
          (endDrag sqrt (updateDrag ray now (beginDrag sqrt i hit cam w0))).2[i]?
            = some { p0 with position := x, velocity := 0, isBeingDragged := false })
      ∧ (∀ (hit cam : Vec3 F),
          (endDrag sqrt (beginDrag sqrt i hit cam w0)).2[i]?
            = some { p0 with isBeingDragged := false }) := by
  refine ⟨endDrag_short sqrt dc ps i p hstate hptr hget hshort, ?_, ?_⟩
  · intro hit cam ray now x hx
    have hb := beginDrag_get sqrt i hit cam w0 p0 hget0
    have hu := updateDrag_dragging ray now (beginDrag sqrt i hit cam w0).1
      (beginDrag sqrt i hit cam w0).2 i rfl rfl x hx
    have hu2 : updateDrag ray now (beginDrag sqrt i hit cam w0) = _ := hu
    rw [hu2]
    have hg := writeParticle_get i (fun q : Particle F => { q with position := x, velocity := 0 })
      (beginDrag sqrt i hit cam w0).2 _ hb
    exact endDrag_short sqrt _ _ i _ rfl rfl hg (by
      show (pushHistory [] _).length < 2
      rw [pushHistory_short _ _ (by simp)]
      simp)
  · intro hit cam
    have hb := beginDrag_get sqrt i hit cam w0 p0 hget0
    exact endDrag_short sqrt (beginDrag sqrt i hit cam w0).1
      (beginDrag sqrt i hit cam w0).2 i { p0 with isBeingDragged := true } rfl rfl hb (by
        show ([] : List (MotionPoint F)).length < 2
        simp)

end DragController

section RealEvaluationFallback

/-- C28 fails on the code: in the drag of `exampleDragStart`, whose plane has
the normal `(1,0,0)`, the horizontal ray from the origin along the z axis is
parallel to the plane, so `rayPlaneIntersect` takes the fallback branch, and
the divisor `rayDir.y` of that branch is zero. -/
theorem C28_fallback_divides_by_zero :
    (exampleDragStart Real.sqrt).1.m_state = DragState.DRAGGING
    ∧ |Vec3.dot (exampleHorizontalRay : Ray ℝ).direction
        (exampleDragStart Real.sqrt).1.m_dragPlaneNormal| < 1e-10
    ∧ (exampleHorizontalRay : Ray ℝ).direction.y = 0
    ∧ DragController.rayPlaneIntersect (exampleDragStart Real.sqrt).1
        (exampleDragStart Real.sqrt).2 exampleHorizontalRay
        (exampleDragStart Real.sqrt).1.m_dragPlanePoint
        (exampleDragStart Real.sqrt).1.m_dragPlaneNormal
      = some ((exampleHorizontalRay : Ray ℝ).origin
          + (exampleHorizontalRay : Ray ℝ).direction
            * (((exampleCustom (5 : ℝ) PhysicsConstants.e PhysicsConstants.m_p).position.y
                - (exampleHorizontalRay : Ray ℝ).origin.y)
              / (exampleHorizontalRay : Ray ℝ).direction.y)) := by
  have hd : |Vec3.dot (exampleHorizontalRay : Ray ℝ).direction
      (exampleDragStart Real.sqrt).1.m_dragPlaneNormal| < 1e-10 := by
    rw [exampleDragStart_normal]
    simp only [exampleHorizontalRay, Vec3.dot]
    norm_num
  refine ⟨rfl, hd, rfl, ?_⟩
  exact DragController.rayPlaneIntersect_fallback (exampleDragStart Real.sqrt).1
    (exampleDragStart Real.sqrt).2 exampleHorizontalRay _ _ 0
    { exampleCustom (5 : ℝ) PhysicsConstants.e PhysicsConstants.m_p with
      isBeingDragged := true } rfl rfl hd

theorem C30_endDrag_short_history_keeps_velocity_witness :
    (DragController.endDrag Real.sqrt (exampleDragStart Real.sqrt)).2[0]?
      = some { exampleCustom (5 : ℝ) PhysicsConstants.e PhysicsConstants.m_p with
          isBeingDragged := false } :=
  (DragController.C30_endDrag_short_history_keeps_velocity Real.sqrt
    (exampleDragStart Real.sqrt).1 (exampleDragStart Real.sqrt).2 0
    { exampleCustom (5 : ℝ) PhysicsConstants.e PhysicsConstants.m_p with
      isBeingDragged := true }
    rfl rfl rfl (Nat.zero_lt_two)
    (DragController.init, [exampleCustom (5 : ℝ) PhysicsConstants.e PhysicsConstants.m_p])
    (exampleCustom (5 : ℝ) PhysicsConstants.e PhysicsConstants.m_p) rfl).1

end RealEvaluationFallback

/-! ## The opposite-charge condition -/

namespace FieldLineGenerator

variable {F : Type} [LinearOrderedField F] (sqrt : F → F)

/-- The loop of `isInsideParticle` finds the first listed particle whose
footprint contains the point. -/
theorem isInsideParticleFrom_find (point : Vec3 F) :
    ∀ (ps : List (Particle F)) (i : Nat),
      match ps.find? (fun p => decide (Vec3.length sqrt (point - p.position)
          < p.visualRadius * 0.5)) with
      | none => isInsideParticleFrom sqrt point ps i = (false, -1)
      | some p => ∃ k, ps[k]? = some p
          ∧ isInsideParticleFrom sqrt point ps i = (true, ((i + k : Nat) : Int)) := by
  intro ps
  induction ps with
  | nil =>
    intro i
    simp [isInsideParticleFrom]
  | cons q qs ih =>
    intro i
    by_cases hq : Vec3.length sqrt (point - q.position) < q.visualRadius * 0.5
    · have hf : (q :: qs).find? (fun p => decide (Vec3.length sqrt (point - p.position)
          < p.visualRadius * 0.5)) = some q := by
        simp [List.find?, hq]
      rw [hf]
      refine ⟨0, by simp, ?_⟩
      simp [isInsideParticleFrom, hq]
    · have hf : (q :: qs).find? (fun p => decide (Vec3.length sqrt (point - p.position)
          < p.visualRadius * 0.5))
          = qs.find? (fun p => decide (Vec3.length sqrt (point - p.position)
            < p.visualRadius * 0.5)) := by
        simp [List.find?, hq]
      rw [hf]
      have h := ih (i + 1)
      have hstep : isInsideParticleFrom sqrt point (q :: qs) i
          = isInsideParticleFrom sqrt point qs (i + 1) := by
        simp [isInsideParticleFrom, hq]
      rw [hstep]
      cases hfind : qs.find? (fun p => decide (Vec3.length sqrt (point - p.position)
          < p.visualRadius * 0.5)) with
      | none =>
        rw [hfind] at h
        exact h
      | some p =>
        rw [hfind] at h
        obtain ⟨k, hk, he⟩ := h
        refine ⟨k + 1, by simpa using hk, ?_⟩
        rw [he]
        have e : i + 1 + k = i + (k + 1) := by omega
        rw [e]

/-- Termination condition 3 looks at one particle only: the first listed one
whose footprint contains the point. -/
theorem enteredOppositeCharge_find (sc : F) (pos : Vec3 F) (ps : List (Particle F)) :
    enteredOppositeCharge sqrt sc pos ps
      = match ps.find? (fun p => decide (Vec3.length sqrt (pos - p.position)
          < p.visualRadius * 0.5)) with
        | none => false
        | some p =>
          decide ((if sc > 0 then (1 : Int) else -1) ≠ (if p.charge > 0 then (1 : Int) else -1)) := by
  have h := isInsideParticleFrom_find sqrt pos ps 0
  unfold enteredOppositeCharge isInsideParticle
  cases hfind : ps.find? (fun p => decide (Vec3.length sqrt (pos - p.position)
      < p.visualRadius * 0.5)) with
  | none =>
    rw [hfind] at h
    simp [h]
  | some p =>
    rw [hfind] at h
    obtain ⟨k, hk, he⟩ := h
    have hlt : k < ps.length := (List.getElem?_eq_some_iff.mp hk).1
    rw [he]
    simp [hk, hlt]

/-- The line does not end at a point when every particle whose footprint
contains the point has the sign of the source charge. -/
theorem enteredOppositeCharge_same_sign (sc : F) (pos : Vec3 F) (ps : List (Particle F))
    (h : ∀ p, p ∈ ps → Vec3.length sqrt (pos - p.position) < p.visualRadius * 0.5 →
      (p.charge > 0 ↔ sc > 0)) :
    enteredOppositeCharge sqrt sc pos ps = false := by
  rw [enteredOppositeCharge_find]
  cases hfind : ps.find? (fun p => decide (Vec3.length sqrt (pos - p.position)
      < p.visualRadius * 0.5)) with
  | none => rfl
  | some p =>
    have hin := List.find?_some hfind
    have hmem := List.mem_of_find?_eq_some hfind
    have hsign := h p hmem (of_decide_eq_true hin)
    by_cases hsc : sc > 0
    · simp [hsc, hsign.mpr hsc]
    · have hp : ¬ p.charge > 0 := fun hp => hsc (hsign.mp hp)
      simp [hsc, hp]

/-- The line ends at a point inside some footprint when every particle whose
footprint contains the point has the sign opposite to the source charge. -/
theorem enteredOppositeCharge_opposite_sign (sc : F) (pos : Vec3 F) (ps : List (Particle F))
    (p0 : Particle F) (hmem0 : p0 ∈ ps)
    (hin0 : Vec3.length sqrt (pos - p0.position) < p0.visualRadius * 0.5)
    (h : ∀ p, p ∈ ps → Vec3.length sqrt (pos - p.position) < p.visualRadius * 0.5 →
      ¬ (p.charge > 0 ↔ sc > 0)) :
    enteredOppositeCharge sqrt sc pos ps = true := by
  rw [enteredOppositeCharge_find]
  cases hfind : ps.find? (fun p => decide (Vec3.length sqrt (pos - p.position)
      < p.visualRadius * 0.5)) with
  | none =>
    have hnone := List.find?_eq_none.mp hfind p0 hmem0
    exact absurd (decide_eq_true hin0) hnone
  | some p =>
    have hin := List.find?_some hfind
    have hmem := List.mem_of_find?_eq_some hfind
    have hsign := h p hmem (of_decide_eq_true hin)
    by_cases hsc : sc > 0
    · have hp : ¬ p.charge > 0 := fun hp => hsign ⟨fun _ => hsc, fun _ => hp⟩
      simp [hsc, hp]
    · have hp : p.charge > 0 := by
        by_contra hp
        exact hsign ⟨fun hp2 => absurd hp2 hp, fun hsc2 => absurd hsc2 hsc⟩
      simp [hsc, hp]

end FieldLineGenerator

section RealEvaluationOverlap

theorem wide_dipole_field (x : Vec3 ℝ) :
    ElectricField.totalField Real.sqrt x exampleWideDipole
      = ElectricField.totalField Real.sqrt x exampleDipole :=
  ParticleSystem.totalField_congr Real.sqrt x exampleWideDipole exampleDipole rfl

/-- In the wide dipole listed with the positive charge first, no termination
condition fires at `(2/5,0,0)`. -/
theorem wide_dipole_continues :
    traceContinues Real.sqrt exampleWideDipole exampleCoarseConfig (1 : ℝ) ⟨2 / 5, 0, 0⟩ := by
  have h := dipole_seed_continues
  refine ⟨?_, h.2.1, ?_⟩
  · rw [wide_dipole_field]
    exact h.1
  · unfold exampleWideDipole
    have e1 : (exampleWideCharge (0 : ℝ) 1).position = (exampleCharge (0 : ℝ) 1).position := rfl
    have r1 : (exampleWideCharge (0 : ℝ) 1).visualRadius = 4 := rfl
    have q1 : (exampleWideCharge (0 : ℝ) 1).charge = 1 := rfl
    rw [FieldLineGenerator.enteredOppositeCharge_pair, e1, dipole_dist_plus _ (by norm_num), r1,
      q1, if_pos (by norm_num)]
    norm_num

/-- In the wide dipole listed with the negative charge first, the
opposite-charge condition fires at `(2/5,0,0)`. -/
theorem wide_dipole_reversed_stops :
    FieldLineGenerator.enteredOppositeCharge Real.sqrt (1 : ℝ) ⟨2 / 5, 0, 0⟩
      [exampleWideCharge (1 : ℝ) (-1), exampleWideCharge 0 1] = true := by
  have e2 : (exampleWideCharge (1 : ℝ) (-1)).position
      = (exampleCharge (1 : ℝ) (-1)).position := rfl
  have r2 : (exampleWideCharge (1 : ℝ) (-1)).visualRadius = 4 := rfl
  have q2 : (exampleWideCharge (1 : ℝ) (-1)).charge = -1 := rfl
  rw [FieldLineGenerator.enteredOppositeCharge_pair, e2, dipole_dist_minus _ (by norm_num), r2,
    q2, if_pos (by norm_num)]
  norm_num

theorem wide_dipole_source (particles : List (Particle ℝ))
    (hscene : particles = [exampleWideCharge 0 1, exampleWideCharge 1 (-1)]
      ∨ particles = [exampleWideCharge 1 (-1), exampleWideCharge 0 1]) :
    (if particles.isEmpty then 0
      else (FieldLineGenerator.sourceChargeLoop Real.sqrt (⟨2 / 5, 0, 0⟩ : Vec3 ℝ) particles
        (DBL_MAX, 0)).2) = 1 := by
  have e1 : (exampleWideCharge (0 : ℝ) 1).position = (exampleCharge (0 : ℝ) 1).position := rfl
  have e2 : (exampleWideCharge (1 : ℝ) (-1)).position
      = (exampleCharge (1 : ℝ) (-1)).position := rfl
  exact FieldLineGenerator.sourceCharge_near_positive Real.sqrt (exampleWideCharge (0 : ℝ) 1)
    (exampleWideCharge 1 (-1)) particles hscene ⟨2 / 5, 0, 0⟩
    (by rw [e1, e2, dipole_dist_plus _ (by norm_num), dipole_dist_minus _ (by norm_num)]
        norm_num)
    (by rw [e1, dipole_dist_plus _ (by norm_num)]; unfold DBL_MAX; norm_num)

/-- C21 fails on the code when footprints overlap: in the wide dipole the
point `(2/5,0,0)` lies inside the footprints of both charges, the source
charge of a line seeded there is the positive one, and neither the weak-field
nor the distance condition fires. Listed with the positive charge first, the
line does not end at that point but records it; listed with the negative
charge first, the line ends at that point as complete without recording it. -/
theorem C21_overlap_decided_by_list_order :
    Vec3.length Real.sqrt ((⟨2 / 5, 0, 0⟩ : Vec3 ℝ) - (exampleWideCharge (1 : ℝ) (-1)).position)
        < (exampleWideCharge (1 : ℝ) (-1)).visualRadius * 0.5
    ∧ (exampleWideCharge (1 : ℝ) (-1)).charge < 0
    ∧ (FieldLineGenerator.generate Real.sqrt floatCast (⟨2 / 5, 0, 0⟩ : Vec3 ℝ) exampleWideDipole
        exampleCoarseConfig true).sourceCharge = 1
    ∧ traceContinues Real.sqrt exampleWideDipole exampleCoarseConfig (1 : ℝ) ⟨2 / 5, 0, 0⟩
    ∧ (FieldLineGenerator.generate Real.sqrt floatCast (⟨2 / 5, 0, 0⟩ : Vec3 ℝ) exampleWideDipole
        exampleCoarseConfig true).points[0]? = some ⟨2 / 5, 0, 0⟩
    ∧ FieldLineGenerator.generate Real.sqrt floatCast (⟨2 / 5, 0, 0⟩ : Vec3 ℝ)
        [exampleWideCharge (1 : ℝ) (-1), exampleWideCharge 0 1] exampleCoarseConfig true
      = { points := []
          fieldMagnitudes := []
          sourceCharge := 1
          isComplete := true
          isForward := true } := by
  have e2 : (exampleWideCharge (1 : ℝ) (-1)).position
      = (exampleCharge (1 : ℝ) (-1)).position := rfl
  have r2 : (exampleWideCharge (1 : ℝ) (-1)).visualRadius = 4 := rfl
  have q2 : (exampleWideCharge (1 : ℝ) (-1)).charge = -1 := rfl
  have hsrc := wide_dipole_source exampleWideDipole (Or.inl rfl)
  have hsrc2 := wide_dipole_source [exampleWideCharge (1 : ℝ) (-1), exampleWideCharge 0 1]
    (Or.inr rfl)
  refine ⟨?_, ?_, ?_, wide_dipole_continues, ?_, ?_⟩
  · rw [e2, dipole_dist_minus _ (by norm_num), r2]
    norm_num
  · rw [q2]
    norm_num
  · obtain ⟨m, _, _, _, heq⟩ := FieldLineGenerator.generate_shape Real.sqrt floatCast
      (⟨2 / 5, 0, 0⟩ : Vec3 ℝ) exampleWideDipole exampleCoarseConfig true 1 hsrc
    rw [heq]
  · exact FieldLineGenerator.generate_points_get Real.sqrt floatCast (⟨2 / 5, 0, 0⟩ : Vec3 ℝ)
      exampleWideDipole exampleCoarseConfig true 1 hsrc 0 (by decide)
      (fun i hi => by
        have hi0 : i = 0 := by omega
        rw [hi0]
        exact wide_dipole_continues)
  · have hstop : ¬ traceContinues Real.sqrt
        [exampleWideCharge (1 : ℝ) (-1), exampleWideCharge 0 1] exampleCoarseConfig (1 : ℝ)
        (tracePoint Real.sqrt [exampleWideCharge (1 : ℝ) (-1), exampleWideCharge 0 1]
          exampleCoarseConfig true 0 ⟨2 / 5, 0, 0⟩) := by
      intro hc
      have h3 := hc.2.2
      have hp : tracePoint Real.sqrt [exampleWideCharge (1 : ℝ) (-1), exampleWideCharge 0 1]
          exampleCoarseConfig true 0 (⟨2 / 5, 0, 0⟩ : Vec3 ℝ) = ⟨2 / 5, 0, 0⟩ := rfl
      rw [hp, wide_dipole_reversed_stops] at h3
      exact absurd h3 (by decide)
    rw [FieldLineGenerator.generate_of_stop Real.sqrt floatCast _ _ exampleCoarseConfig true 1 0
      hsrc2 (by decide) (fun j hj => absurd hj (Nat.not_lt_zero j)) hstop]
    rfl

end RealEvaluationOverlap

/-! ## Seed points -/

namespace FieldLineGenerator

variable {F : Type} [LinearOrderedField F] (sqrt cos sin : F → F)

theorem seedPoint_eq (source : Particle F) (count : Int) (hcount : count ≠ 1) (i : Nat) :
    seedPoint sqrt cos sin source count i = some (seedVector sqrt cos sin source count i) := by
  have hden : ¬ ((count : F) - 1.0 = 0) := by
    intro h
    have h1 : (count : F) = ((1 : Int) : F) := by
      push_cast
      norm_num at h
      linarith
    exact hcount (Int.cast_injective h1)
  unfold seedPoint seedVector seedHeight
  simp only [if_neg hden]
  norm_num

/-- For a count other than `1` that is not negative the result is the list of
the `count` seed points of the specification. -/
theorem generateSeedPoints_eq (source : Particle F) (count : Int) (h0 : 0 ≤ count)
    (hcount : count ≠ 1) :
    generateSeedPoints sqrt cos sin source count
      = some (((List.range count.toNat).map (seedVector sqrt cos sin source count)).map some) := by
  unfold generateSeedPoints
  rw [if_neg (not_lt.mpr h0), List.map_map]
  congr 1
  apply List.map_congr_left
  intro i _
  exact seedPoint_eq sqrt cos sin source count hcount i

/-- The result reads of the particle only the position and the visual
radius. -/
theorem generateSeedPoints_congr (s1 s2 : Particle F) (count : Int)
    (hpos : s1.position = s2.position) (hrad : s1.visualRadius = s2.visualRadius) :
    generateSeedPoints sqrt cos sin s1 count = generateSeedPoints sqrt cos sin s2 count := by
  unfold generateSeedPoints seedPoint
  rw [hpos, hrad]

theorem generateSeedPoints_zero (source : Particle F) :
    generateSeedPoints sqrt cos sin source 0 = some [] := by
  unfold generateSeedPoints
  simp

theorem seedHeight_bounds (count : Int) (hcount : 2 ≤ count) (i : Nat)
    (hi : i < count.toNat) :
    (-1 : F) ≤ (seedHeight count i : F) ∧ (seedHeight count i : F) ≤ 1 := by
  have hc : (2 : F) ≤ (count : F) := by exact_mod_cast hcount
  have hi2 : (i : F) ≤ (count : F) - 1 := by
    have h1 : ((i : Int) : F) ≤ ((count - 1 : Int) : F) := by
      apply Int.cast_le.mpr
      omega
    push_cast at h1
    exact h1
  have hi0 : (0 : F) ≤ (i : F) := Nat.cast_nonneg i
  have hd : (0 : F) < (count : F) - 1 := by linarith
  unfold seedHeight
  constructor
  · rw [neg_le_sub_iff_le_add, div_le_iff₀ hd]
    linarith
  · have : 0 ≤ 2 * (i : F) / ((count : F) - 1) := div_nonneg (by linarith) (le_of_lt hd)
    linarith

/-- Every seed point of the specification lies at the visual radius from the
position of the charge. -/
theorem seedVector_distance (hs : SqrtSpec sqrt)
    (htrig : ∀ t, cos t * cos t + sin t * sin t = 1) (source : Particle F) (count : Int)
    (hr : 0 ≤ source.visualRadius) (hcount : 2 ≤ count) (i : Nat) (hi : i < count.toNat) :
    Vec3.length sqrt (seedVector sqrt cos sin source count i - source.position)
      = source.visualRadius := by
  obtain ⟨hy1, hy2⟩ := seedHeight_bounds (F := F) count hcount i hi
  have hnn : (0 : F) ≤ 1 - seedHeight count i * seedHeight count i := by
    have h1 : (0 : F) ≤ 1 - seedHeight count i := by linarith
    have h2 : (0 : F) ≤ 1 + seedHeight count i := by linarith
    nlinarith [mul_nonneg h1 h2]
  have hsq := (hs _ hnn).2
  have ht := htrig (GOLDEN_ANGLE sqrt * (i : F))
  unfold seedVector
  rw [Vec3.add_sub_cancel_vec]
  apply Vec3.length_eq_of_sq hs _ _ hr
  rw [Vec3.dot_smul_self]
  have hv : Vec3.dot
      (⟨cos (GOLDEN_ANGLE sqrt * (i : F)) * sqrt (1 - seedHeight count i * seedHeight count i),
        seedHeight count i,
        sin (GOLDEN_ANGLE sqrt * (i : F))
          * sqrt (1 - seedHeight count i * seedHeight count i)⟩ : Vec3 F)
      ⟨cos (GOLDEN_ANGLE sqrt * (i : F)) * sqrt (1 - seedHeight count i * seedHeight count i),
        seedHeight count i,
        sin (GOLDEN_ANGLE sqrt * (i : F))
          * sqrt (1 - seedHeight count i * seedHeight count i)⟩ = 1 := by
    unfold Vec3.dot
    dsimp only
    generalize sqrt (1 - seedHeight count i * seedHeight count i) = s at hsq
    generalize cos (GOLDEN_ANGLE sqrt * (i : F)) = c at ht
    generalize sin (GOLDEN_ANGLE sqrt * (i : F)) = d at ht
    have e : c * s * (c * s) + seedHeight count i * seedHeight count i + d * s * (d * s)
        = (c * c + d * d) * (s * s) + seedHeight count i * seedHeight count i := by ring
    rw [e, ht, hsq]
    ring
  rw [hv, mul_one]

end FieldLineGenerator

namespace FieldLineGenerator

variable {F : Type} [LinearOrderedField F] (sqrt cos sin : F → F)

theorem sqrt_zero_of_spec (hs : SqrtSpec sqrt) : sqrt 0 = 0 :=
  mul_self_eq_zero.mp (hs 0 (le_refl 0)).2

theorem seedVector_y (source : Particle F) (count : Int) (i : Nat) :
    (seedVector sqrt cos sin source count i).y - source.position.y
      = source.visualRadius * seedHeight count i := by
  unfold seedVector
  simp

theorem seedHeight_lt (count : Int) (hcount : 2 ≤ count) (i j : Nat) (hij : i < j) :
    (seedHeight count j : F) < seedHeight count i := by
  have hc : (2 : F) ≤ (count : F) := by exact_mod_cast hcount
  have hd : (0 : F) < (count : F) - 1 := by linarith
  have hlt : (i : F) < (j : F) := Nat.cast_lt.mpr hij
  unfold seedHeight
  have h2 : 2 * (i : F) / ((count : F) - 1) < 2 * (j : F) / ((count : F) - 1) :=
    div_lt_div_of_pos_right (by linarith) hd
  linarith

theorem seedVector_first (hs : SqrtSpec sqrt) (source : Particle F) (count : Int) :
    seedVector sqrt cos sin source count 0
      = source.position + (⟨0, source.visualRadius, 0⟩ : Vec3 F) := by
  have h0 : (seedHeight count 0 : F) = 1 := by
    unfold seedHeight
    simp
  unfold seedVector
  rw [h0]
  have e : (1 : F) - 1 * 1 = 0 := by ring
  rw [e, sqrt_zero_of_spec sqrt hs]
  ext <;> simp

theorem seedVector_last (hs : SqrtSpec sqrt) (source : Particle F) (count : Int)
    (hcount : 2 ≤ count) :
    seedVector sqrt cos sin source count (count.toNat - 1)
      = source.position - (⟨0, source.visualRadius, 0⟩ : Vec3 F) := by
  have hc : (2 : F) ≤ (count : F) := by exact_mod_cast hcount
  have hd : (count : F) - 1 ≠ 0 := by
    intro h
    linarith
  have hcast : ((count.toNat - 1 : Nat) : F) = (count : F) - 1 := by
    have h1 : ((count.toNat - 1 : Nat) : Int) = count - 1 := by omega
    have h2 : (((count.toNat - 1 : Nat) : Int) : F) = ((count - 1 : Int) : F) := by rw [h1]
    push_cast at h2
    rw [← h2]
  have h0 : (seedHeight count (count.toNat - 1) : F) = -1 := by
    unfold seedHeight
    rw [hcast]
    field_simp
    norm_num
  unfold seedVector
  rw [h0]
  have e : (1 : F) - -1 * -1 = 0 := by ring
  rw [e, sqrt_zero_of_spec sqrt hs]
  ext <;> simp
  ring

/-- C24 fails on the code: for `N = 1` the divisor `count - 1.0` is zero and
the only point returned is not a number, and for a negative `N` the call
`reserve(count)` throws instead of returning an empty list. -/
theorem C24_single_seed_is_not_a_number (source : Particle F) :
    generateSeedPoints sqrt cos sin source 1 = some [none]
      ∧ generateSeedPoints sqrt cos sin source (-1) = none := by
  constructor
  · unfold generateSeedPoints seedPoint
    norm_num
  · unfold generateSeedPoints
    norm_num

/-- C25: for a charge with visual radius `> 0` and `N >= 2` the call
`generateSeedPoints(charge, N)` returns `N` points; the offset of the `i`-th
point along the y axis is `radius*(1 - 2i/(N-1))`, these offsets are strictly
decreasing, so the points are pairwise distinct; the first point is the
position of the charge `+ (0, radius, 0)` and the last is the position
`- (0, radius, 0)`. -/
theorem C25_seed_points_distinct (hs : SqrtSpec sqrt) (source : Particle F) (count : Int)
    (hr : 0 < source.visualRadius) (hcount : 2 ≤ count) :
    ∃ pts : List (Vec3 F),
      generateSeedPoints sqrt cos sin source count = some (pts.map some)
        ∧ pts.length = count.toNat
        ∧ (∀ i, i < count.toNat → ∃ a, pts[i]? = some a
            ∧ a.y - source.position.y = source.visualRadius * seedHeight count i)
        ∧ (∀ (i j : Nat) (a b : Vec3 F), i < j → pts[i]? = some a → pts[j]? = some b →
            b.y - source.position.y < a.y - source.position.y ∧ a ≠ b)
        ∧ pts[0]? = some (source.position + (⟨0, source.visualRadius, 0⟩ : Vec3 F))
        ∧ pts[count.toNat - 1]?
            = some (source.position - (⟨0, source.visualRadius, 0⟩ : Vec3 F)) := by
  have hget : ∀ i, i < count.toNat →
      ((List.range count.toNat).map (seedVector sqrt cos sin source count))[i]?
        = some (seedVector sqrt cos sin source count i) := by
    intro i hi
    rw [List.getElem?_map, List.getElem?_range hi]
    rfl
  have hlen : ((List.range count.toNat).map (seedVector sqrt cos sin source count)).length
      = count.toNat := by
    simp
  refine ⟨(List.range count.toNat).map (seedVector sqrt cos sin source count),
    generateSeedPoints_eq sqrt cos sin source count (by omega) (by omega), hlen, ?_, ?_, ?_, ?_⟩
  · intro i hi
    exact ⟨_, hget i hi, seedVector_y sqrt cos sin source count i⟩
  · intro i j a b hij ha hb
    have hj : j < count.toNat := by
      have := (List.getElem?_eq_some_iff.mp hb).1
      omega
    have ea := Option.some.inj ((hget i (by omega)).symm.trans ha)
    have eb := Option.some.inj ((hget j hj).symm.trans hb)
    have hlt : b.y - source.position.y < a.y - source.position.y := by
      rw [← ea, ← eb, seedVector_y, seedVector_y]
      exact mul_lt_mul_of_pos_left (seedHeight_lt count hcount i j hij) hr
    refine ⟨hlt, ?_⟩
    intro hab
    rw [hab] at hlt
    exact absurd hlt (lt_irrefl _)
  · rw [hget 0 (by omega), seedVector_first sqrt cos sin hs]
  · rw [hget (count.toNat - 1) (by omega), seedVector_last sqrt cos sin hs source count hcount]

end FieldLineGenerator

section RealEvaluationSeeds

theorem C25_seed_points_distinct_witness :
    ∃ pts : List (Vec3 ℝ),
      FieldLineGenerator.generateSeedPoints Real.sqrt Real.cos Real.sin
          (exampleCharge (0 : ℝ) 1) 2 = some (pts.map some)
        ∧ pts.length = 2
        ∧ pts[0]? = some ((exampleCharge (0 : ℝ) 1).position
            + (⟨0, (exampleCharge (0 : ℝ) 1).visualRadius, 0⟩ : Vec3 ℝ))
        ∧ pts[1]? = some ((exampleCharge (0 : ℝ) 1).position
            - (⟨0, (exampleCharge (0 : ℝ) 1).visualRadius, 0⟩ : Vec3 ℝ)) := by
  obtain ⟨pts, h1, h2, _, _, h5, h6⟩ :=
    FieldLineGenerator.C25_seed_points_distinct Real.sqrt Real.cos Real.sin realSqrtSpec
      (exampleCharge (0 : ℝ) 1) 2 (by show (0 : ℝ) < 2 / 5; norm_num) (le_refl 2)
  exact ⟨pts, h1, h2, h5, h6⟩

end RealEvaluationSeeds

/-! ## Field-line cache -/

namespace FieldLineManager

variable {F : Type} [LinearOrderedField F] (sqrt : F → F)
  (generateAll : List (Particle F) → FieldLineConfig F → List (FieldLine F))

theorem getFieldLines_regenerates (now : F) (particles : List (Particle F))
    (config : FieldLineConfig F) (mgr : FieldLineManager F)
    (h : needsRegeneration sqrt now particles mgr = true) :
    getFieldLines sqrt generateAll now particles config mgr
      = { mgr with
          m_cachedLines := generateAll particles config
          m_lastParticlePositions := particles.map (fun p => p.position)
          m_dirty := false
          m_lastRegenerationTime := now } := by
  unfold getFieldLines
  rw [if_pos h]

theorem getFieldLines_cached (now : F) (particles : List (Particle F))
    (config : FieldLineConfig F) (mgr : FieldLineManager F)
    (h : needsRegeneration sqrt now particles mgr = false) :
    getFieldLines sqrt generateAll now particles config mgr = mgr := by
  unfold getFieldLines
  rw [if_neg (by rw [h]; decide)]

/-- The call regenerates exactly when the manager is dirty, or the particles
have moved, or the minimum interval has elapsed: the three tests are joined
by `||`. -/
theorem needsRegeneration_iff (now : F) (particles : List (Particle F))
    (mgr : FieldLineManager F) :
    needsRegeneration sqrt now particles mgr = true
      ↔ (mgr.m_dirty = true ∨ particlesHaveMoved sqrt particles mgr = true
          ∨ now - mgr.m_lastRegenerationTime ≥ 1.0 / mgr.m_maxRegenerationRate) := by
  unfold needsRegeneration shouldRegenerate
  simp only [Bool.or_eq_true, decide_eq_true_eq, or_assoc]

/-- No particle has moved with respect to a snapshot of the same positions. -/
theorem particlesHaveMovedLoop_same (hs : SqrtSpec sqrt) :
    ∀ (particles : List (Particle F)),
      particlesHaveMovedLoop sqrt particles (particles.map (fun p => p.position)) = false := by
  intro particles
  induction particles with
  | nil => rfl
  | cons p ps ih =>
    have h0 : ¬ Vec3.length sqrt (p.position - p.position) > (MOVEMENT_THRESHOLD : F) := by
      rw [Vec3.sub_self_eq_zero, Vec3.length_zero hs]
      unfold MOVEMENT_THRESHOLD
      norm_num
    simp only [List.map_cons, particlesHaveMovedLoop, if_neg h0]
    exact ih

theorem particlesHaveMoved_same (hs : SqrtSpec sqrt) (particles : List (Particle F))
    (mgr : FieldLineManager F)
    (hsnap : mgr.m_lastParticlePositions = particles.map (fun p => p.position)) :
    particlesHaveMoved sqrt particles mgr = false := by
  unfold particlesHaveMoved
  rw [hsnap, if_neg (by simp)]
  exact particlesHaveMovedLoop_same sqrt hs particles

/-- After a call that regenerated, a second call with the same positions that
comes before the minimum interval has elapsed returns the cache and leaves
the manager as it was. -/
theorem getFieldLines_twice_after_regeneration (hs : SqrtSpec sqrt) (t1 t2 : F)
    (ps1 ps2 : List (Particle F)) (c1 c2 : FieldLineConfig F) (mgr : FieldLineManager F)
    (hregen : needsRegeneration sqrt t1 ps1 mgr = true)
    (hsame : ps2.map (fun p => p.position) = ps1.map (fun p => p.position))
    (hsoon : t2 - t1 < 1.0 / mgr.m_maxRegenerationRate) :
    getFieldLines sqrt generateAll t2 ps2 c2 (getFieldLines sqrt generateAll t1 ps1 c1 mgr)
      = getFieldLines sqrt generateAll t1 ps1 c1 mgr := by
  rw [getFieldLines_regenerates sqrt generateAll t1 ps1 c1 mgr hregen]
  apply getFieldLines_cached
  unfold needsRegeneration shouldRegenerate
  rw [particlesHaveMoved_same sqrt hs ps2 _ hsame.symm]
  simp only [Bool.false_or, decide_eq_false_iff_not, not_le, ge_iff_le]
  exact hsoon

end FieldLineManager

section RealEvaluationCache

variable (generateAll : List (Particle ℝ) → FieldLineConfig ℝ → List (FieldLine ℝ))

/-- The example manager after its first request: clean, with the snapshot of
the dipole, regenerated at time `0`. -/
theorem exampleManager_eq :
    exampleManager Real.sqrt generateAll
      = { m_cachedLines := generateAll exampleDipole exampleCoarseConfig
          m_lastParticlePositions := exampleDipole.map (fun p => p.position)
          m_dirty := false
          m_maxRegenerationRate := 10.0
          m_lastRegenerationTime := 0 } := by
  unfold exampleManager
  rw [FieldLineManager.getFieldLines_regenerates Real.sqrt generateAll 0 exampleDipole
    exampleCoarseConfig (FieldLineManager.init 0) rfl]
  rfl

theorem exampleManager_not_moved :
    FieldLineManager.particlesHaveMoved Real.sqrt exampleDipole
      (exampleManager Real.sqrt generateAll) = false :=
  FieldLineManager.particlesHaveMoved_same Real.sqrt realSqrtSpec exampleDipole _
    (by rw [exampleManager_eq])

/-- The example manager regenerates on a request made at time `t` exactly
when a tenth of a second has elapsed. -/
theorem exampleManager_needs (t : ℝ) :
    FieldLineManager.needsRegeneration Real.sqrt t exampleDipole
      (exampleManager Real.sqrt generateAll) = decide (1 / 10 ≤ t) := by
  unfold FieldLineManager.needsRegeneration FieldLineManager.shouldRegenerate
  rw [exampleManager_not_moved, exampleManager_eq]
  simp only [Bool.false_or, sub_zero, ge_iff_le]
  congr 1
  norm_num

/-- C26 fails on the code: a fresh manager, dirty and built at time `0`,
regenerates on a request made at time `0`, before the minimum interval of a
tenth of a second has elapsed; and the manager it has become, clean and with
no particle moved, regenerates again on a request made at time `1`. -/
theorem C26_rate_limit_is_not_a_gate :
    (FieldLineManager.init (0 : ℝ)).m_dirty = true
    ∧ (0 : ℝ) - (FieldLineManager.init (0 : ℝ)).m_lastRegenerationTime
        < 1 / (FieldLineManager.init (0 : ℝ)).m_maxRegenerationRate
    ∧ FieldLineManager.needsRegeneration Real.sqrt 0 exampleDipole
        (FieldLineManager.init (0 : ℝ)) = true
    ∧ (FieldLineManager.getFieldLines Real.sqrt generateAll 0 exampleDipole exampleCoarseConfig
        (FieldLineManager.init 0)).m_dirty = false
    ∧ (exampleManager Real.sqrt generateAll).m_dirty = false
    ∧ FieldLineManager.particlesHaveMoved Real.sqrt exampleDipole
        (exampleManager Real.sqrt generateAll) = false
    ∧ (exampleManager Real.sqrt generateAll).m_lastRegenerationTime = 0
    ∧ FieldLineManager.needsRegeneration Real.sqrt 1 exampleDipole
        (exampleManager Real.sqrt generateAll) = true
    ∧ (FieldLineManager.getFieldLines Real.sqrt generateAll 1 exampleDipole exampleCoarseConfig
        (exampleManager Real.sqrt generateAll)).m_lastRegenerationTime = 1 := by
  have hneeds : FieldLineManager.needsRegeneration Real.sqrt 1 exampleDipole
      (exampleManager Real.sqrt generateAll) = true := by
    rw [exampleManager_needs]
    exact decide_eq_true (by norm_num)
  refine ⟨rfl, ?_, rfl, ?_, ?_, exampleManager_not_moved generateAll, ?_, hneeds, ?_⟩
  · show (0 : ℝ) - 0 < 1 / 10.0
    norm_num
  · have h := exampleManager_eq generateAll
    unfold exampleManager at h
    rw [h]
  · rw [exampleManager_eq]
  · rw [exampleManager_eq]
  · rw [FieldLineManager.getFieldLines_regenerates Real.sqrt generateAll 1 exampleDipole
      exampleCoarseConfig _ hneeds]

/-- C27 fails on the code: the example manager, regenerated at time `0`, is
asked twice for the lines of the unmoved dipole, at times `3/50` and `11/100`,
less than a tenth of a second apart and with no `markDirty` in between. The
first call returns the cache and changes nothing; the second call
regenerates and moves the last-regeneration time from `0` to `11/100`. -/
theorem C27_second_call_regenerates :
    FieldLineManager.getFieldLines Real.sqrt generateAll (3 / 50) exampleDipole
        exampleCoarseConfig (exampleManager Real.sqrt generateAll)
      = exampleManager Real.sqrt generateAll
    ∧ (11 / 100 : ℝ) - 3 / 50 < 1 / (exampleManager Real.sqrt generateAll).m_maxRegenerationRate
    ∧ (exampleManager Real.sqrt generateAll).m_dirty = false
    ∧ (exampleManager Real.sqrt generateAll).m_lastRegenerationTime = 0
    ∧ FieldLineManager.needsRegeneration Real.sqrt (11 / 100) exampleDipole
        (FieldLineManager.getFieldLines Real.sqrt generateAll (3 / 50) exampleDipole
          exampleCoarseConfig (exampleManager Real.sqrt generateAll)) = true
    ∧ (FieldLineManager.getFieldLines Real.sqrt generateAll (11 / 100) exampleDipole
        exampleCoarseConfig
        (FieldLineManager.getFieldLines Real.sqrt generateAll (3 / 50) exampleDipole
          exampleCoarseConfig (exampleManager Real.sqrt generateAll))).m_lastRegenerationTime
      = 11 / 100 := by
  have hfirst : FieldLineManager.getFieldLines Real.sqrt generateAll (3 / 50) exampleDipole
      exampleCoarseConfig (exampleManager Real.sqrt generateAll)
      = exampleManager Real.sqrt generateAll := by
    apply FieldLineManager.getFieldLines_cached
    rw [exampleManager_needs]
    exact decide_eq_false (by norm_num)
  have hneeds : FieldLineManager.needsRegeneration Real.sqrt (11 / 100) exampleDipole
      (exampleManager Real.sqrt generateAll) = true := by
    rw [exampleManager_needs]
    exact decide_eq_true (by norm_num)
  refine ⟨hfirst, ?_, ?_, ?_, ?_, ?_⟩
  · rw [exampleManager_eq]
    norm_num
  · rw [exampleManager_eq]
  · rw [exampleManager_eq]
  · rw [hfirst]
    exact hneeds
  · rw [hfirst, FieldLineManager.getFieldLines_regenerates Real.sqrt generateAll (11 / 100)
      exampleDipole exampleCoarseConfig _ hneeds]

end RealEvaluationCache

/-! ## Narrowing to `float` -/

section FloatCastFacts

variable {F : Type} [LinearOrderedField F] [FloorRing F]

end FloatCastFacts

section RealEvaluationFloat

end RealEvaluationFloat

end ChargedParticleSim
